import Mathlib

/-!
# pngb: a shallow embedding of the PNG to Game Boy tile converter

The definitions below follow `src/pngb.c`, `src/pngb.h` and `src/main.c`.

Modelling conventions
* A C buffer is a `List Nat`; `rd` reads a cell (0 outside the buffer) and `wr`
  writes one (no effect outside the buffer). Theorems that need the accesses
  to stay inside the buffers carry the sizes `allocate_gb_pict` gives them as
  a hypothesis (`PICDATA.wf`).
* `BYTE` values are naturals; a store into a `BYTE` that can leave the range
  is written with an explicit `% 256`.
* `int` and `unsigned int` counters are naturals: the tile and pixel counts of
  the images handled here are taken to stay below the machine word size.
* A C `for` loop with a fixed trip count is `loop n body s`; the `while` loop
  of `do_tile_reduction`, whose bound moves, runs on fuel and returns `none`
  when the fuel is used up.
* `double` arithmetic is IEEE 754 binary64 with rounding to nearest, computed
  exactly on natural numbers (`round53`, `color_light_val`). The functions on
  palettes take the lightness function as a parameter `lv`; `color_light_val`
  meets the condition `light_spec` the theorems ask of it.
* `globalOpts` is passed explicitly; a function that prints and changes the
  options returns the new options and the messages (`gb_check_warnings`).
-/

namespace Pngb

/-! ## Buffers and loops -/

/-- Read cell `i` of a buffer. -/
def rd (m : List Nat) (i : Nat) : Nat := m.getD i 0

/-- Write `v` into cell `i` of a buffer. -/
def wr (m : List Nat) (i v : Nat) : List Nat := m.set i v

/-- The loop `for (i = 0; i < n; i++) s = body i s`. -/
def loop {σ : Type} (n : Nat) (body : Nat → σ → σ) (s : σ) : σ :=
  (List.range n).foldl (fun acc i => body i acc) s

/-! ## Data structures (pngb.h) -/

/-- Palette entry with its lightness, `RGB_PALETTE_ENTRY` in pngb.h. -/
structure RGB_PALETTE_ENTRY where
  r : Nat
  g : Nat
  b : Nat
  L : Nat
deriving DecidableEq, Repr

/-- Output target, `TARGET_TYPE` in pngb.h. -/
inductive TARGET_TYPE where
  | TARGET_BKG
  | TARGET_SPRITE
  | TARGET_WINDOW
deriving DecidableEq, Repr

open TARGET_TYPE

/-- Global options, `OPTIONS` in pngb.h. The `int` flags are booleans
(`true` for a non-zero value). -/
structure OPTIONS where
  type : TARGET_TYPE
  transparent : Int
  grayscale : Bool
  create_palette : Bool
  sort_palette : Bool
  create_map : Bool
  palnumber : Nat
  big_sprite : Bool
  test_code : Bool
  tile_reduction : Bool
  baseindex : Nat
  verbose : Bool
  name : List Nat
deriving DecidableEq, Repr

/-- Picture data, `PICDATA` in pngb.h. -/
structure PICDATA where
  w : Nat
  h : Nat
  cols : Nat
  rows : Nat
  tileh : Nat
  total_tiles : Nat
  tiles : List Nat
  tilemap : List Nat
  pal : List Nat
deriving DecidableEq, Repr

/-- Buffer sizes established by `allocate_gb_pict`: `tiles` holds
`cols*rows*tileh*2` bytes and `tilemap` holds `cols*rows` entries. -/
def PICDATA.wf (pic : PICDATA) : Prop :=
  pic.tiles.length = pic.cols * pic.rows * pic.tileh * 2 ∧
  pic.tilemap.length = pic.cols * pic.rows

instance (pic : PICDATA) : Decidable pic.wf := by
  unfold PICDATA.wf; infer_instance

/-! ## Palette and colour handling (pngb.c) -/

/-- Constant `BLACK_VAL` of pngb.h. -/
def BLACK_VAL : Nat := 0
/-- Constant `DARKGRAY_VAL` of pngb.h. -/
def DARKGRAY_VAL : Nat := 82
/-- Constant `LIGHTGRAY_VAL` of pngb.h. -/
def LIGHTGRAY_VAL : Nat := 172
/-- Constant `WHITE_VAL` of pngb.h. -/
def WHITE_VAL : Nat := 255

/-- Read entry `i` of a palette (the zero entry outside the buffer). -/
def prd (pal : List RGB_PALETTE_ENTRY) (i : Nat) : RGB_PALETTE_ENTRY :=
  pal.getD i ⟨0, 0, 0, 0⟩

/-- Source `is8x16Mode`. -/
def is8x16Mode (opts : OPTIONS) : Bool :=
  opts.big_sprite && decide (opts.type = TARGET_SPRITE)

/-- The number of low bits a natural number has beyond its 53 leading ones (0 when it has
at most 53 bits). The first argument bounds the number of halvings; `N` itself is enough. -/
def excess_bits : Nat → Nat → Nat
  | 0, _ => 0
  | fuel + 1, N => if N < 2 ^ 53 then 0 else excess_bits fuel (N / 2) + 1

/-- The rounding of an IEEE 754 binary64 operation on a positive value in the normal range:
the nearest number with 53 significant bits, ties to the even one. A value is given by its
count of units of `2^-56`. -/
def round53 (N : Nat) : Nat :=
  let sh := excess_bits N N
  let q := N >>> sh
  let rem := N % 2 ^ sh
  if sh = 0 then N
  else if rem > 2 ^ (sh - 1) ∨ (rem = 2 ^ (sh - 1) ∧ q % 2 = 1) then (q + 1) <<< sh
  else q <<< sh

/-- The `double` constant `0.2989`, in units of `2^-56` (`0x1.3212d77318fc5p-2`). -/
def D_2989 : Nat := 21538014857936660
/-- The `double` constant `0.5870`, in units of `2^-56` (`0x1.2c8b439581062p-1`). -/
def D_5870 : Nat := 42297807700263696
/-- The `double` constant `0.1140`, in units of `2^-56` (`0x1.d2f1a9fbe76c9p-4`). -/
def D_1140 : Nat := 8214565720323785

/-- Source `color_light_val`: `return 0.2989*r + 0.5870*g + 0.1140*b;` with a `BYTE` result.
`double` is taken to be IEEE 754 binary64, every product and sum rounded to nearest on its
own (no fused multiply-add, no extended precision); the bytes convert to `double` exactly,
the sum is `(0.2989*r + 0.5870*g) + 0.1140*b`, and the conversion of the result to `BYTE`
drops the fraction. -/
def color_light_val (r g b : Nat) : Nat :=
  (round53 (round53 (round53 (D_2989 * r) + round53 (D_5870 * g)) + round53 (D_1140 * b))
    >>> 56) % 256

/-- Source `set_palette_color`. `lv` is the function `color_light_val` computes in floating
point; its result is stored in a `BYTE`. -/
def set_palette_color (lv : Nat → Nat → Nat → Nat) (r g b : Nat) : RGB_PALETTE_ENTRY :=
  { r := r, g := g, b := b, L := lv r g b % 256 }

/-- Source `find_palette_color`: the first index below `tcolors` whose entry has the
colour `(r, g, b)`, or `-1`. -/
def find_palette_color (r g b : Nat) (palette : List RGB_PALETTE_ENTRY) (tcolors : Nat) : Int :=
  match (List.range tcolors).find?
      (fun i => decide ((prd palette i).r = r ∧ (prd palette i).g = g ∧ (prd palette i).b = b))
  with
  | some i => (i : Int)
  | none => -1

/-- Source `create_gb_gray_pal`. -/
def create_gb_gray_pal (lv : Nat → Nat → Nat → Nat) : List RGB_PALETTE_ENTRY :=
  [set_palette_color lv WHITE_VAL WHITE_VAL WHITE_VAL,
   set_palette_color lv LIGHTGRAY_VAL LIGHTGRAY_VAL LIGHTGRAY_VAL,
   set_palette_color lv DARKGRAY_VAL DARKGRAY_VAL DARKGRAY_VAL,
   set_palette_color lv BLACK_VAL BLACK_VAL BLACK_VAL]

/-- Source `match_lightness`. The loop state is `(nearest, shortestdist)`; `d` is a `BYTE`. -/
def match_lightness (lightness : Nat) (intensity_set : List Nat) (set_count : Nat) : Nat :=
  (loop (set_count - 1) (fun k (st : Nat × Nat) =>
      let c := k + 1
      let d := Int.natAbs ((rd intensity_set c : Int) - (lightness : Int)) % 256
      if d < st.2 then (c, d) else st)
    (0, Int.natAbs ((rd intensity_set 0 : Int) - (lightness : Int)))).1

/-- Source `intensity_to_shades`. -/
def intensity_to_shades (opts : OPTIONS) (lightness : Nat) : Nat :=
  let intensities := [WHITE_VAL, LIGHTGRAY_VAL, DARKGRAY_VAL, BLACK_VAL]
  if opts.type = TARGET_SPRITE then match_lightness lightness (intensities.drop 1) 3 + 1
  else match_lightness lightness intensities 4

/-- Source `swap_palette_entries`, on the entries at positions `a` and `b` of a palette. -/
def swap_palette_entries (palette : List RGB_PALETTE_ENTRY) (a b : Nat) :
    List RGB_PALETTE_ENTRY :=
  if a = b then palette
  else
    let temp := prd palette b
    (palette.set b (prd palette a)).set a temp

/-- Source `swap_palette_indexes`. -/
def swap_palette_indexes (palette_map : List Nat) (a b tColors : Nat) : List Nat :=
  if a = b then palette_map
  else
    loop tColors (fun c m =>
      if rd m c = a then wr m c b
      else if rd m c = b then wr m c a
      else m) palette_map

/-- One run of the `for` loop of `sort_palette`, from `i = startAt + 1` while `i < n`. The
state is `(palette, palette_map, newn)`. -/
def sort_palette_pass (tColors startAt n : Nat)
    (st : List RGB_PALETTE_ENTRY × List Nat × Nat) : List RGB_PALETTE_ENTRY × List Nat × Nat :=
  loop (n - (startAt + 1)) (fun k st =>
      let i := startAt + 1 + k
      if (prd st.1 (i - 1)).L < (prd st.1 i).L then
        (swap_palette_entries st.1 (i - 1) i, swap_palette_indexes st.2.1 (i - 1) i tColors, i)
      else st) st

/-- The `do ... while (n > startAt)` loop of `sort_palette`, on fuel. -/
def sort_palette_loop : Nat → List RGB_PALETTE_ENTRY → List Nat → Nat → Nat → Nat →
    Option (List RGB_PALETTE_ENTRY × List Nat)
  | 0, _, _, _, _, _ => none
  | fuel + 1, palette, palette_map, tColors, startAt, n =>
    let r := sort_palette_pass tColors startAt n (palette, palette_map, startAt)
    if r.2.2 > startAt then sort_palette_loop fuel r.1 r.2.1 tColors startAt r.2.2
    else some (r.1, r.2.1)

/-- Source `sort_palette`. -/
def sort_palette (palette : List RGB_PALETTE_ENTRY) (palette_map : List Nat)
    (tColors startAt : Nat) : Option (List RGB_PALETTE_ENTRY × List Nat) :=
  sort_palette_loop (tColors + 1) palette palette_map tColors startAt tColors

/-! ## GB picture data handling (pngb.c) -/

/-- Source `allocate_gb_pict`. `pal0` stands for the indeterminate contents of the
`pal` words of the freshly allocated structure. -/
def allocate_gb_pict (w h : Nat) (_16hMode : Bool) (pal0 : List Nat) : PICDATA :=
  let tileh := if _16hMode then 16 else 8
  let cols := if w % 8 = 0 then w / 8 else w / 8 + 1
  let rows := if h % tileh = 0 then h / tileh else h / tileh + 1
  let total_tiles := cols * rows
  let tBytes := total_tiles * tileh * 2
  let tiles := List.replicate tBytes 0
  let tilemap := loop total_tiles (fun t m => wr m t t) (List.replicate total_tiles 0)
  { w := w, h := h, cols := cols, rows := rows, tileh := tileh,
    total_tiles := total_tiles, tiles := tiles, tilemap := tilemap, pal := pal0 }

/-- Source `set_tile_pixel`. `mask` is a `BYTE`, so `~mask` restricted to a byte
is `0xFF ^^^ mask`. -/
def set_tile_pixel (data : PICDATA) (tile x y color : Nat) : PICDATA :=
  if tile ≥ data.cols * data.rows ∨ x ≥ 8 ∨ y ≥ data.tileh ∨ color ≥ 4 then data
  else
    let base := tile * data.tileh * 2 + y * 2
    let mask := 0x80 >>> x
    let t1 := wr data.tiles base (rd data.tiles base &&& (0xFF ^^^ mask))
    let t2 := wr t1 (base + 1) (rd t1 (base + 1) &&& (0xFF ^^^ mask))
    let t3 := if color &&& 1 ≠ 0 then wr t2 base (rd t2 base ||| mask) else t2
    let t4 := if color &&& 2 ≠ 0 then wr t3 (base + 1) (rd t3 (base + 1) ||| mask) else t3
    { data with tiles := t4 }

/-- Source `get_tile_row`. -/
def get_tile_row (data : PICDATA) (tile row : Nat) : Nat :=
  if row ≥ data.tileh ∨ tile ≥ data.cols * data.rows then 0
  else
    let base := tile * data.tileh * 2 + row * 2
    ((rd data.tiles base <<< 8) ||| (rd data.tiles (base + 1) &&& 0xff)) % 65536

/-- Source `set_gb_pal_entry`. The word stored is an `unsigned short`. -/
def set_gb_pal_entry (data : PICDATA) (index r g b : Nat) : PICDATA :=
  if index ≥ 4 then data
  else
    let word := ((r >>> 3) ||| ((g >>> 3) <<< 5) ||| ((b >>> 3) <<< 10)) % 65536
    let pal := wr data.pal index word
    { data with pal := pal }

/-- Decoding of the 2bpp layout of spec section 4.3: bit `7 - x` of byte `2*y`
of the tile is the low bit of the colour at `(x, y)`, the same bit of byte
`2*y + 1` the high bit. -/
def decode_pixel (tiles : List Nat) (tileh tile x y : Nat) : Nat :=
  let base := tile * tileh * 2 + y * 2
  ((rd tiles base >>> (7 - x)) &&& 1) + 2 * ((rd tiles (base + 1) >>> (7 - x)) &&& 1)

/-! ## Image processing: tile comparison and reduction (pngb.c) -/

/-- C `memcmp` over `n` cells at offsets `p` and `q` of a buffer: zero exactly
when the two blocks agree, else the difference of the first differing cells. -/
def memcmp (m : List Nat) (p q : Nat) : Nat → Int
  | 0 => 0
  | n + 1 =>
    if rd m p = rd m q then memcmp m (p + 1) (q + 1) n
    else (rd m p : Int) - (rd m q : Int)

/-- C `memcpy` of `n` cells from offset `src` to offset `dest` of a buffer. -/
def memcpy (m : List Nat) (dest src n : Nat) : List Nat :=
  loop n (fun j acc => wr acc (dest + j) (rd acc (src + j))) m

/-- Source `compare_gb_tiles`: zero when the two tiles are equal. -/
def compare_gb_tiles (pic : PICDATA) (t0 t1 : Nat) : Int :=
  if t0 ≥ pic.cols * pic.rows ∨ t1 ≥ pic.cols * pic.rows then 1
  else if t0 = t1 then 1
  else
    let tdatasize := pic.tileh * 2
    memcmp pic.tiles (t0 * tdatasize) (t1 * tdatasize) tdatasize

/-- Source `copy_gb_tile`. -/
def copy_gb_tile (pic : PICDATA) (dest src : Nat) : PICDATA :=
  if dest ≥ pic.cols * pic.rows ∨ src ≥ pic.cols * pic.rows then pic
  else
    let tdatasize := pic.tileh * 2
    { pic with tiles := memcpy pic.tiles (dest * tdatasize) (src * tdatasize) tdatasize }

/-- Source `replace_in_tilemap`. -/
def replace_in_tilemap (pic : PICDATA) (told tnew : Nat) : PICDATA :=
  let mapsize := pic.cols * pic.rows
  let tilemap := loop mapsize (fun t m => if rd m t = told then wr m t tnew else m) pic.tilemap
  { pic with tilemap := tilemap }

/-- The body of the `if` of `do_tile_reduction` taken when tiles `t1` and `t2`
are equal: `t2` is removed. -/
def remove_tile (pic : PICDATA) (t1 t2 : Nat) : PICDATA :=
  let pic1 := replace_in_tilemap pic t2 t1
  let pic2 := copy_gb_tile pic1 t2 (pic1.total_tiles - 1)
  let pic3 := replace_in_tilemap pic2 (pic2.total_tiles - 1) t2
  { pic3 with total_tiles := pic3.total_tiles - 1 }

/-- The `while (t2 < pic->total_tiles)` loop of `do_tile_reduction`, on fuel. -/
def reduction_inner : Nat → PICDATA → Nat → Nat → Option PICDATA
  | 0, _, _, _ => none
  | fuel + 1, pic, t1, t2 =>
    if t2 < pic.total_tiles then
      if compare_gb_tiles pic t1 t2 = 0 then
        reduction_inner fuel (remove_tile pic t1 t2) t1 t2
      else
        reduction_inner fuel pic t1 (t2 + 1)
    else some pic

/-- The `for (t1 = 0; t1 < pic->total_tiles; t1++)` loop of `do_tile_reduction`,
on fuel. -/
def reduction_outer : Nat → PICDATA → Nat → Option PICDATA
  | 0, _, _ => none
  | fuel + 1, pic, t1 =>
    if t1 < pic.total_tiles then
      match reduction_inner (pic.total_tiles + 1) pic t1 (t1 + 1) with
      | none => none
      | some pic1 => reduction_outer fuel pic1 (t1 + 1)
    else some pic

/-- Source `do_tile_reduction`. The fuel `total_tiles + 1` is enough for both loops
(`do_tile_reduction_total`). -/
def do_tile_reduction (pic : PICDATA) : Option PICDATA :=
  reduction_outer (pic.total_tiles + 1) pic 0

/-! ## Image loading: palette reconciliation of process_image (pngb.c, STEPs 1 to 3) -/

/-- Modelled from the spec: the constant `LCT_PALETTE` of lodepng.h, which is not among the
sources; an indexed PNG has colour type 3 (spec section 6, and the error message of
`process_image`). -/
def LCT_PALETTE : Nat := 3

/-- The local state of `process_image` at the end of STEP 3: `palette`, `palette_map`,
`tColors`, `baseColor`, and `globalOpts.transparent` as resolved. -/
structure PalState where
  palette : List RGB_PALETTE_ENTRY
  palette_map : List Nat
  tColors : Nat
  transparent : Int
  baseColor : Nat
deriving DecidableEq, Repr

/-- How `process_image` leaves STEP 3: through one of its two `error` calls (message
printed, process exits), or normally with a state. `out_of_fuel` is the model of a
`sort_palette` call that does not return. -/
inductive Outcome where
  | fatal_colortype
  | fatal_colors
  | out_of_fuel
  | ok (st : PalState)
deriving DecidableEq, Repr

/-- The `palette` built by the first loop of STEP 2 of `process_image`: entry `c` is
made by `set_palette_color` from bytes `4c`, `4c+1`, `4c+2` of the PNG palette. -/
def load_palette (lv : Nat → Nat → Nat → Nat) (png_palette : List Nat) (tColors : Nat) :
    List RGB_PALETTE_ENTRY :=
  (List.range tColors).map (fun c =>
    set_palette_color lv (rd png_palette (c * 4)) (rd png_palette (c * 4 + 1))
      (rd png_palette (c * 4 + 2)))

/-- The `palette_map` built by the first loop of STEP 2 of `process_image`: the 1:1
mapping `palette_map[c] = c`, stored in bytes. -/
def identity_map (tColors : Nat) : List Nat :=
  (List.range tColors).map (fun c => c % 256)

/-- The transparency check of `process_image` (`if (globalOpts.type == TARGET_SPRITE)`
block of STEP 2): the value of `globalOpts.transparent` after it. `find_palette_color`
receives `tColors` as a `BYTE`. -/
def resolve_transparent (opts : OPTIONS) (palette : List RGB_PALETTE_ENTRY) (tColors : Nat) :
    Int :=
  if opts.type = TARGET_SPRITE then
    if opts.transparent < 0 then
      let rgb := (-(opts.transparent + 1)).toNat
      let t := find_palette_color ((rgb >>> 16) &&& 0xff) ((rgb >>> 8) &&& 0xff) (rgb &&& 0xff)
        palette (tColors % 256)
      if t < 0 then 0 else t
    else if opts.transparent ≥ (tColors : Int) then 0
    else opts.transparent
  else opts.transparent

/-- The grayscale branch of STEP 3: the loop that maps every colour to a shade. -/
def grayscale_map (opts : OPTIONS) (palette : List RGB_PALETTE_ENTRY) (transparent : Int)
    (tColors : Nat) (palette_map : List Nat) : List Nat :=
  loop tColors (fun c m =>
    if opts.type = TARGET_SPRITE ∧ (c : Int) = transparent then wr m c 0
    else wr m c (intensity_to_shades opts (prd palette c).L)) palette_map

/-- The `tColors < 4` branch of the palette sorting of STEP 3: the palette resized to four
entries, the new ones zeroed, and the loop that moves each colour from `baseColor` on to
the position of its nearest shade. The loop state is `(palette, palette_map)`. -/
def place_by_shade (opts : OPTIONS) (palette : List RGB_PALETTE_ENTRY)
    (palette_map : List Nat) (tColors baseColor : Nat) : List RGB_PALETTE_ENTRY × List Nat :=
  let padded := palette.take tColors ++ List.replicate (4 - tColors) ⟨0, 0, 0, 0⟩
  loop (tColors - baseColor) (fun k (st : List RGB_PALETTE_ENTRY × List Nat) =>
      let c := baseColor + k
      let newPos := intensity_to_shades opts (prd st.1 c).L
      (swap_palette_entries st.1 c newPos,
        swap_palette_indexes st.2 (c % 256) (newPos % 256) (tColors % 256)))
    (padded, palette_map)

/-- STEPs 1 to 3 of `process_image`, after the PNG is decoded: `colortype`, `png_palette`
(the RGBA bytes of the PNG palette) and `palettesize` come from the decoder state. -/
def process_image_palette (lv : Nat → Nat → Nat → Nat) (opts : OPTIONS) (colortype : Nat)
    (png_palette : List Nat) (palettesize : Nat) : Outcome :=
  let tColors := palettesize
  if colortype ≠ LCT_PALETTE then Outcome.fatal_colortype
  else if tColors > 4 ∧ opts.grayscale = false then Outcome.fatal_colors
  else
    let palette := load_palette lv png_palette tColors
    let palette_map := identity_map tColors
    let transparent := resolve_transparent opts palette tColors
    if opts.grayscale then
      Outcome.ok
        { palette := create_gb_gray_pal lv,
          palette_map := grayscale_map opts palette transparent tColors palette_map,
          tColors := 4, transparent := transparent, baseColor := 0 }
    else
      let palette1 :=
        if opts.type = TARGET_SPRITE then swap_palette_entries palette 0 transparent.toNat
        else palette
      let palette_map1 :=
        if opts.type = TARGET_SPRITE then
          swap_palette_indexes palette_map 0 (transparent.toNat % 256) (tColors % 256)
        else palette_map
      let baseColor := if opts.type = TARGET_SPRITE then 1 else 0
      if opts.sort_palette then
        if tColors < 4 then
          let r := place_by_shade opts palette1 palette_map1 tColors baseColor
          Outcome.ok
            { palette := r.1, palette_map := r.2, tColors := 4, transparent := transparent,
              baseColor := baseColor }
        else
          match sort_palette palette1 palette_map1 (tColors % 256) baseColor with
          | none => Outcome.out_of_fuel
          | some r =>
            Outcome.ok
              { palette := r.1, palette_map := r.2, tColors := tColors,
                transparent := transparent, baseColor := baseColor }
      else
        Outcome.ok
          { palette := palette1, palette_map := palette_map1, tColors := tColors,
            transparent := transparent, baseColor := baseColor }

/-! ## Command line (main.c)

A C string is the list of its character codes before the terminating NUL. -/

/-- C library `isspace`, in the C locale: space and the control characters 9 to 13. -/
def isspace (c : Nat) : Bool := decide (c = 32 ∨ (9 ≤ c ∧ c ≤ 13))

/-- The value of a character as a `strtol` digit: `0`..`9` count 0..9 and the letters of
either case 10..35. -/
def digit_val (c : Nat) : Option Nat :=
  if 48 ≤ c ∧ c ≤ 57 then some (c - 48)
  else if 97 ≤ c ∧ c ≤ 122 then some (c - 97 + 10)
  else if 65 ≤ c ∧ c ≤ 90 then some (c - 65 + 10)
  else none

/-- A hexadecimal digit, of either case. -/
def is_hex_digit (c : Nat) : Bool :=
  match digit_val c with
  | some d => decide (d < 16)
  | none => false

/-- The leading white space of a string removed. -/
def skip_space : List Nat → List Nat
  | [] => []
  | c :: rest => if isspace c then skip_space rest else c :: rest

/-- The digit loop of `strtol`: the longest run of digits of the base, with the value read
so far and the number of characters consumed. -/
def strtol_digits (base : Nat) : List Nat → Nat → Nat → Nat × Nat
  | [], acc, cnt => (acc, cnt)
  | c :: rest, acc, cnt =>
    match digit_val c with
    | some d => if d < base then strtol_digits base rest (acc * base + d) (cnt + 1) else (acc, cnt)
    | none => (acc, cnt)

/-- A string starts with `0x` or `0X` followed by a hexadecimal digit. -/
def has_hex_prefix : List Nat → Bool
  | 48 :: x :: d :: _ => decide (x = 120 ∨ x = 88) && is_hex_digit d
  | _ => false

/-- The largest `long`; `long` is taken to be 64 bits wide. -/
def LONG_MAX : Int := 2 ^ 63 - 1

/-- The smallest `long`. -/
def LONG_MIN : Int := -(2 ^ 63)

/-- C library `strtol(nptr, &endptr, base)` for a base from 2 to 36, as the C standard
describes it: optional white space, an optional sign, in base 16 an optional `0x`, then
the longest run of digits of the base. The result is the value, clamped to the range of
`long`, and the offset of `endptr` in `nptr`; when there is no digit the value is 0 and
`endptr` is `nptr`. -/
def strtol (nptr : List Nat) (base : Nat) : Int × Nat :=
  let s1 := skip_space nptr
  let negative := decide (s1.head? = some 45)
  let s2 := if s1.head? = some 45 ∨ s1.head? = some 43 then s1.tail else s1
  let s3 := if base = 16 ∧ has_hex_prefix s2 = true then s2.drop 2 else s2
  let r := strtol_digits base s3 0 0
  let v : Int := if negative then -(r.1 : Int) else (r.1 : Int)
  if r.2 = 0 then (0, 0)
  else
    (if v > LONG_MAX then LONG_MAX else if v < LONG_MIN then LONG_MIN else v,
      (nptr.length - s3.length) + r.2)

/-- Source `parse_as_number` of main.c: `none` stands for the call of `error` (message
printed, process exits) when `strtol` stops before the end of the string. -/
def parse_as_number (p : List Nat) (base : Nat) : Option Int :=
  let r := strtol p base
  if r.2 ≠ p.length then none else some r.1

/-- Source `transp_color_from_str` of main.c; `35` is the character `#`. -/
def transp_color_from_str (color_str : List Nat) : Option Int :=
  if color_str.head? = some 35 then
    match parse_as_number color_str.tail 16 with
    | some v => some (-(v + 1))
    | none => none
  else
    match parse_as_number color_str 10 with
    | some v => some (1 + v)
    | none => none

/-! ## Image loading: the pixel loop of process_image (pngb.c, STEP 5) -/

/-- The pixel loop of `process_image`: `image` is the decoded pixel buffer, `bitdepth` the
PNG bit depth, `result` the picture from `allocate_gb_pict`. The inner loop carries
`pdata`, a `BYTE`, along with the picture. -/
def pixel_loop (image : List Nat) (width height bitdepth : Nat) (palette_map : List Nat)
    (result : PICDATA) : PICDATA :=
  let ppb := 8 / bitdepth
  let tBytes := width * height / ppb
  loop tBytes (fun b res =>
    (loop ppb (fun pix (st : Nat × PICDATA) =>
      let pdata := st.1
      let x := (b * ppb + pix) % width
      let y := (b * ppb + pix) / width
      let tx := x / 8
      let ty := y / st.2.tileh
      let tile_n := ty * st.2.cols + tx
      ((pdata <<< bitdepth) % 256,
        set_tile_pixel st.2 tile_n (x % 8) (y % st.2.tileh)
          (rd palette_map (pdata >>> (8 - bitdepth)))))
      (rd image b, res)).2) result

/-- The source index of pixel `(x, y)` in a tightly packed, MSB-first pixel stream of bit
depth `d` (spec section 4.4): pixel `k = y*w + x` lies in byte `k / (8/d)`. -/
def source_index (image : List Nat) (w d x y : Nat) : Nat :=
  let k := y * w + x
  let ppb := 8 / d
  (rd image (k / ppb) >>> (8 - d * (k % ppb + 1))) % 2 ^ d

/-! ## Predicates used in the statements -/

/-- Tile `a` of store `ta` and tile `b` of store `tb` hold the same `sz` bytes. -/
def tile_eq (ta : List Nat) (a : Nat) (tb : List Nat) (b sz : Nat) : Prop :=
  ∀ j, j < sz → rd ta (a * sz + j) = rd tb (b * sz + j)

instance (ta : List Nat) (a : Nat) (tb : List Nat) (b sz : Nat) :
    Decidable (tile_eq ta a tb b sz) := by
  unfold tile_eq; infer_instance

/-- The facts about `palette` and `palette_map` that every paired swap of the
reconciliation keeps: the palette has `len` entries, the map has `n` entries, all below 4,
and in sprite mode the map sends the transparency index `t` to 0. -/
def recon_inv (opts : OPTIONS) (n len : Nat) (t : Int) (pal : List RGB_PALETTE_ENTRY)
    (m : List Nat) : Prop :=
  pal.length = len ∧ m.length = n ∧ (∀ c, c < n → rd m c < 4) ∧
  (opts.type = TARGET_SPRITE → rd m t.toNat = 0)

/-- The pixels of index below `K` (row-major, `k = y*w + x`) are drawn in `res`: `res` has
the buffers and grid of `pic0`, and pixel `k` decodes to the mapped colour of its source
index. -/
def drawn_upto (image : List Nat) (w d : Nat) (palette_map : List Nat) (pic0 : PICDATA)
    (K : Nat) (res : PICDATA) : Prop :=
  res.wf ∧ res.cols = pic0.cols ∧ res.rows = pic0.rows ∧ res.tileh = pic0.tileh ∧
  ∀ k, k < K →
    decode_pixel res.tiles pic0.tileh (k / w / pic0.tileh * pic0.cols + k % w / 8)
      (k % w % 8) (k / w % pic0.tileh) = rd palette_map (source_index image w d (k % w) (k / w))

/-! ## Concrete inputs -/

/-- Source `reset_opts` of main.c: the options before the command line is read (target
BKG, base index 1, name "gbpic", everything else zero). -/
def reset_opts : OPTIONS :=
  { type := TARGET_BKG, transparent := 0, grayscale := false, create_palette := false,
    sort_palette := false, create_map := false, palnumber := 0, big_sprite := false,
    test_code := false, tile_reduction := false, baseindex := 1, verbose := false,
    name := [103, 98, 112, 105, 99] }

/-- The weighted sum of `color_light_val` in exact arithmetic, truncated to an integer:
`floor(0.2989 r + 0.5870 g + 0.1140 b)`. The C function evaluates the sum in double
precision, which can fall just below an exact integer sum; the concrete inputs below use
colours where the two agree. -/
def light_exact (r g b : Nat) : Nat := (2989 * r + 5870 * g + 1140 * b) / 10000

/-- One 8x8 tile whose sixteen bytes are all `0xFF`. -/
def full_tile_pic : PICDATA :=
  { w := 8, h := 8, cols := 1, rows := 1, tileh := 8, total_tiles := 1,
    tiles := List.replicate 16 0xFF, tilemap := [0], pal := [0, 0, 0, 0] }

/-- Two tiles of an 8x8 grid of one column and two rows with the same bytes,
referenced by the identity tilemap. -/
def twin_tiles_pic : PICDATA :=
  { w := 8, h := 16, cols := 1, rows := 2, tileh := 8, total_tiles := 2,
    tiles := List.replicate 32 0x3C, tilemap := [0, 1], pal := [0, 0, 0, 0] }

/-- Four tiles of two bytes each (grid of one column and four rows, `tileh = 1`), tiles 0
and 2 equal, tiles 1 and 3 equal. -/
def striped_pic : PICDATA :=
  { w := 8, h := 4, cols := 1, rows := 4, tileh := 1, total_tiles := 4,
    tiles := [1, 1, 2, 2, 1, 1, 2, 2], tilemap := [0, 1, 2, 3], pal := [0, 0, 0, 0] }

/-- The shade value of target index `i` (spec section 4.1): WHITE, LIGHTGRAY, DARKGRAY,
BLACK. -/
def shade (i : Nat) : Nat := rd [WHITE_VAL, LIGHTGRAY_VAL, DARKGRAY_VAL, BLACK_VAL] i

/-- The distance `|shade[i] - L|` that the nearest-shade function of spec section 4.1
minimises. -/
def shade_dist (i L : Nat) : Nat := Int.natAbs ((shade i : Int) - (L : Int))

/-- The value of a hexadecimal digit character (0 for any other character). -/
def hex_val (c : Nat) : Nat := (digit_val c).getD 0

/-- The options after `-S -tr 1`: `-S` sets the target to 8x8 sprites and `-tr 1` stores
`transp_color_from_str "1"`, which is 2. -/
def sprite_tr1_opts : OPTIONS :=
  { reset_opts with type := TARGET_SPRITE, big_sprite := false,
                    transparent := (transp_color_from_str [49]).getD 0 }

/-- The PNG palette `[red, blue]`, as RGBA bytes. -/
def red_blue_palette : List Nat := [255, 0, 0, 255, 0, 0, 255, 255]

/-- A PNG palette of 256 colours, as RGBA bytes: colour 0 is `(9, 9, 9)`, colour 1 is
`(1, 2, 3)`, the other 254 are black. -/
def palette_256 : List Nat := [9, 9, 9, 255, 1, 2, 3, 255] ++ List.replicate (4 * 254) 0

/-- The options after `-S -g -tr #010203`: sprite target, grayscale, and the stored
transparency `transp_color_from_str "#010203"`. -/
def sprite_gray_rgb_opts : OPTIONS :=
  { reset_opts with type := TARGET_SPRITE, big_sprite := false, grayscale := true,
                    transparent := (transp_color_from_str [35, 48, 49, 48, 50, 48, 51]).getD 0 }

/-- Entry `i` of a palette has the colour `(r, g, b)`. -/
def has_rgb (pal : List RGB_PALETTE_ENTRY) (r g b i : Nat) : Prop :=
  (prd pal i).r = r ∧ (prd pal i).g = g ∧ (prd pal i).b = b

instance (pal : List RGB_PALETTE_ENTRY) (r g b i : Nat) : Decidable (has_rgb pal r g b i) := by
  unfold has_rgb; infer_instance

/-- The palette map is consistent with a palette: for every source index `c < n`, the entry
of `pal` at position `m[c]` is source entry `c`. -/
def map_consistent (src pal : List RGB_PALETTE_ENTRY) (m : List Nat) (n : Nat) : Prop :=
  ∀ c, c < n → prd pal (rd m c) = prd src c

/-- What is known of the lightness `color_light_val` computes where its value matters.
The exact weighted sum is `S / 10000` with `S = 2989 r + 5870 g + 1140 b`; the C function
evaluates it in double precision and truncates. For every colour the result is the
truncated exact sum or one less, and it is the truncated exact sum whenever `S` is not a
multiple of 10000 (the exact sum is then at least 0.0001 away from an integer, far more
than the rounding error of three products and two sums). `light_exact` has the property
too. -/
def light_spec (lv : Nat → Nat → Nat → Nat) : Prop :=
  ∀ r g b, r < 256 → g < 256 → b < 256 →
    lv r g b ≤ (2989 * r + 5870 * g + 1140 * b) / 10000 ∧
    (2989 * r + 5870 * g + 1140 * b) / 10000 ≤ lv r g b + 1 ∧
    ((2989 * r + 5870 * g + 1140 * b) % 10000 ≠ 0 →
      lv r g b = (2989 * r + 5870 * g + 1140 * b) / 10000)

/-- The options after `-Ks`: target BKG with palette sorting. -/
def sort_opts : OPTIONS := { reset_opts with sort_palette := true }

/-- The PNG palette of two grays `[(200,200,200), (180,180,180)]`, as RGBA bytes. Their
lightness values are 199 and 179. -/
def two_grays_palette : List Nat := [200, 200, 200, 255, 180, 180, 180, 255]

/-- The PNG palette of three grays `[(100,100,100), (250,250,250), (0,0,0)]`, as RGBA
bytes. Their lightness values are 99, 249 and 0. -/
def three_grays_palette : List Nat := [100, 100, 100, 255, 250, 250, 250, 255, 0, 0, 0, 255]

/-! ## Identifier sanitization (pngb.c) -/

/-- C library `isalpha`, in the C locale: the letters `A`..`Z` and `a`..`z`. -/
def isalpha (c : Nat) : Bool := decide ((65 ≤ c ∧ c ≤ 90) ∨ (97 ≤ c ∧ c ≤ 122))

/-- C library `isalnum`, in the C locale: the letters and the digits `0`..`9`. -/
def isalnum (c : Nat) : Bool := isalpha c || decide (48 ≤ c ∧ c ≤ 57)

/-- Source `sanitize_var_name`; `95` is the character `_`. The loop runs for `c` from 1 to
`len - 1`. -/
def sanitize_var_name (var : List Nat) (len : Nat) : List Nat :=
  let var1 := if isalpha (rd var 0) = false then wr var 0 95 else var
  loop (len - 1) (fun k v => if isalnum (rd v (k + 1)) = false then wr v (k + 1) 95 else v) var1

/-- A string that matches `[A-Za-z_][A-Za-z0-9_]*`. -/
def is_identifier : List Nat → Bool
  | [] => false
  | c :: rest => (isalpha c || decide (c = 95)) && rest.all (fun d => isalnum d || decide (d = 95))

/-! ## Validation of the options (pngb.c, gb_check_warnings) -/

/-- The messages `gb_check_warnings` prints, in the order of the source. -/
inductive WARNING where
  | palette_number
  | base_rounded
  | map_activated
  | palette_sorting
  | map_over_32
  | over_256_tiles
  | over_40_frames
  | over_40_sprites
deriving DecidableEq, Repr

/-- First statement of `gb_check_warnings`: `if (globalOpts.palnumber > 7)`. The state is
the options and the messages printed so far. -/
def check_palnumber (s : OPTIONS × List WARNING) : OPTIONS × List WARNING :=
  if s.1.palnumber > 7 then ({ s.1 with palnumber := 7 }, s.2 ++ [WARNING.palette_number])
  else s

/-- Second statement of `gb_check_warnings`:
`if (globalOpts.big_sprite && (globalOpts.baseindex & 1))`. -/
def check_baseindex (s : OPTIONS × List WARNING) : OPTIONS × List WARNING :=
  if s.1.big_sprite = true ∧ s.1.baseindex &&& 1 ≠ 0 then
    ({ s.1 with baseindex := s.1.baseindex &&& 0xfe }, s.2 ++ [WARNING.base_rounded])
  else s

/-- Third statement of `gb_check_warnings`:
`if (globalOpts.test_code && !globalOpts.create_map)`. -/
def check_test_map (s : OPTIONS × List WARNING) : OPTIONS × List WARNING :=
  if s.1.test_code = true ∧ s.1.create_map = false then
    ({ s.1 with create_map := true }, s.2 ++ [WARNING.map_activated])
  else s

/-- Fourth statement of `gb_check_warnings`:
`if (globalOpts.sort_palette && !globalOpts.create_palette)`, whose body assigns
`globalOpts.create_map = 1`. -/
def check_sort_palette (s : OPTIONS × List WARNING) : OPTIONS × List WARNING :=
  if s.1.sort_palette = true ∧ s.1.create_palette = false then
    ({ s.1 with create_map := true }, s.2 ++ [WARNING.palette_sorting])
  else s

/-- Fifth statement of `gb_check_warnings`: `if (globalOpts.test_code)` with the size
checks of the two kinds of target. -/
def check_sizes (gbpic : PICDATA) (s : OPTIONS × List WARNING) : OPTIONS × List WARNING :=
  if s.1.test_code = true then
    if s.1.type = TARGET_BKG ∨ s.1.type = TARGET_WINDOW then
      let m1 := if gbpic.cols > 32 ∨ gbpic.rows > 32 then [WARNING.map_over_32] else []
      let m2 :=
        if gbpic.total_tiles + s.1.baseindex > 256 then [WARNING.over_256_tiles] else []
      (s.1, s.2 ++ m1 ++ m2)
    else
      let m1 :=
        if gbpic.total_tiles + s.1.baseindex > 40 then [WARNING.over_40_frames] else []
      let m2 :=
        if gbpic.cols * gbpic.rows > 40 ∨ gbpic.cols > 10 then [WARNING.over_40_sprites]
        else []
      (s.1, s.2 ++ m1 ++ m2)
  else s

/-- Source `gb_check_warnings`: its five statements in sequence; the result is the options
after the call and the messages printed. `palnumber` and `baseindex` are `BYTE` fields. -/
def gb_check_warnings (opts : OPTIONS) (gbpic : PICDATA) : OPTIONS × List WARNING :=
  check_sizes gbpic
    (check_sort_palette (check_test_map (check_baseindex (check_palnumber (opts, [])))))

/-! ## Option parsing (main.c, main) -/

/-- The conversion of a `long` to a `BYTE`. -/
def to_byte (v : Int) : Nat := (v % 256).toNat

/-- The local state of the argument loop of `main`: the options and the two file names. -/
structure MAIN_STATE where
  opts : OPTIONS
  infile : List Nat
  outfile : List Nat
deriving DecidableEq, Repr

/-- The `switch` of `main` on one option character; `none` stands for the call of `error`
on an unrecognized option. The characters are `W K S B g p s m c e v`. -/
def option_char (opts : OPTIONS) (ch : Nat) : Option OPTIONS :=
  if ch = 87 then some { opts with type := TARGET_WINDOW }
  else if ch = 75 then some { opts with type := TARGET_BKG }
  else if ch = 83 then some { opts with type := TARGET_SPRITE, big_sprite := false }
  else if ch = 66 then some { opts with type := TARGET_SPRITE, big_sprite := true }
  else if ch = 103 then some { opts with grayscale := true }
  else if ch = 112 then some { opts with create_palette := true }
  else if ch = 115 then some { opts with sort_palette := true }
  else if ch = 109 then some { opts with create_map := true }
  else if ch = 99 then some { opts with test_code := true }
  else if ch = 101 then some { opts with tile_reduction := true }
  else if ch = 118 then some { opts with verbose := true }
  else none

/-- The loop of `main` over the characters of a combined option such as `-Kgp`. -/
def option_chars : List Nat → OPTIONS → Option OPTIONS
  | [], opts => some opts
  | ch :: rest, opts =>
    match option_char opts ch with
    | none => none
    | some opts1 => option_chars rest opts1

/-- The argument loop of `main` over `argv[1]`, `argv[2]`, ...; `none` stands for a call of
`error` (missing value, unparsable number, unrecognized option, too many parameters). The
strings `base`, `pal`, `name` and `tr` are given by their character codes, `45` is `-`. -/
def main_args : List (List Nat) → MAIN_STATE → Option MAIN_STATE
  | [], st => some st
  | arg :: rest, st =>
    if rd arg 0 = 45 then
      let param := arg.drop 1
      if param = [98, 97, 115, 101] then
        match rest with
        | [] => none
        | v :: rest1 =>
          match parse_as_number v 10 with
          | none => none
          | some n => main_args rest1 { st with opts := { st.opts with baseindex := to_byte n } }
      else if param = [112, 97, 108] then
        match rest with
        | [] => none
        | v :: rest1 =>
          match parse_as_number v 10 with
          | none => none
          | some n => main_args rest1 { st with opts := { st.opts with palnumber := to_byte n } }
      else if param = [110, 97, 109, 101] then
        match rest with
        | [] => none
        | v :: rest1 => main_args rest1 { st with opts := { st.opts with name := v } }
      else if param = [116, 114] then
        match rest with
        | [] => none
        | v :: rest1 =>
          match transp_color_from_str v with
          | none => none
          | some t => main_args rest1 { st with opts := { st.opts with transparent := t } }
      else
        match option_chars param st.opts with
        | none => none
        | some opts1 => main_args rest { st with opts := opts1 }
    else if rd st.infile 0 = 0 then main_args rest { st with infile := arg.take 255 }
    else if rd st.outfile 0 = 0 then main_args rest { st with outfile := arg.take 255 }
    else none

/-- The options with which `main` calls `process_image`: `reset_opts`, then the argument
loop; `none` when `main` stops before (a call of `error`, or the help text when a file name
is missing). -/
def main_options (argv : List (List Nat)) : Option OPTIONS :=
  match main_args argv { opts := reset_opts, infile := [], outfile := [] } with
  | none => none
  | some st => if rd st.infile 0 = 0 ∨ rd st.outfile 0 = 0 then none else some st.opts

/-- The lightness in the words of the specification: `round(0.2989 r + 0.5870 g + 0.1140 b)`,
the nearest integer (a half rounds up). -/
def lightness_rounded (r g b : Nat) : Nat :=
  (2 * (2989 * r + 5870 * g + 1140 * b) + 10000) / 20000

/-- The pixel loop of `process_image` with a record of the calls of `set_tile_pixel` it
issues: the picture is computed as in `pixel_loop`, and the arguments
`(tile, x, y, color)` of every call are appended to a list, in the order of the calls. -/
def pixel_loop_calls (image : List Nat) (width height bitdepth : Nat) (palette_map : List Nat)
    (result : PICDATA) : PICDATA × List (Nat × Nat × Nat × Nat) :=
  let ppb := 8 / bitdepth
  let tBytes := width * height / ppb
  loop tBytes (fun b (out : PICDATA × List (Nat × Nat × Nat × Nat)) =>
    (loop ppb (fun pix (st : Nat × PICDATA × List (Nat × Nat × Nat × Nat)) =>
      let pdata := st.1
      let x := (b * ppb + pix) % width
      let y := (b * ppb + pix) / width
      let tx := x / 8
      let ty := y / st.2.1.tileh
      let tile_n := ty * st.2.1.cols + tx
      let color := rd palette_map (pdata >>> (8 - bitdepth))
      ((pdata <<< bitdepth) % 256,
        set_tile_pixel st.2.1 tile_n (x % 8) (y % st.2.1.tileh) color,
        st.2.2 ++ [(tile_n, x % 8, y % st.2.1.tileh, color)]))
      (rd image b, out.1, out.2)).2) (result, [])

/-- The number of times the body of the `for` loop of `do_tile_reduction` runs: the loop
of `reduction_outer` with a counter in place of the picture it returns. -/
def outer_iterations : Nat → PICDATA → Nat → Option Nat
  | 0, _, _ => none
  | fuel + 1, pic, t1 =>
    if t1 < pic.total_tiles then
      match reduction_inner (pic.total_tiles + 1) pic t1 (t1 + 1) with
      | none => none
      | some pic1 => (outer_iterations fuel pic1 (t1 + 1)).map (fun k => k + 1)
    else some 0

/-- The `sz` bytes of tile `t` of a tile store. -/
def tile_block (tiles : List Nat) (sz t : Nat) : List Nat :=
  (List.range sz).map (fun j => rd tiles (t * sz + j))

/-- The contents of the first `total_tiles` tiles of a picture, in order. -/
def tile_blocks (pic : PICDATA) : List (List Nat) :=
  (List.range pic.total_tiles).map (tile_block pic.tiles (pic.tileh * 2))

/-- No two of the first `total_tiles` tiles of a picture have the same bytes. -/
def tiles_distinct (pic : PICDATA) : Prop :=
  ∀ b, b < pic.total_tiles → ∀ a, a < b → ¬ tile_eq pic.tiles a pic.tiles b (pic.tileh * 2)

instance (pic : PICDATA) : Decidable (tiles_distinct pic) := by
  unfold tiles_distinct; infer_instance

/-- Four equal tiles of two bytes each (grid of one column and four rows, `tileh = 1`). -/
def uniform_pic : PICDATA :=
  { w := 8, h := 4, cols := 1, rows := 4, tileh := 1, total_tiles := 4,
    tiles := [7, 7, 7, 7, 7, 7, 7, 7], tilemap := [0, 1, 2, 3], pal := [0, 0, 0, 0] }

/-! # Lemmas and theorems -/

/-! ## Buffers, loops and bits -/

theorem rd_wr (m : List Nat) (i j v : Nat) :
    rd (wr m i v) j = if j = i ∧ i < m.length then v else rd m j := by
  simp only [rd, wr, List.getD_eq_getElem?_getD, List.getElem?_set]
  split_ifs with h1 h2 h3 h4 h5 <;> simp_all
  · subst h1; simp [List.getElem?_eq_none h2]

theorem rd_wr_same (m : List Nat) (i v : Nat) (h : i < m.length) : rd (wr m i v) i = v := by
  simp [rd_wr, h]

theorem rd_wr_ne (m : List Nat) (i j v : Nat) (h : j ≠ i) : rd (wr m i v) j = rd m j := by
  simp [rd_wr, h]

theorem length_wr (m : List Nat) (i v : Nat) : (wr m i v).length = m.length := by
  simp [wr]

theorem rd_of_le (m : List Nat) (i : Nat) (h : m.length ≤ i) : rd m i = 0 := by
  simp [rd, List.getD_eq_getElem?_getD, List.getElem?_eq_none h]

theorem buf_ext (a b : List Nat) (hl : a.length = b.length) (h : ∀ i, i < a.length → rd a i = rd b i) : a = b := by
  apply List.ext_getElem hl
  intro i h1 h2
  have := h i h1
  simpa [rd, List.getD_eq_getElem?_getD, List.getElem?_eq_getElem h1, List.getElem?_eq_getElem h2] using this

theorem loop_zero {σ : Type} (body : Nat → σ → σ) (s : σ) : loop 0 body s = s := rfl

theorem loop_succ {σ : Type} (n : Nat) (body : Nat → σ → σ) (s : σ) :
    loop (n + 1) body s = body n (loop n body s) := by
  simp [loop, List.range_succ, List.foldl_append]

/-- Invariant rule for `loop`. -/
theorem loop_inv {σ : Type} (P : Nat → σ → Prop) (n : Nat) (body : Nat → σ → σ) (s : σ)
    (h0 : P 0 s) (hs : ∀ i st, i < n → P i st → P (i + 1) (body i st)) :
    P n (loop n body s) := by
  induction n with
  | zero => simpa [loop_zero] using h0
  | succ k ih =>
    rw [loop_succ]
    exact hs k _ (Nat.lt_succ_self k) (ih (fun i st hi hp => hs i st (Nat.lt_succ_of_lt hi) hp))

theorem bit_eq_testBit (n i : Nat) : (n >>> i) &&& 1 = (n.testBit i).toNat := by
  rw [Nat.and_one_is_mod, Nat.shiftRight_eq_div_pow, Nat.testBit_to_div_mod]
  rcases Nat.mod_two_eq_zero_or_one (n / 2 ^ i) with h | h <;> simp [h]

theorem mask_eq (x : Nat) (hx : x < 8) : 0x80 >>> x = 2 ^ (7 - x) := by
  interval_cases x <;> rfl

theorem testBit_mask (x j : Nat) (hx : x < 8) : (0x80 >>> x).testBit j = decide (7 - x = j) := by
  rw [mask_eq x hx, Nat.testBit_two_pow]

theorem testBit_notmask (x j : Nat) (hx : x < 8) :
    (0xFF ^^^ (0x80 >>> x)).testBit j = (decide (j < 8) && decide (7 - x ≠ j)) := by
  rw [Nat.testBit_xor, testBit_mask x j hx]
  have : (0xFF : Nat) = 2 ^ 8 - 1 := by norm_num
  rw [this, Nat.testBit_two_pow_sub_one]
  by_cases h1 : j < 8 <;> by_cases h2 : 7 - x = j <;> simp [h1, h2]
  omega

/-! ## set_tile_pixel -/

theorem pixel_base_lt (pic : PICDATA) (hwf : pic.wf) (tile y : Nat)
    (ht : tile < pic.cols * pic.rows) (hy : y < pic.tileh) :
    tile * pic.tileh * 2 + y * 2 + 1 < pic.tiles.length := by
  rw [hwf.1]
  have h1 : (tile + 1) * pic.tileh ≤ pic.cols * pic.rows * pic.tileh :=
    Nat.mul_le_mul_right _ ht
  have h2 : (tile + 1) * pic.tileh = tile * pic.tileh + pic.tileh := by ring
  omega

/-- The bytes of the tile store after a `set_tile_pixel` call that passes the guard. -/
theorem set_tile_pixel_bytes (data : PICDATA) (tile x y color : Nat) (hwf : data.wf)
    (ht : tile < data.cols * data.rows) (hx : x < 8) (hy : y < data.tileh) (hc : color < 4) :
    (set_tile_pixel data tile x y color).tiles.length = data.tiles.length ∧
    rd (set_tile_pixel data tile x y color).tiles (tile * data.tileh * 2 + y * 2) =
      ((rd data.tiles (tile * data.tileh * 2 + y * 2) &&& (0xFF ^^^ (0x80 >>> x))) |||
        (if color &&& 1 ≠ 0 then 0x80 >>> x else 0)) ∧
    rd (set_tile_pixel data tile x y color).tiles (tile * data.tileh * 2 + y * 2 + 1) =
      ((rd data.tiles (tile * data.tileh * 2 + y * 2 + 1) &&& (0xFF ^^^ (0x80 >>> x))) |||
        (if color &&& 2 ≠ 0 then 0x80 >>> x else 0)) ∧
    ∀ p, p ≠ tile * data.tileh * 2 + y * 2 → p ≠ tile * data.tileh * 2 + y * 2 + 1 →
      rd (set_tile_pixel data tile x y color).tiles p = rd data.tiles p := by
  have hb := pixel_base_lt data hwf tile y ht hy
  have hg : ¬ (tile ≥ data.cols * data.rows ∨ x ≥ 8 ∨ y ≥ data.tileh ∨ color ≥ 4) := by
    omega
  simp only [set_tile_pixel, if_neg hg]
  have hb0 : tile * data.tileh * 2 + y * 2 < data.tiles.length := by omega
  refine ⟨?_, ?_, ?_, ?_⟩
  · split_ifs <;> simp [length_wr]
  · split_ifs <;> simp [rd_wr, length_wr, hb0, hb]
  · split_ifs <;> simp [rd_wr, length_wr, hb0, hb]
  · intro p h1 h2
    split_ifs <;> simp [rd_wr, length_wr, h1, h2]

theorem testBit_set_bit (v x j : Nat) (cnd : Prop) [Decidable cnd] (hx : x < 8) (hj : j < 8) :
    ((v &&& (0xFF ^^^ (0x80 >>> x))) ||| (if cnd then 0x80 >>> x else 0)).testBit j =
      if j = 7 - x then decide cnd else v.testBit j := by
  rw [Nat.testBit_or, Nat.testBit_and, testBit_notmask x j hx]
  by_cases h : j = 7 - x
  · subst h
    by_cases hc : cnd <;> simp [hc, testBit_mask _ _ hx]
  · have h' : ¬ (7 - x = j) := fun e => h e.symm
    by_cases hc : cnd <;> simp [hc, testBit_mask _ _ hx, h, h', hj]

theorem low_plane_bit (c : Nat) (hc : c < 4) : (decide (c &&& 1 ≠ 0)).toNat = c &&& 1 := by
  interval_cases c <;> rfl

theorem high_plane_bit (c : Nat) (hc : c < 4) : (decide (c &&& 2 ≠ 0)).toNat = (c >>> 1) &&& 1 := by
  interval_cases c <;> rfl

theorem planes_to_colour (c : Nat) (hc : c < 4) : (c &&& 1) + 2 * ((c >>> 1) &&& 1) = c := by
  interval_cases c <;> rfl

theorem tile_row_inj (th a b y y' : Nat) (hy : y < th) (hy' : y' < th)
    (h : a * th + y = b * th + y') : a = b ∧ y = y' := by
  rcases Nat.lt_trichotomy a b with hlt | heq | hgt
  · have h1 : (a + 1) * th ≤ b * th := Nat.mul_le_mul_right _ hlt
    have h2 : (a + 1) * th = a * th + th := by ring
    omega
  · subst heq
    exact ⟨rfl, by omega⟩
  · have h1 : (b + 1) * th ≤ a * th := Nat.mul_le_mul_right _ hgt
    have h2 : (b + 1) * th = b * th + th := by ring
    omega

/-- What `set_tile_pixel` does to the decoded pixels: the written pixel decodes to the
colour, every other pixel keeps its colour. -/
theorem decode_set_tile_pixel (data : PICDATA) (tile x y c : Nat) (hwf : data.wf)
    (ht : tile < data.cols * data.rows) (hx : x < 8) (hy : y < data.tileh) (hc : c < 4)
    (tile' x' y' : Nat) (hx' : x' < 8) (hy' : y' < data.tileh) :
    decode_pixel (set_tile_pixel data tile x y c).tiles data.tileh tile' x' y' =
      if tile' = tile ∧ x' = x ∧ y' = y then c
      else decode_pixel data.tiles data.tileh tile' x' y' := by
  obtain ⟨_, hlo, hhi, hother⟩ := set_tile_pixel_bytes data tile x y c hwf ht hx hy hc
  by_cases hrow : tile' = tile ∧ y' = y
  · obtain ⟨rfl, rfl⟩ := hrow
    simp only [decode_pixel, hlo, hhi, bit_eq_testBit]
    rw [testBit_set_bit _ _ _ _ hx (by omega), testBit_set_bit _ _ _ _ hx (by omega)]
    by_cases hxx : x' = x
    · subst hxx
      simp only [if_true, and_self, true_and]
      rw [low_plane_bit c hc, high_plane_bit c hc, planes_to_colour c hc]
    · have : ¬ (7 - x' = 7 - x) := by omega
      simp [this, hxx]
  · have hne : tile' * data.tileh + y' ≠ tile * data.tileh + y := by
      intro e
      exact hrow (tile_row_inj _ _ _ _ _ hy' hy e)
    have h1 : tile' * data.tileh * 2 + y' * 2 ≠ tile * data.tileh * 2 + y * 2 := by omega
    have h2 : tile' * data.tileh * 2 + y' * 2 ≠ tile * data.tileh * 2 + y * 2 + 1 := by omega
    have h3 : tile' * data.tileh * 2 + y' * 2 + 1 ≠ tile * data.tileh * 2 + y * 2 := by omega
    have h4 : tile' * data.tileh * 2 + y' * 2 + 1 ≠ tile * data.tileh * 2 + y * 2 + 1 := by
      omega
    have hcond : ¬ (tile' = tile ∧ x' = x ∧ y' = y) := fun h => hrow ⟨h.1, h.2.2⟩
    simp only [decode_pixel, hother _ h1 h2, hother _ h3 h4, if_neg hcond]

/-- C5. 2bpp layout round trip: for a tile inside the grid, `x < 8`, `y < tileh` and a
colour `c < 4`, after `set_tile_pixel` bit `7 - x` of byte `tile*tileh*2 + 2*y` is
`c & 1` and bit `7 - x` of the next byte is `(c >> 1) & 1`, whatever the tile store held
before, and decoding the pixel gives `c`. -/
theorem set_tile_pixel_roundtrip (data : PICDATA) (tile x y c : Nat) (hwf : data.wf)
    (ht : tile < data.cols * data.rows) (hx : x < 8) (hy : y < data.tileh) (hc : c < 4) :
    (rd (set_tile_pixel data tile x y c).tiles (tile * data.tileh * 2 + 2 * y) >>> (7 - x))
        &&& 1 = c &&& 1 ∧
    (rd (set_tile_pixel data tile x y c).tiles (tile * data.tileh * 2 + 2 * y + 1) >>> (7 - x))
        &&& 1 = (c >>> 1) &&& 1 ∧
    decode_pixel (set_tile_pixel data tile x y c).tiles data.tileh tile x y = c := by
  obtain ⟨_, hlo, hhi, _⟩ := set_tile_pixel_bytes data tile x y c hwf ht hx hy hc
  have e : 2 * y = y * 2 := Nat.mul_comm 2 y
  refine ⟨?_, ?_, ?_⟩
  · rw [e, hlo, bit_eq_testBit, testBit_set_bit _ _ _ _ hx (by omega)]
    simp only [if_true]
    exact low_plane_bit c hc
  · rw [e, hhi, bit_eq_testBit, testBit_set_bit _ _ _ _ hx (by omega)]
    simp only [if_true]
    exact high_plane_bit c hc
  · rw [decode_set_tile_pixel data tile x y c hwf ht hx hy hc tile x y hx hy]
    simp

theorem set_tile_pixel_roundtrip_witness :
    full_tile_pic.wf ∧ 0 < full_tile_pic.cols * full_tile_pic.rows ∧ 3 < 8 ∧
    5 < full_tile_pic.tileh ∧ 2 < 4 ∧
    (rd (set_tile_pixel full_tile_pic 0 3 5 2).tiles (0 * full_tile_pic.tileh * 2 + 2 * 5)
        >>> (7 - 3)) &&& 1 = 2 &&& 1 ∧
    (rd (set_tile_pixel full_tile_pic 0 3 5 2).tiles (0 * full_tile_pic.tileh * 2 + 2 * 5 + 1)
        >>> (7 - 3)) &&& 1 = (2 >>> 1) &&& 1 ∧
    decode_pixel (set_tile_pixel full_tile_pic 0 3 5 2).tiles full_tile_pic.tileh 0 3 5 = 2 :=
  ⟨by decide, by decide, by decide, by decide, by decide,
    set_tile_pixel_roundtrip full_tile_pic 0 3 5 2 (by decide) (by decide) (by decide)
      (by decide) (by decide)⟩

/-- C6. Frame of `set_tile_pixel`: a call that passes the guard changes no bit of the tile
store other than bit `7 - x` of the two bytes of row `y` of the tile, so every other pixel
of every tile decodes to the colour it had, and the store keeps its length; a call with
`tile >= cols*rows`, `x >= 8`, `y >= tileh` or `c >= 4` leaves the picture unchanged. -/
theorem set_tile_pixel_frame (data : PICDATA) (tile x y c : Nat) :
    (data.wf → tile < data.cols * data.rows → x < 8 → y < data.tileh → c < 4 →
      (set_tile_pixel data tile x y c).tiles.length = data.tiles.length ∧
      (∀ p j, j < 8 →
        ¬ ((p = tile * data.tileh * 2 + 2 * y ∨ p = tile * data.tileh * 2 + 2 * y + 1) ∧
            j = 7 - x) →
        (rd (set_tile_pixel data tile x y c).tiles p >>> j) &&& 1 =
          (rd data.tiles p >>> j) &&& 1) ∧
      (∀ tile' x' y', x' < 8 → y' < data.tileh → ¬ (tile' = tile ∧ x' = x ∧ y' = y) →
        decode_pixel (set_tile_pixel data tile x y c).tiles data.tileh tile' x' y' =
          decode_pixel data.tiles data.tileh tile' x' y')) ∧
    ((tile ≥ data.cols * data.rows ∨ x ≥ 8 ∨ y ≥ data.tileh ∨ c ≥ 4) →
      set_tile_pixel data tile x y c = data) := by
  constructor
  · intro hwf ht hx hy hc
    obtain ⟨hlen, hlo, hhi, hother⟩ := set_tile_pixel_bytes data tile x y c hwf ht hx hy hc
    have e : 2 * y = y * 2 := Nat.mul_comm 2 y
    refine ⟨hlen, ?_, ?_⟩
    · intro p j hj hne
      rw [e] at hne
      by_cases h1 : p = tile * data.tileh * 2 + y * 2
      · have hj' : ¬ (j = 7 - x) := fun h => hne ⟨Or.inl h1, h⟩
        rw [h1, hlo, bit_eq_testBit, bit_eq_testBit, testBit_set_bit _ _ _ _ hx hj, if_neg hj']
      · by_cases h2 : p = tile * data.tileh * 2 + y * 2 + 1
        · have hj' : ¬ (j = 7 - x) := fun h => hne ⟨Or.inr h2, h⟩
          rw [h2, hhi, bit_eq_testBit, bit_eq_testBit, testBit_set_bit _ _ _ _ hx hj,
            if_neg hj']
        · rw [hother p h1 h2]
    · intro tile' x' y' hx' hy' hne
      rw [decode_set_tile_pixel data tile x y c hwf ht hx hy hc tile' x' y' hx' hy', if_neg hne]
  · intro h
    simp only [set_tile_pixel, if_pos h]

theorem set_tile_pixel_frame_witness :
    (full_tile_pic.wf ∧ 0 < full_tile_pic.cols * full_tile_pic.rows ∧ 3 < 8 ∧
      5 < full_tile_pic.tileh ∧ 2 < 4 ∧
      decode_pixel (set_tile_pixel full_tile_pic 0 3 5 2).tiles full_tile_pic.tileh 0 4 5 =
        decode_pixel full_tile_pic.tiles full_tile_pic.tileh 0 4 5) ∧
    ((1 ≥ full_tile_pic.cols * full_tile_pic.rows ∨ 3 ≥ 8 ∨ 5 ≥ full_tile_pic.tileh ∨ 2 ≥ 4) ∧
      set_tile_pixel full_tile_pic 1 3 5 2 = full_tile_pic) :=
  ⟨⟨by decide, by decide, by decide, by decide, by decide,
      ((set_tile_pixel_frame full_tile_pic 0 3 5 2).1 (by decide) (by decide) (by decide)
        (by decide) (by decide)).2.2 0 4 5 (by decide) (by decide) (by decide)⟩,
    ⟨by decide, (set_tile_pixel_frame full_tile_pic 1 3 5 2).2 (by decide)⟩⟩

/-! ## Tile reduction: the loops -/

theorem replace_in_tilemap_fields (pic : PICDATA) (told tnew : Nat) :
    (replace_in_tilemap pic told tnew).cols = pic.cols ∧
    (replace_in_tilemap pic told tnew).rows = pic.rows ∧
    (replace_in_tilemap pic told tnew).tileh = pic.tileh ∧
    (replace_in_tilemap pic told tnew).total_tiles = pic.total_tiles ∧
    (replace_in_tilemap pic told tnew).tiles = pic.tiles ∧
    (replace_in_tilemap pic told tnew).w = pic.w ∧
    (replace_in_tilemap pic told tnew).h = pic.h ∧
    (replace_in_tilemap pic told tnew).pal = pic.pal := by
  simp [replace_in_tilemap]

theorem copy_gb_tile_fields (pic : PICDATA) (dest src : Nat) :
    (copy_gb_tile pic dest src).cols = pic.cols ∧
    (copy_gb_tile pic dest src).rows = pic.rows ∧
    (copy_gb_tile pic dest src).tileh = pic.tileh ∧
    (copy_gb_tile pic dest src).total_tiles = pic.total_tiles ∧
    (copy_gb_tile pic dest src).tilemap = pic.tilemap ∧
    (copy_gb_tile pic dest src).w = pic.w ∧
    (copy_gb_tile pic dest src).h = pic.h ∧
    (copy_gb_tile pic dest src).pal = pic.pal := by
  unfold copy_gb_tile
  split_ifs <;> simp

theorem remove_tile_fields (pic : PICDATA) (t1 t2 : Nat) :
    (remove_tile pic t1 t2).cols = pic.cols ∧
    (remove_tile pic t1 t2).rows = pic.rows ∧
    (remove_tile pic t1 t2).tileh = pic.tileh ∧
    (remove_tile pic t1 t2).total_tiles = pic.total_tiles - 1 ∧
    (remove_tile pic t1 t2).w = pic.w ∧
    (remove_tile pic t1 t2).h = pic.h ∧
    (remove_tile pic t1 t2).pal = pic.pal := by
  simp [remove_tile, replace_in_tilemap_fields, copy_gb_tile_fields]

/-- Invariant rule for the inner loop of `do_tile_reduction`: with fuel for
`total_tiles - t2 + 1` tests of its condition the loop ends, at a state where the invariant holds and `t2`
has reached `total_tiles`; `total_tiles` has not grown. -/
theorem reduction_inner_rule (I : PICDATA → Nat → Prop) (t1 : Nat)
    (hrem : ∀ pic t2, I pic t2 → t2 < pic.total_tiles → compare_gb_tiles pic t1 t2 = 0 →
      I (remove_tile pic t1 t2) t2)
    (hadv : ∀ pic t2, I pic t2 → t2 < pic.total_tiles → compare_gb_tiles pic t1 t2 ≠ 0 →
      I pic (t2 + 1)) :
    ∀ (fuel : Nat) (pic : PICDATA) (t2 : Nat), I pic t2 → pic.total_tiles - t2 < fuel →
      ∃ pic' t2', reduction_inner fuel pic t1 t2 = some pic' ∧ I pic' t2' ∧
        pic'.total_tiles ≤ t2' ∧ pic'.total_tiles ≤ pic.total_tiles := by
  intro fuel
  induction fuel with
  | zero =>
    intro pic t2 hI hf
    omega
  | succ k ih =>
    intro pic t2 hI hf
    unfold reduction_inner
    by_cases hlt : t2 < pic.total_tiles
    · rw [if_pos hlt]
      by_cases hcmp : compare_gb_tiles pic t1 t2 = 0
      · rw [if_pos hcmp]
        have htot := (remove_tile_fields pic t1 t2).2.2.2.1
        obtain ⟨pic', t2', h1, h2, h3, h4⟩ :=
          ih (remove_tile pic t1 t2) t2 (hrem pic t2 hI hlt hcmp) (by omega)
        exact ⟨pic', t2', h1, h2, h3, by omega⟩
      · rw [if_neg hcmp]
        obtain ⟨pic', t2', h1, h2, h3, h4⟩ :=
          ih pic (t2 + 1) (hadv pic t2 hI hlt hcmp) (by omega)
        exact ⟨pic', t2', h1, h2, h3, h4⟩
    · rw [if_neg hlt]
      exact ⟨pic, t2, rfl, hI, by omega, le_refl _⟩

/-- Invariant rule for `do_tile_reduction`: `J` is the invariant at the head of the outer
loop, `I` the one at the head of the inner loop. The call returns, at a state where `J`
holds with `t1` at or past `total_tiles`. -/
theorem reduction_rule (I : PICDATA → Nat → Nat → Prop) (J : PICDATA → Nat → Prop)
    (henter : ∀ pic t1, J pic t1 → t1 < pic.total_tiles → I pic t1 (t1 + 1))
    (hrem : ∀ pic t1 t2, I pic t1 t2 → t2 < pic.total_tiles →
      compare_gb_tiles pic t1 t2 = 0 → I (remove_tile pic t1 t2) t1 t2)
    (hadv : ∀ pic t1 t2, I pic t1 t2 → t2 < pic.total_tiles →
      compare_gb_tiles pic t1 t2 ≠ 0 → I pic t1 (t2 + 1))
    (hexit : ∀ pic t1 t2, I pic t1 t2 → pic.total_tiles ≤ t2 → J pic (t1 + 1))
    (pic : PICDATA) (h0 : J pic 0) :
    ∃ pic' t1, do_tile_reduction pic = some pic' ∧ J pic' t1 ∧ pic'.total_tiles ≤ t1 ∧
      pic'.total_tiles ≤ pic.total_tiles := by
  have outer : ∀ (fuel : Nat) (pic : PICDATA) (t1 : Nat), J pic t1 →
      pic.total_tiles - t1 < fuel →
      ∃ pic' t1', reduction_outer fuel pic t1 = some pic' ∧ J pic' t1' ∧
        pic'.total_tiles ≤ t1' ∧ pic'.total_tiles ≤ pic.total_tiles := by
    intro fuel
    induction fuel with
    | zero =>
      intro pic t1 hJ hf
      omega
    | succ k ih =>
      intro pic t1 hJ hf
      unfold reduction_outer
      by_cases hlt : t1 < pic.total_tiles
      · rw [if_pos hlt]
        obtain ⟨pic1, t2', h1, h2, h3, h4⟩ :=
          reduction_inner_rule (fun p t2 => I p t1 t2) t1 (fun p t2 => hrem p t1 t2)
            (fun p t2 => hadv p t1 t2) (pic.total_tiles + 1) pic (t1 + 1)
            (henter pic t1 hJ hlt) (by omega)
        rw [h1]
        obtain ⟨pic', t1', g1, g2, g3, g4⟩ :=
          ih pic1 (t1 + 1) (hexit pic1 t1 t2' h2 h3) (by omega)
        exact ⟨pic', t1', g1, g2, g3, by omega⟩
      · rw [if_neg hlt]
        exact ⟨pic, t1, rfl, hJ, by omega, le_refl _⟩
  exact outer (pic.total_tiles + 1) pic 0 h0 (by omega)

/-! ## Tile reduction: the primitives -/

theorem replace_in_tilemap_tilemap (pic : PICDATA) (told tnew : Nat) :
    (replace_in_tilemap pic told tnew).tilemap.length = pic.tilemap.length ∧
    ∀ i, rd (replace_in_tilemap pic told tnew).tilemap i =
      if i < pic.cols * pic.rows ∧ i < pic.tilemap.length ∧ rd pic.tilemap i = told
      then tnew else rd pic.tilemap i := by
  simp only [replace_in_tilemap]
  refine loop_inv (fun k m => m.length = pic.tilemap.length ∧
      ∀ i, rd m i = if i < k ∧ i < pic.tilemap.length ∧ rd pic.tilemap i = told
        then tnew else rd pic.tilemap i) _ _ _ ⟨rfl, fun i => by simp⟩ ?_
  rintro k m hk ⟨hlen, hrd⟩
  have hk' := hrd k
  rw [if_neg (by omega)] at hk'
  constructor
  · split_ifs <;> simp [length_wr, hlen]
  · intro i
    by_cases hik : i = k
    · subst hik
      by_cases hc : rd pic.tilemap i = told
      · rw [if_pos (by rw [hk']; exact hc), rd_wr, hlen]
        by_cases hl : i < pic.tilemap.length
        · simp [hl, hc]
        · simp [hl, hk']
      · rw [if_neg (by rw [hk']; exact hc), hk']
        simp [hc]
    · have e : (i < k + 1 ∧ i < pic.tilemap.length ∧ rd pic.tilemap i = told) ↔
          (i < k ∧ i < pic.tilemap.length ∧ rd pic.tilemap i = told) := by
        constructor
        · rintro ⟨a, b⟩; exact ⟨by omega, b⟩
        · rintro ⟨a, b⟩; exact ⟨by omega, b⟩
      split_ifs with h1 h2 h3 <;> simp_all [rd_wr]

theorem memcmp_eq_zero (m : List Nat) (n p q : Nat) :
    memcmp m p q n = 0 ↔ ∀ j, j < n → rd m (p + j) = rd m (q + j) := by
  induction n generalizing p q with
  | zero => simp [memcmp]
  | succ k ih =>
    unfold memcmp
    by_cases h : rd m p = rd m q
    · rw [if_pos h, ih]
      constructor
      · intro hall j hj
        rcases j with _ | j
        · simpa using h
        · have := hall j (by omega)
          simpa [Nat.add_assoc, Nat.add_comm 1 j] using this
      · intro hall j hj
        have := hall (j + 1) (by omega)
        simpa [Nat.add_assoc, Nat.add_comm 1 j] using this
    · rw [if_neg h]
      constructor
      · intro h0
        exact absurd (by omega) h
      · intro hall
        exact absurd (by simpa using hall 0 (by omega)) h

theorem memcpy_spec (m : List Nat) (dest src n : Nat) (hin : dest + n ≤ m.length)
    (hsep : dest = src ∨ dest + n ≤ src ∨ src + n ≤ dest) :
    (memcpy m dest src n).length = m.length ∧
    ∀ p, rd (memcpy m dest src n) p =
      if dest ≤ p ∧ p < dest + n then rd m (src + (p - dest)) else rd m p := by
  simp only [memcpy]
  have key : ∀ k, k ≤ n →
      (loop k (fun j acc => wr acc (dest + j) (rd acc (src + j))) m).length = m.length ∧
      ∀ p, rd (loop k (fun j acc => wr acc (dest + j) (rd acc (src + j))) m) p =
        if dest ≤ p ∧ p < dest + k then rd m (src + (p - dest)) else rd m p := by
    intro k
    induction k with
    | zero =>
      intro _
      refine ⟨by simp [loop_zero], fun p => ?_⟩
      rw [loop_zero, if_neg (by omega)]
    | succ k ih =>
      intro hk
      obtain ⟨hlen, hrd⟩ := ih (by omega)
      rw [loop_succ]
      refine ⟨by simp [length_wr, hlen], ?_⟩
      intro p
      rw [rd_wr, hlen, hrd (src + k), hrd p]
      have hsrc : ¬ (dest ≤ src + k ∧ src + k < dest + k) := by omega
      rw [if_neg hsrc]
      by_cases hp : p = dest + k
      · subst hp
        rw [if_pos ⟨rfl, by omega⟩, if_pos ⟨by omega, by omega⟩]
        congr 1
        omega
      · rw [if_neg (fun h => hp h.1)]
        by_cases hin' : dest ≤ p ∧ p < dest + k
        · rw [if_pos hin', if_pos ⟨hin'.1, by omega⟩]
        · rw [if_neg hin', if_neg (by omega)]
  exact key n (le_refl n)

theorem tile_bounds (pic : PICDATA) (hwf : pic.wf) (a : Nat) (ha : a < pic.cols * pic.rows) :
    a * (pic.tileh * 2) + pic.tileh * 2 ≤ pic.tiles.length := by
  rw [hwf.1]
  have h1 : (a + 1) * (pic.tileh * 2) ≤ pic.cols * pic.rows * (pic.tileh * 2) :=
    Nat.mul_le_mul_right _ ha
  have h2 : (a + 1) * (pic.tileh * 2) = a * (pic.tileh * 2) + pic.tileh * 2 := by ring
  have h3 : pic.cols * pic.rows * (pic.tileh * 2) = pic.cols * pic.rows * pic.tileh * 2 := by
    ring
  omega

theorem tile_sep (sz a b : Nat) (h : a ≠ b) : a * sz + sz ≤ b * sz ∨ b * sz + sz ≤ a * sz := by
  rcases Nat.lt_or_gt_of_ne h with hlt | hgt
  · left
    have h1 : (a + 1) * sz ≤ b * sz := Nat.mul_le_mul_right _ hlt
    have h2 : (a + 1) * sz = a * sz + sz := by ring
    omega
  · right
    have h1 : (b + 1) * sz ≤ a * sz := Nat.mul_le_mul_right _ hgt
    have h2 : (b + 1) * sz = b * sz + sz := by ring
    omega

/-- The comparison of two different tiles of the grid is zero exactly when their
bytes agree. -/
theorem compare_gb_tiles_eq_zero (pic : PICDATA) (t0 t1 : Nat) :
    compare_gb_tiles pic t0 t1 = 0 ↔
      (t0 < pic.cols * pic.rows ∧ t1 < pic.cols * pic.rows ∧ t0 ≠ t1 ∧
        tile_eq pic.tiles t0 pic.tiles t1 (pic.tileh * 2)) := by
  unfold compare_gb_tiles
  by_cases hg : t0 ≥ pic.cols * pic.rows ∨ t1 ≥ pic.cols * pic.rows
  · rw [if_pos hg]
    constructor
    · intro h; exact absurd h (by decide)
    · rintro ⟨h1, h2, _⟩; omega
  · rw [if_neg hg]
    by_cases he : t0 = t1
    · rw [if_pos he]
      constructor
      · intro h; exact absurd h (by decide)
      · rintro ⟨_, _, h3, _⟩; exact absurd he h3
    · rw [if_neg he]
      simp only [memcmp_eq_zero, tile_eq]
      constructor
      · intro h; exact ⟨by omega, by omega, he, h⟩
      · rintro ⟨_, _, _, h⟩; exact h

/-- The tiles of the store after `copy_gb_tile` between tiles of the grid. -/
theorem copy_gb_tile_tiles (pic : PICDATA) (hwf : pic.wf) (dest src : Nat)
    (hd : dest < pic.cols * pic.rows) (hs : src < pic.cols * pic.rows) :
    (copy_gb_tile pic dest src).tiles.length = pic.tiles.length ∧
    ∀ a, tile_eq (copy_gb_tile pic dest src).tiles a pic.tiles (if a = dest then src else a)
      (pic.tileh * 2) := by
  have hg : ¬ (dest ≥ pic.cols * pic.rows ∨ src ≥ pic.cols * pic.rows) := by omega
  have hsep : dest * (pic.tileh * 2) = src * (pic.tileh * 2) ∨
      dest * (pic.tileh * 2) + pic.tileh * 2 ≤ src * (pic.tileh * 2) ∨
      src * (pic.tileh * 2) + pic.tileh * 2 ≤ dest * (pic.tileh * 2) := by
    by_cases e : dest = src
    · left; rw [e]
    · right; exact tile_sep _ _ _ e
  obtain ⟨hlen, hrd⟩ := memcpy_spec pic.tiles (dest * (pic.tileh * 2)) (src * (pic.tileh * 2))
    (pic.tileh * 2) (tile_bounds pic hwf dest hd) hsep
  simp only [copy_gb_tile, if_neg hg]
  refine ⟨hlen, ?_⟩
  intro a j hj
  rw [hrd]
  by_cases e : a = dest
  · subst e
    rw [if_pos ⟨by omega, by omega⟩, if_pos rfl]
    congr 1
    omega
  · rw [if_neg e]
    have := tile_sep (pic.tileh * 2) a dest e
    rw [if_neg (by omega)]

theorem tile_eq_symm {ta tb : List Nat} {a b sz : Nat} (h : tile_eq ta a tb b sz) :
    tile_eq tb b ta a sz :=
  fun j hj => (h j hj).symm

theorem tile_eq_trans {ta tb tc : List Nat} {a b c sz : Nat} (h1 : tile_eq ta a tb b sz)
    (h2 : tile_eq tb b tc c sz) : tile_eq ta a tc c sz :=
  fun j hj => (h1 j hj).trans (h2 j hj)

theorem tile_eq_refl (ta : List Nat) (a sz : Nat) : tile_eq ta a ta a sz :=
  fun _ _ => rfl

/-- The tilemap after the removal of tile `t2` as a duplicate of `t1`: references to `t2`
go to `t1`, references to the last tile go to `t2`. -/
theorem remove_tile_tilemap (pic : PICDATA) (t1 t2 : Nat) (h12 : t1 < t2)
    (h2 : t2 < pic.total_tiles) :
    (remove_tile pic t1 t2).tilemap.length = pic.tilemap.length ∧
    ∀ i, rd (remove_tile pic t1 t2).tilemap i =
      if i < pic.cols * pic.rows ∧ i < pic.tilemap.length then
        (if rd pic.tilemap i = t2 then t1
         else if rd pic.tilemap i = pic.total_tiles - 1 then t2 else rd pic.tilemap i)
      else rd pic.tilemap i := by
  have f1 := replace_in_tilemap_fields pic t2 t1
  have m1 := replace_in_tilemap_tilemap pic t2 t1
  simp only [remove_tile]
  generalize replace_in_tilemap pic t2 t1 = pic1 at f1 m1 ⊢
  have f2 := copy_gb_tile_fields pic1 t2 (pic1.total_tiles - 1)
  generalize copy_gb_tile pic1 t2 (pic1.total_tiles - 1) = pic2 at f2 ⊢
  have m3 := replace_in_tilemap_tilemap pic2 (pic2.total_tiles - 1) t2
  obtain ⟨c1, r1, -, n1, -⟩ := f1
  obtain ⟨c2, r2, -, n2, tm2, -⟩ := f2
  refine ⟨by rw [m3.1, tm2, m1.1], ?_⟩
  intro i
  rw [m3.2 i, tm2, m1.2 i, m1.1, c2, r2, n2, c1, r1, n1]
  have ht1 : t1 ≠ pic.total_tiles - 1 := by omega
  by_cases hN : i < pic.cols * pic.rows <;> by_cases hl : i < pic.tilemap.length <;>
    by_cases e : rd pic.tilemap i = t2 <;>
    by_cases e' : rd pic.tilemap i = pic.total_tiles - 1 <;>
    simp [hN, hl, e, e', ht1]
  split_ifs <;> rfl

/-- The tile store after the removal of tile `t2`: slot `t2` holds the former last
tile, every other slot is unchanged. -/
theorem remove_tile_tiles (pic : PICDATA) (hwf : pic.wf) (t1 t2 : Nat)
    (h2 : t2 < pic.total_tiles) (htot : pic.total_tiles ≤ pic.cols * pic.rows) :
    (remove_tile pic t1 t2).tiles.length = pic.tiles.length ∧
    ∀ a, tile_eq (remove_tile pic t1 t2).tiles a pic.tiles
      (if a = t2 then pic.total_tiles - 1 else a) (pic.tileh * 2) := by
  have f1 := replace_in_tilemap_fields pic t2 t1
  have m1 := replace_in_tilemap_tilemap pic t2 t1
  simp only [remove_tile]
  generalize replace_in_tilemap pic t2 t1 = pic1 at f1 m1 ⊢
  obtain ⟨c1, r1, h1, n1, ts1, -⟩ := f1
  have wf1 : pic1.wf := by
    unfold PICDATA.wf
    rw [ts1, c1, r1, h1, m1.1]
    exact hwf
  have c := copy_gb_tile_tiles pic1 wf1 t2 (pic1.total_tiles - 1) (by rw [c1, r1]; omega)
    (by rw [c1, r1, n1]; omega)
  generalize copy_gb_tile pic1 t2 (pic1.total_tiles - 1) = pic2 at c ⊢
  have f3 := replace_in_tilemap_fields pic2 (pic2.total_tiles - 1) t2
  rw [f3.2.2.2.2.1]
  rw [ts1, h1, n1] at c
  exact c

theorem remove_tile_wf (pic : PICDATA) (hwf : pic.wf) (t1 t2 : Nat) (h12 : t1 < t2)
    (h2 : t2 < pic.total_tiles) (htot : pic.total_tiles ≤ pic.cols * pic.rows) :
    (remove_tile pic t1 t2).wf := by
  have f := remove_tile_fields pic t1 t2
  unfold PICDATA.wf
  rw [(remove_tile_tiles pic hwf t1 t2 h2 htot).1, (remove_tile_tilemap pic t1 t2 h12 h2).1,
    f.1, f.2.1, f.2.2.1]
  exact hwf

/-! ## Tile reduction: tilemap closure (C3) -/

theorem identity_tilemap (n : Nat) :
    (loop n (fun t m => wr m t t) (List.replicate n 0)).length = n ∧
    ∀ i, i < n → rd (loop n (fun t m => wr m t t) (List.replicate n 0)) i = i := by
  have key : ∀ k, k ≤ n →
      (loop k (fun t m => wr m t t) (List.replicate n 0)).length = n ∧
      ∀ i, i < k → rd (loop k (fun t m => wr m t t) (List.replicate n 0)) i = i := by
    intro k
    induction k with
    | zero => intro _; simp [loop_zero]
    | succ k ih =>
      intro hk
      obtain ⟨hlen, hrd⟩ := ih (by omega)
      rw [loop_succ]
      refine ⟨by simp [length_wr, hlen], ?_⟩
      intro i hi
      rw [rd_wr, hlen]
      by_cases e : i = k
      · rw [if_pos ⟨e, by omega⟩, e]
      · rw [if_neg (fun h => e h.1)]
        exact hrd i (by omega)
  exact key n (le_refl n)

/-- C3. Tilemap closure: right after `allocate_gb_pict` the tilemap has `cols*rows`
entries, is the identity and so has every entry `< total_tiles`; and `do_tile_reduction`
returns a picture with the same grid whose tilemap still has `cols*rows` entries, all
`< total_tiles`, whenever that held before the call. -/
theorem tilemap_closure :
    (∀ (w h : Nat) (m16 : Bool) (pal0 : List Nat),
      (allocate_gb_pict w h m16 pal0).tilemap.length =
        (allocate_gb_pict w h m16 pal0).cols * (allocate_gb_pict w h m16 pal0).rows ∧
      ∀ i, i < (allocate_gb_pict w h m16 pal0).cols * (allocate_gb_pict w h m16 pal0).rows →
        rd (allocate_gb_pict w h m16 pal0).tilemap i = i ∧
        rd (allocate_gb_pict w h m16 pal0).tilemap i <
          (allocate_gb_pict w h m16 pal0).total_tiles) ∧
    (∀ pic : PICDATA, pic.tilemap.length = pic.cols * pic.rows →
      (∀ i, i < pic.cols * pic.rows → rd pic.tilemap i < pic.total_tiles) →
      ∃ pic', do_tile_reduction pic = some pic' ∧
        pic'.cols = pic.cols ∧ pic'.rows = pic.rows ∧
        pic'.tilemap.length = pic.cols * pic.rows ∧
        ∀ i, i < pic.cols * pic.rows → rd pic'.tilemap i < pic'.total_tiles) := by
  constructor
  · intro w h m16 pal0
    simp only [allocate_gb_pict]
    refine ⟨(identity_tilemap _).1, ?_⟩
    intro i hi
    rw [(identity_tilemap _).2 i hi]
    exact ⟨rfl, hi⟩
  · intro pic hlen hlt
    obtain ⟨pic', t1, hrun, hJ, -, -⟩ := reduction_rule
      (fun p t1 t2 => (p.cols = pic.cols ∧ p.rows = pic.rows ∧
        p.tilemap.length = pic.cols * pic.rows ∧
        ∀ i, i < pic.cols * pic.rows → rd p.tilemap i < p.total_tiles) ∧ t1 < t2)
      (fun p _ => p.cols = pic.cols ∧ p.rows = pic.rows ∧
        p.tilemap.length = pic.cols * pic.rows ∧
        ∀ i, i < pic.cols * pic.rows → rd p.tilemap i < p.total_tiles)
      (fun p t1 hJ _ => ⟨hJ, Nat.lt_succ_self t1⟩)
      (by
        rintro p t1 t2 ⟨⟨hc, hr, hl, hent⟩, h12⟩ h2 -
        have f := remove_tile_fields p t1 t2
        have tm := remove_tile_tilemap p t1 t2 h12 h2
        refine ⟨⟨f.1.trans hc, f.2.1.trans hr, tm.1.trans hl, ?_⟩, h12⟩
        intro i hi
        have hi' := hent i hi
        rw [tm.2 i, f.2.2.2.1, hc, hr, hl, if_pos ⟨hi, hi⟩]
        split_ifs <;> omega)
      (fun p t1 t2 hI _ _ => ⟨hI.1, Nat.lt_succ_of_lt hI.2⟩)
      (fun p t1 t2 hI _ => hI.1)
      pic ⟨rfl, rfl, hlen, hlt⟩
    exact ⟨pic', hrun, hJ⟩

theorem tilemap_closure_witness :
    (rd (allocate_gb_pict 20 9 false [0, 0, 0, 0]).tilemap 5 = 5) ∧
    (twin_tiles_pic.tilemap.length = twin_tiles_pic.cols * twin_tiles_pic.rows ∧
      (∀ i, i < twin_tiles_pic.cols * twin_tiles_pic.rows →
        rd twin_tiles_pic.tilemap i < twin_tiles_pic.total_tiles) ∧
      ∃ pic', do_tile_reduction twin_tiles_pic = some pic' ∧
        pic'.cols = twin_tiles_pic.cols ∧ pic'.rows = twin_tiles_pic.rows ∧
        pic'.tilemap.length = twin_tiles_pic.cols * twin_tiles_pic.rows ∧
        ∀ i, i < twin_tiles_pic.cols * twin_tiles_pic.rows →
          rd pic'.tilemap i < pic'.total_tiles) :=
  ⟨((tilemap_closure.1 20 9 false [0, 0, 0, 0]).2 5 (by decide)).1,
    by decide, by decide,
    tilemap_closure.2 twin_tiles_pic (by decide) (by decide)⟩

/-! ## Tile reduction: fidelity (C1) and distinctness (C2) -/

/-- One removal keeps the picture: each grid cell names, after the removal, a tile with
the bytes of the tile it named before, and the new entry is below the new tile count. -/
theorem remove_tile_render (p : PICDATA) (hwf : p.wf) (t1 t2 : Nat) (h12 : t1 < t2)
    (h2 : t2 < p.total_tiles) (htot : p.total_tiles ≤ p.cols * p.rows)
    (heq : tile_eq p.tiles t1 p.tiles t2 (p.tileh * 2))
    (i : Nat) (hi : i < p.cols * p.rows) (hent : rd p.tilemap i < p.total_tiles) :
    tile_eq (remove_tile p t1 t2).tiles (rd (remove_tile p t1 t2).tilemap i) p.tiles
      (rd p.tilemap i) (p.tileh * 2) ∧
    rd (remove_tile p t1 t2).tilemap i < p.total_tiles - 1 := by
  have tm := (remove_tile_tilemap p t1 t2 h12 h2).2 i
  have ts := (remove_tile_tiles p hwf t1 t2 h2 htot).2
  rw [if_pos ⟨hi, by rw [hwf.2]; exact hi⟩] at tm
  rw [tm]
  by_cases e : rd p.tilemap i = t2
  · rw [if_pos e, e]
    refine ⟨?_, by omega⟩
    have := ts t1
    rw [if_neg (by omega)] at this
    exact tile_eq_trans this heq
  · rw [if_neg e]
    by_cases e' : rd p.tilemap i = p.total_tiles - 1
    · rw [if_pos e', e']
      refine ⟨?_, by omega⟩
      have := ts t2
      rw [if_pos rfl] at this
      exact this
    · rw [if_neg e']
      refine ⟨?_, by omega⟩
      have := ts (rd p.tilemap i)
      rw [if_neg e] at this
      exact this

/-- C1. Reduction fidelity: for a picture with `total_tiles <= cols*rows` whose tilemap
entries are all `< total_tiles`, `do_tile_reduction` returns a picture in which, for every
grid cell `i < cols*rows`, the `tileh*2` bytes of tile `tilemap'[i]` of the new tile store
are the `tileh*2` bytes of tile `tilemap[i]` of the old one. -/
theorem reduction_fidelity (pic : PICDATA) (hwf : pic.wf)
    (htot : pic.total_tiles ≤ pic.cols * pic.rows)
    (hent : ∀ i, i < pic.cols * pic.rows → rd pic.tilemap i < pic.total_tiles) :
    ∃ pic', do_tile_reduction pic = some pic' ∧ pic'.tileh = pic.tileh ∧
      ∀ i, i < pic.cols * pic.rows →
        tile_eq pic'.tiles (rd pic'.tilemap i) pic.tiles (rd pic.tilemap i) (pic.tileh * 2) := by
  obtain ⟨pic', t1, hrun, hJ, -, -⟩ := reduction_rule
    (fun p t1 t2 => (p.wf ∧ p.cols = pic.cols ∧ p.rows = pic.rows ∧ p.tileh = pic.tileh ∧
      p.total_tiles ≤ pic.cols * pic.rows ∧
      (∀ i, i < pic.cols * pic.rows → rd p.tilemap i < p.total_tiles) ∧
      ∀ i, i < pic.cols * pic.rows →
        tile_eq p.tiles (rd p.tilemap i) pic.tiles (rd pic.tilemap i) (pic.tileh * 2)) ∧
      t1 < t2)
    (fun p _ => p.wf ∧ p.cols = pic.cols ∧ p.rows = pic.rows ∧ p.tileh = pic.tileh ∧
      p.total_tiles ≤ pic.cols * pic.rows ∧
      (∀ i, i < pic.cols * pic.rows → rd p.tilemap i < p.total_tiles) ∧
      ∀ i, i < pic.cols * pic.rows →
        tile_eq p.tiles (rd p.tilemap i) pic.tiles (rd pic.tilemap i) (pic.tileh * 2))
    (fun p t1 hJ _ => ⟨hJ, Nat.lt_succ_self t1⟩)
    (by
      rintro p t1 t2 ⟨⟨hw, hc, hr, hh, hn, hlt, hrend⟩, h12⟩ h2 hcmp
      have f := remove_tile_fields p t1 t2
      have heq := ((compare_gb_tiles_eq_zero p t1 t2).1 hcmp).2.2.2
      have hn' : p.total_tiles ≤ p.cols * p.rows := by rw [hc, hr]; exact hn
      refine ⟨⟨remove_tile_wf p hw t1 t2 h12 h2 hn', f.1.trans hc, f.2.1.trans hr,
        f.2.2.1.trans hh, by rw [f.2.2.2.1]; omega, ?_, ?_⟩, h12⟩
      · intro i hi
        rw [f.2.2.2.1]
        exact (remove_tile_render p hw t1 t2 h12 h2 hn' heq i (by rw [hc, hr]; exact hi)
          (hlt i hi)).2
      · intro i hi
        have := (remove_tile_render p hw t1 t2 h12 h2 hn' heq i (by rw [hc, hr]; exact hi)
          (hlt i hi)).1
        rw [hh] at this
        exact tile_eq_trans this (hrend i hi))
    (fun p t1 t2 hI _ _ => ⟨hI.1, Nat.lt_succ_of_lt hI.2⟩)
    (fun p t1 t2 hI _ => hI.1)
    pic ⟨hwf, rfl, rfl, rfl, htot, hent, fun i _ => tile_eq_refl _ _ _⟩
  exact ⟨pic', hrun, hJ.2.2.2.1, hJ.2.2.2.2.2.2⟩

theorem reduction_fidelity_witness :
    striped_pic.wf ∧ striped_pic.total_tiles ≤ striped_pic.cols * striped_pic.rows ∧
    (∀ i, i < striped_pic.cols * striped_pic.rows →
      rd striped_pic.tilemap i < striped_pic.total_tiles) ∧
    ∃ pic', do_tile_reduction striped_pic = some pic' ∧ pic'.tileh = striped_pic.tileh ∧
      ∀ i, i < striped_pic.cols * striped_pic.rows →
        tile_eq pic'.tiles (rd pic'.tilemap i) striped_pic.tiles (rd striped_pic.tilemap i)
          (striped_pic.tileh * 2) :=
  ⟨by decide, by decide, by decide,
    reduction_fidelity striped_pic (by decide) (by decide) (by decide)⟩

/-- C2. Tile distinctness: for a picture with `total_tiles <= cols*rows`,
`do_tile_reduction` returns a picture in which no two tiles `a < b < total_tiles` have the
same `tileh*2` bytes. -/
theorem reduction_distinct (pic : PICDATA) (hwf : pic.wf)
    (htot : pic.total_tiles ≤ pic.cols * pic.rows) :
    ∃ pic', do_tile_reduction pic = some pic' ∧ pic'.tileh = pic.tileh ∧
      ∀ a b, a < b → b < pic'.total_tiles →
        ¬ tile_eq pic'.tiles a pic'.tiles b (pic'.tileh * 2) := by
  obtain ⟨pic', t1, hrun, hJ, hexit, -⟩ := reduction_rule
    (fun p t1 t2 => p.wf ∧ p.tileh = pic.tileh ∧ p.total_tiles ≤ p.cols * p.rows ∧ t1 < t2 ∧
      (∀ a b, a < t1 → a < b → b < p.total_tiles →
        ¬ tile_eq p.tiles a p.tiles b (p.tileh * 2)) ∧
      (∀ b, t1 < b → b < t2 → b < p.total_tiles →
        ¬ tile_eq p.tiles t1 p.tiles b (p.tileh * 2)))
    (fun p t1 => p.wf ∧ p.tileh = pic.tileh ∧ p.total_tiles ≤ p.cols * p.rows ∧
      (∀ a b, a < t1 → a < b → b < p.total_tiles →
        ¬ tile_eq p.tiles a p.tiles b (p.tileh * 2)))
    (by
      rintro p t1 ⟨hw, hh, hn, hd⟩ _
      exact ⟨hw, hh, hn, Nat.lt_succ_self t1, hd, fun b h1 h2 _ => by omega⟩)
    (by
      rintro p t1 t2 ⟨hw, hh, hn, h12, hd, hd1⟩ h2 hcmp
      have f := remove_tile_fields p t1 t2
      have ts := (remove_tile_tiles p hw t1 t2 h2 hn).2
      rw [← f.2.2.1] at ts
      refine ⟨remove_tile_wf p hw t1 t2 h12 h2 hn, f.2.2.1.trans hh,
        by rw [f.2.2.2.1, f.1, f.2.1]; omega, h12, ?_, ?_⟩
      · intro a b ha hab hb heq
        rw [f.2.2.2.1] at hb
        have ea := ts a
        rw [if_neg (by omega)] at ea
        have eb := ts b
        have hcontra := tile_eq_trans (tile_eq_trans (tile_eq_symm ea) heq) eb
        rw [f.2.2.1] at hcontra
        by_cases e : b = t2
        · rw [if_pos e] at hcontra
          exact hd a (p.total_tiles - 1) ha (by omega) (by omega) hcontra
        · rw [if_neg e] at hcontra
          exact hd a b ha hab (by omega) hcontra
      · intro b hb1 hb2 hb heq
        rw [f.2.2.2.1] at hb
        have ea := ts t1
        rw [if_neg (by omega)] at ea
        have eb := ts b
        rw [if_neg (by omega)] at eb
        have hcontra := tile_eq_trans (tile_eq_trans (tile_eq_symm ea) heq) eb
        rw [f.2.2.1] at hcontra
        exact hd1 b hb1 hb2 (by omega) hcontra)
    (by
      rintro p t1 t2 ⟨hw, hh, hn, h12, hd, hd1⟩ h2 hcmp
      refine ⟨hw, hh, hn, by omega, hd, ?_⟩
      intro b hb1 hb2 hb heq
      by_cases e : b = t2
      · subst e
        exact hcmp ((compare_gb_tiles_eq_zero p t1 b).2 ⟨by omega, by omega, by omega, heq⟩)
      · exact hd1 b hb1 (by omega) hb heq)
    (by
      rintro p t1 t2 ⟨hw, hh, hn, h12, hd, hd1⟩ hex
      refine ⟨hw, hh, hn, ?_⟩
      intro a b ha hab hb
      by_cases e : a = t1
      · subst e
        exact hd1 b hab (by omega) hb
      · exact hd a b (by omega) hab hb)
    pic ⟨hwf, rfl, htot, fun a b ha _ _ => by omega⟩
  refine ⟨pic', hrun, hJ.2.1, ?_⟩
  intro a b hab hb
  exact hJ.2.2.2 a b (by omega) hab hb

theorem reduction_distinct_witness :
    striped_pic.wf ∧ striped_pic.total_tiles ≤ striped_pic.cols * striped_pic.rows ∧
    ∃ pic', do_tile_reduction striped_pic = some pic' ∧ pic'.tileh = striped_pic.tileh ∧
      ∀ a b, a < b → b < pic'.total_tiles →
        ¬ tile_eq pic'.tiles a pic'.tiles b (pic'.tileh * 2) :=
  ⟨by decide, by decide, reduction_distinct striped_pic (by decide) (by decide)⟩

/-! ## The pixel loop: pad pixels (C7) and the dropped tail (C4) -/

theorem rd_replicate_zero (n i : Nat) : rd (List.replicate n 0) i = 0 := by
  unfold rd
  rw [List.getD_eq_getElem?_getD]
  by_cases h : i < n
  · simp [List.getElem?_replicate, h]
  · simp [List.getElem?_replicate, h]

theorem allocate_gb_pict_wf (w h : Nat) (m16 : Bool) (pal0 : List Nat) :
    (allocate_gb_pict w h m16 pal0).wf := by
  unfold PICDATA.wf
  simp only [allocate_gb_pict]
  exact ⟨by simp, (identity_tilemap _).1⟩

theorem set_tile_pixel_fields (data : PICDATA) (tile x y c : Nat) :
    (set_tile_pixel data tile x y c).cols = data.cols ∧
    (set_tile_pixel data tile x y c).rows = data.rows ∧
    (set_tile_pixel data tile x y c).tileh = data.tileh ∧
    (set_tile_pixel data tile x y c).total_tiles = data.total_tiles ∧
    (set_tile_pixel data tile x y c).tilemap = data.tilemap ∧
    (set_tile_pixel data tile x y c).w = data.w ∧
    (set_tile_pixel data tile x y c).h = data.h ∧
    (set_tile_pixel data tile x y c).pal = data.pal := by
  unfold set_tile_pixel
  split_ifs <;> simp

theorem set_tile_pixel_wf (data : PICDATA) (hwf : data.wf) (tile x y c : Nat) :
    (set_tile_pixel data tile x y c).wf := by
  have f := set_tile_pixel_fields data tile x y c
  by_cases hg : tile ≥ data.cols * data.rows ∨ x ≥ 8 ∨ y ≥ data.tileh ∨ c ≥ 4
  · simp only [set_tile_pixel, if_pos hg]
    exact hwf
  · have hlen := (set_tile_pixel_bytes data tile x y c hwf (by omega) (by omega) (by omega)
      (by omega)).1
    unfold PICDATA.wf
    rw [hlen, f.1, f.2.1, f.2.2.1, f.2.2.2.2.1]
    exact hwf

/-- Invariant rule for the pixel loop: a property of the picture that every
`set_tile_pixel` call issued for a pixel index `k < width*height` preserves holds after the
loop. -/
theorem pixel_loop_inv (P : PICDATA → Prop) (image : List Nat) (width height bitdepth : Nat)
    (palette_map : List Nat) (result : PICDATA)
    (hstep : ∀ res k c, P res → k < width * height →
      P (set_tile_pixel res ((k / width / res.tileh) * res.cols + k % width / 8)
        (k % width % 8) (k / width % res.tileh) c))
    (h0 : P result) :
    P (pixel_loop image width height bitdepth palette_map result) := by
  simp only [pixel_loop]
  refine loop_inv (fun _ res => P res) _ _ _ h0 ?_
  intro b res hb hres
  refine loop_inv (fun _ (st : Nat × PICDATA) => P st.2) _ _ _ hres ?_
  intro pix st hpix hst
  apply hstep _ _ _ hst
  have h1 : (b + 1) * (8 / bitdepth) ≤ width * height / (8 / bitdepth) * (8 / bitdepth) :=
    Nat.mul_le_mul_right _ hb
  have h2 : width * height / (8 / bitdepth) * (8 / bitdepth) ≤ width * height :=
    Nat.div_mul_le_self _ _
  have h3 : (b + 1) * (8 / bitdepth) = b * (8 / bitdepth) + 8 / bitdepth := by ring
  omega

/-- C7. Pad pixels are colour 0: after `allocate_gb_pict` and the pixel loop, every
in-tile position `(xi, yi)` of a tile `(tx, ty)` whose image coordinate
`(8*tx + xi, tileh*ty + yi)` lies outside the `w x h` image decodes to colour 0, for
every palette map, pixel stream and bit depth (and every tile row `ty`, the rows of the
grid among them). -/
theorem pad_pixels_zero (w h : Nat) (m16 : Bool) (pal0 image : List Nat) (bitdepth : Nat)
    (palette_map : List Nat) (tx ty xi yi : Nat)
    (htx : tx < (allocate_gb_pict w h m16 pal0).cols)
    (hxi : xi < 8) (hyi : yi < (allocate_gb_pict w h m16 pal0).tileh)
    (hout : w ≤ 8 * tx + xi ∨ h ≤ (allocate_gb_pict w h m16 pal0).tileh * ty + yi) :
    decode_pixel (pixel_loop image w h bitdepth palette_map
        (allocate_gb_pict w h m16 pal0)).tiles (allocate_gb_pict w h m16 pal0).tileh
      (ty * (allocate_gb_pict w h m16 pal0).cols + tx) xi yi = 0 := by
  have hwf0 := allocate_gb_pict_wf w h m16 pal0
  generalize hp : allocate_gb_pict w h m16 pal0 = pic0 at *
  have hcols : pic0.cols = if w % 8 = 0 then w / 8 else w / 8 + 1 := by
    rw [← hp]; rfl
  have hzero : decode_pixel pic0.tiles pic0.tileh (ty * pic0.cols + tx) xi yi = 0 := by
    rw [← hp]
    simp [allocate_gb_pict, decode_pixel, rd_replicate_zero]
  have key := pixel_loop_inv
    (fun res => res.wf ∧ res.cols = pic0.cols ∧ res.rows = pic0.rows ∧
      res.tileh = pic0.tileh ∧
      decode_pixel res.tiles pic0.tileh (ty * pic0.cols + tx) xi yi = 0)
    image w h bitdepth palette_map pic0
    (by
      rintro res k c ⟨hw, hc, hr, hh, hd⟩ hk
      have f := set_tile_pixel_fields res ((k / w / res.tileh) * res.cols + k % w / 8)
        (k % w % 8) (k / w % res.tileh) c
      refine ⟨set_tile_pixel_wf res hw _ _ _ _, f.1.trans hc, f.2.1.trans hr,
        f.2.2.1.trans hh, ?_⟩
      by_cases hg : (k / w / res.tileh) * res.cols + k % w / 8 ≥ res.cols * res.rows ∨
          k % w % 8 ≥ 8 ∨ k / w % res.tileh ≥ res.tileh ∨ c ≥ 4
      · simp only [set_tile_pixel, if_pos hg]
        exact hd
      · have hwpos : 0 < w := by
          rcases Nat.eq_zero_or_pos w with h0 | h0
          · rw [h0] at hk; simp at hk
          · exact h0
        have hx : k % w < w := Nat.mod_lt _ hwpos
        have hy : k / w < h := by
          rw [Nat.div_lt_iff_lt_mul hwpos, Nat.mul_comm]
          exact hk
        have hthpos : 0 < res.tileh := by omega
        have hdec := decode_set_tile_pixel res ((k / w / res.tileh) * res.cols + k % w / 8)
          (k % w % 8) (k / w % res.tileh) c hw (by omega) (by omega) (by omega)
          (by omega) (ty * pic0.cols + tx) xi yi hxi (by rw [hh]; exact hyi)
        rw [hh, hc] at hdec ⊢
        rw [hdec, if_neg, hd]
        rintro ⟨e1, e2, e3⟩
        have hx8 : k % w / 8 < pic0.cols := by
          rw [hcols]; split_ifs <;> omega
        obtain ⟨e4, e5⟩ := tile_row_inj pic0.cols _ _ _ _ htx hx8 e1
        have hm1 := Nat.div_add_mod (k % w) 8
        have hm2 := Nat.div_add_mod (k / w) pic0.tileh
        rw [← e4, ← e3] at hm2
        rw [← e5, ← e2] at hm1
        rcases hout with ho | ho <;> omega)
    ⟨hwf0, rfl, rfl, rfl, hzero⟩
  exact key.2.2.2.2

theorem pad_pixels_zero_witness :
    1 < (allocate_gb_pict 10 9 false [0, 0, 0, 0]).cols ∧ 2 < 8 ∧
    1 < (allocate_gb_pict 10 9 false [0, 0, 0, 0]).tileh ∧
    (10 ≤ 8 * 1 + 2 ∨ 9 ≤ (allocate_gb_pict 10 9 false [0, 0, 0, 0]).tileh * 1 + 1) ∧
    decode_pixel (pixel_loop (List.replicate 90 3) 10 9 8 [0, 1, 2, 3]
        (allocate_gb_pict 10 9 false [0, 0, 0, 0])).tiles
      (allocate_gb_pict 10 9 false [0, 0, 0, 0]).tileh
      (1 * (allocate_gb_pict 10 9 false [0, 0, 0, 0]).cols + 1) 2 1 = 0 :=
  ⟨by decide, by decide, by decide, by decide,
    pad_pixels_zero 10 9 false [0, 0, 0, 0] (List.replicate 90 3) 8 [0, 1, 2, 3] 1 1 2 1
      (by decide) (by decide) (by decide) (by decide)⟩

/-- C4, at the failing input. A 1x1 image of bit depth 1 whose only pixel has source
index 1, with palette map `[0, 1]`: `tBytes = 1*1/8 = 0`, so the pixel loop issues no
`set_tile_pixel` call and pixel `(0, 0)` decodes to colour 0, not to `palette_map[1] = 1`. -/
theorem pixel_loop_drops_last_byte :
    source_index [0x80] 1 1 0 0 = 1 ∧
    rd [0, 1] (source_index [0x80] 1 1 0 0) = 1 ∧
    pixel_loop [0x80] 1 1 1 [0, 1] (allocate_gb_pict 1 1 false [0, 0, 0, 0]) =
      allocate_gb_pict 1 1 false [0, 0, 0, 0] ∧
    decode_pixel (pixel_loop [0x80] 1 1 1 [0, 1]
        (allocate_gb_pict 1 1 false [0, 0, 0, 0])).tiles 8 ((0 / 8) * 1 + 0 / 8) (0 % 8) (0 % 8)
      = 0 := by
  decide

/-! ## Palette primitives -/

theorem swap_palette_indexes_spec (m : List Nat) (a b n : Nat) :
    (swap_palette_indexes m a b n).length = m.length ∧
    ∀ c, rd (swap_palette_indexes m a b n) c =
      if c < n ∧ c < m.length then
        (if rd m c = a then b else if rd m c = b then a else rd m c)
      else rd m c := by
  unfold swap_palette_indexes
  by_cases hab : a = b
  · rw [if_pos hab]
    refine ⟨rfl, fun c => ?_⟩
    subst hab
    split_ifs <;> simp_all
  · rw [if_neg hab]
    refine loop_inv (fun k m' => m'.length = m.length ∧
      ∀ c, rd m' c = if c < k ∧ c < m.length then
          (if rd m c = a then b else if rd m c = b then a else rd m c)
        else rd m c) _ _ _ ⟨rfl, fun c => by simp⟩ ?_
    rintro k m' hk ⟨hlen, hrd⟩
    have hk' := hrd k
    rw [if_neg (by omega)] at hk'
    constructor
    · split_ifs <;> simp [length_wr, hlen]
    · intro c
      by_cases hck : c = k
      · subst hck
        rw [hk']
        by_cases hl : c < m.length
        · by_cases h1 : rd m c = a
          · simp [h1, rd_wr, hlen, hl]
          · by_cases h2 : rd m c = b
            · have hba : ¬ (b = a) := fun e => hab e.symm
              simp [h1, h2, rd_wr, hlen, hl, hba]
            · simp [h1, h2, hl, hk']
        · have h0 : rd m c = 0 := rd_of_le m c (by omega)
          have h0' : rd m' c = 0 := rd_of_le m' c (by omega)
          split_ifs <;> simp_all [rd_wr]
      · have e : (c < k + 1 ∧ c < m.length) ↔ (c < k ∧ c < m.length) := by
          constructor
          · rintro ⟨h1, h2⟩; exact ⟨by omega, h2⟩
          · rintro ⟨h1, h2⟩; exact ⟨by omega, h2⟩
        have hc := hrd c
        split_ifs at hc ⊢ <;> simp_all [rd_wr]

theorem swap_palette_indexes_lt (m : List Nat) (a b n bound : Nat) (ha : a < bound)
    (hb : b < bound) (c : Nat) (h : rd m c < bound) :
    rd (swap_palette_indexes m a b n) c < bound := by
  rw [(swap_palette_indexes_spec m a b n).2 c]
  split_ifs <;> assumption

theorem swap_palette_indexes_zero (m : List Nat) (a b n : Nat) (ha : a ≠ 0) (hb : b ≠ 0)
    (c : Nat) (h : rd m c = 0) : rd (swap_palette_indexes m a b n) c = 0 := by
  rw [(swap_palette_indexes_spec m a b n).2 c]
  split_ifs with h1 h2 h3
  · exact absurd (h2.symm.trans h) ha
  · exact absurd (h3.symm.trans h) hb
  · exact h
  · exact h

theorem swap_palette_entries_length (pal : List RGB_PALETTE_ENTRY) (a b : Nat) :
    (swap_palette_entries pal a b).length = pal.length := by
  unfold swap_palette_entries
  split_ifs <;> simp

theorem match_lightness_le (l : Nat) (s : List Nat) (cnt : Nat) :
    match_lightness l s cnt ≤ cnt - 1 := by
  unfold match_lightness
  refine loop_inv (fun k (st : Nat × Nat) => st.1 ≤ k) _ _ _ (le_refl 0) ?_ |>.trans (le_refl _)
  intro k st hk hst
  dsimp only
  split_ifs
  · exact le_refl _
  · omega

theorem intensity_to_shades_lt (opts : OPTIONS) (l : Nat) : intensity_to_shades opts l < 4 := by
  unfold intensity_to_shades
  dsimp only
  split_ifs
  · have := match_lightness_le l ([WHITE_VAL, LIGHTGRAY_VAL, DARKGRAY_VAL, BLACK_VAL].drop 1) 3
    omega
  · have := match_lightness_le l [WHITE_VAL, LIGHTGRAY_VAL, DARKGRAY_VAL, BLACK_VAL] 4
    omega

theorem intensity_to_shades_sprite_pos (opts : OPTIONS) (h : opts.type = TARGET_SPRITE)
    (l : Nat) : intensity_to_shades opts l ≠ 0 := by
  unfold intensity_to_shades
  dsimp only
  rw [if_pos h]
  omega

theorem rd_identity_map (n c : Nat) (h : c < n) : rd (identity_map n) c = c % 256 := by
  simp [rd, identity_map, List.getD_eq_getElem?_getD, List.getElem?_map, List.getElem?_range h]

theorem length_identity_map (n : Nat) : (identity_map n).length = n := by
  simp [identity_map]

theorem length_load_palette (lv : Nat → Nat → Nat → Nat) (pp : List Nat) (n : Nat) :
    (load_palette lv pp n).length = n := by
  simp [load_palette]

theorem find_palette_color_range (r g b : Nat) (pal : List RGB_PALETTE_ENTRY) (k : Nat) :
    find_palette_color r g b pal k = -1 ∨
      (0 ≤ find_palette_color r g b pal k ∧ find_palette_color r g b pal k < (k : Int)) := by
  unfold find_palette_color
  split
  · rename_i i hi
    right
    have hmem := List.mem_of_find?_eq_some hi
    rw [List.mem_range] at hmem
    omega
  · left; rfl

/-- In sprite mode the resolved transparency is an index of the source palette. -/
theorem resolve_transparent_range (opts : OPTIONS) (pal : List RGB_PALETTE_ENTRY) (n : Nat)
    (hs : opts.type = TARGET_SPRITE) (hn : 1 ≤ n) :
    0 ≤ resolve_transparent opts pal n ∧ resolve_transparent opts pal n < (n : Int) := by
  unfold resolve_transparent
  rw [if_pos hs]
  dsimp only
  have hmod : n % 256 ≤ n := Nat.mod_le n 256
  split_ifs with h1 h2 h3
  · omega
  · rcases find_palette_color_range
      (((-(opts.transparent + 1)).toNat >>> 16) &&& 0xff)
      (((-(opts.transparent + 1)).toNat >>> 8) &&& 0xff)
      ((-(opts.transparent + 1)).toNat &&& 0xff) pal (n % 256) with h | ⟨h, h'⟩
    · omega
    · omega
  · omega
  · omega

/-- The palette map after the grayscale loop. -/
theorem grayscale_map_spec (opts : OPTIONS) (pal : List RGB_PALETTE_ENTRY) (t : Int) (n : Nat)
    (m : List Nat) :
    (grayscale_map opts pal t n m).length = m.length ∧
    ∀ c, c < n → c < m.length →
      rd (grayscale_map opts pal t n m) c =
        if opts.type = TARGET_SPRITE ∧ (c : Int) = t then 0
        else intensity_to_shades opts (prd pal c).L := by
  unfold grayscale_map
  have key := loop_inv (fun k m' => m'.length = m.length ∧
      ∀ c, c < k → c < m.length → rd m' c =
        if opts.type = TARGET_SPRITE ∧ (c : Int) = t then 0
        else intensity_to_shades opts (prd pal c).L) n
    (fun c m => if opts.type = TARGET_SPRITE ∧ (c : Int) = t then wr m c 0
      else wr m c (intensity_to_shades opts (prd pal c).L)) m
    ⟨rfl, fun c hc => by omega⟩
    (by
      rintro k m' hk ⟨hlen, hrd⟩
      dsimp only
      constructor
      · split_ifs <;> simp [length_wr, hlen]
      · intro c hc hcl
        by_cases e : c = k
        · subst e
          by_cases hcnd : opts.type = TARGET_SPRITE ∧ (c : Int) = t
          · rw [if_pos hcnd, if_pos hcnd, rd_wr_same _ _ _ (by omega)]
          · rw [if_neg hcnd, if_neg hcnd, rd_wr_same _ _ _ (by omega)]
        · have := hrd c (by omega) hcl
          rw [← this]
          split_ifs <;> exact rd_wr_ne _ _ _ _ e)
  exact key

/-- Invariant rule for `sort_palette`: the call returns, and a property of the palette and
the palette map that every adjacent swap at positions `i - 1`, `i` with
`startAt < i < tColors` preserves holds for the result. -/
theorem sort_palette_rule (P : List RGB_PALETTE_ENTRY → List Nat → Prop) (tColors startAt : Nat)
    (hstep : ∀ pal m i, P pal m → startAt < i → i < tColors →
      P (swap_palette_entries pal (i - 1) i) (swap_palette_indexes m (i - 1) i tColors))
    (pal : List RGB_PALETTE_ENTRY) (m : List Nat) (h0 : P pal m) :
    ∃ r, sort_palette pal m tColors startAt = some r ∧ P r.1 r.2 := by
  have pass : ∀ n pal m, n ≤ tColors → P pal m →
      P (sort_palette_pass tColors startAt n (pal, m, startAt)).1
        (sort_palette_pass tColors startAt n (pal, m, startAt)).2.1 ∧
      ((sort_palette_pass tColors startAt n (pal, m, startAt)).2.2 = startAt ∨
        (startAt < (sort_palette_pass tColors startAt n (pal, m, startAt)).2.2 ∧
          (sort_palette_pass tColors startAt n (pal, m, startAt)).2.2 < n)) := by
    intro n pal m hn hP
    unfold sort_palette_pass
    refine loop_inv (fun _ (st : List RGB_PALETTE_ENTRY × List Nat × Nat) =>
      P st.1 st.2.1 ∧ (st.2.2 = startAt ∨ (startAt < st.2.2 ∧ st.2.2 < n))) _ _ _
      ⟨hP, Or.inl rfl⟩ ?_
    rintro k st hk ⟨hp, hn'⟩
    dsimp only
    split_ifs
    · dsimp only
      exact ⟨hstep _ _ _ hp (by omega) (by omega), Or.inr ⟨by omega, by omega⟩⟩
    · exact ⟨hp, hn'⟩
  have run : ∀ fuel n pal m, n ≤ tColors → n - startAt < fuel → P pal m →
      ∃ r, sort_palette_loop fuel pal m tColors startAt n = some r ∧ P r.1 r.2 := by
    intro fuel
    induction fuel with
    | zero => intro n pal m _ hf _; omega
    | succ k ih =>
      intro n pal m hn hf hP
      obtain ⟨hp, hnew⟩ := pass n pal m hn hP
      unfold sort_palette_loop
      dsimp only
      split_ifs with hc
      · exact ih _ _ _ (by omega) (by omega) hp
      · exact ⟨_, rfl, hp⟩
  exact run (tColors + 1) tColors pal m (le_refl _) (by omega) h0

/-! ## Palette reconciliation (C8, C9, C10) -/

theorem recon_inv_swap (opts : OPTIONS) (n len : Nat) (t : Int) (pal : List RGB_PALETTE_ENTRY)
    (m : List Nat) (a b a' b' k : Nat) (h : recon_inv opts n len t pal m) (ha : a < 4)
    (hb : b < 4) (hz : opts.type = TARGET_SPRITE → a ≠ 0 ∧ b ≠ 0) :
    recon_inv opts n len t (swap_palette_entries pal a' b') (swap_palette_indexes m a b k) := by
  obtain ⟨h1, h2, h3, h4⟩ := h
  refine ⟨by rw [swap_palette_entries_length, h1],
    by rw [(swap_palette_indexes_spec m a b k).1, h2],
    fun c hc => swap_palette_indexes_lt m a b k 4 ha hb c (h3 c hc),
    fun hs => swap_palette_indexes_zero m a b k (hz hs).1 (hz hs).2 _ (h4 hs)⟩

/-- The state after the transparency swap of the non-grayscale branch. -/
theorem recon_inv_start (lv : Nat → Nat → Nat → Nat) (opts : OPTIONS) (pp : List Nat) (n : Nat)
    (hn1 : 1 ≤ n) (hn4 : n ≤ 4) :
    recon_inv opts n n (resolve_transparent opts (load_palette lv pp n) n)
      (if opts.type = TARGET_SPRITE then
        swap_palette_entries (load_palette lv pp n) 0
          (resolve_transparent opts (load_palette lv pp n) n).toNat
       else load_palette lv pp n)
      (if opts.type = TARGET_SPRITE then
        swap_palette_indexes (identity_map n) 0
          ((resolve_transparent opts (load_palette lv pp n) n).toNat % 256) (n % 256)
       else identity_map n) := by
  have hid : ∀ c, c < n → rd (identity_map n) c = c := by
    intro c hc
    rw [rd_identity_map n c hc]
    omega
  by_cases hs : opts.type = TARGET_SPRITE
  · obtain ⟨t0, tn⟩ := resolve_transparent_range opts (load_palette lv pp n) n hs hn1
    generalize resolve_transparent opts (load_palette lv pp n) n = t at t0 tn ⊢
    have htn : t.toNat < n := by omega
    rw [if_pos hs, if_pos hs]
    have hspec := swap_palette_indexes_spec (identity_map n) 0 (t.toNat % 256) (n % 256)
    rw [length_identity_map] at hspec
    have e1 : t.toNat % 256 = t.toNat := by omega
    have e2 : n % 256 = n := by omega
    refine ⟨by rw [swap_palette_entries_length, length_load_palette],
      hspec.1, ?_, ?_⟩
    · intro c hc
      exact swap_palette_indexes_lt _ _ _ _ 4 (by omega) (by omega) c
        (by rw [hid c hc]; omega)
    · intro _
      rw [hspec.2, e1, e2, if_pos ⟨htn, htn⟩, hid _ htn]
      by_cases h0 : t.toNat = 0
      · rw [if_pos h0, h0]
      · rw [if_neg h0, if_pos rfl]
  · rw [if_neg hs, if_neg hs]
    exact ⟨length_load_palette _ _ _, length_identity_map n,
      fun c hc => by rw [hid c hc]; omega, fun h => absurd h hs⟩

/-- The outcome of the palette reconciliation for an accepted palette: STEP 3 is reached
and left normally, with a state that satisfies `recon_inv` and whose colour count is 4 on
the grayscale and sorting paths and the source count otherwise. -/
theorem process_image_palette_ok (lv : Nat → Nat → Nat → Nat) (opts : OPTIONS) (pp : List Nat)
    (n : Nat) (hn1 : 1 ≤ n) (hacc : n ≤ 4 ∨ opts.grayscale = true) :
    ∃ st, process_image_palette lv opts LCT_PALETTE pp n = Outcome.ok st ∧
      st.transparent = resolve_transparent opts (load_palette lv pp n) n ∧
      st.tColors = (if opts.grayscale = true ∨ opts.sort_palette = true then 4 else n) ∧
      recon_inv opts n st.tColors st.transparent st.palette st.palette_map := by
  unfold process_image_palette
  dsimp only
  rw [if_neg (by simp), if_neg (by
    rintro ⟨h1, h2⟩
    rcases hacc with h | h
    · omega
    · rw [h] at h2; exact absurd h2 (by decide))]
  by_cases hg : opts.grayscale = true
  · rw [if_pos hg]
    refine ⟨_, rfl, rfl, by simp [hg], ?_⟩
    dsimp only
    have hspec := grayscale_map_spec opts (load_palette lv pp n)
      (resolve_transparent opts (load_palette lv pp n) n) n (identity_map n)
    rw [length_identity_map] at hspec
    refine ⟨rfl, hspec.1, ?_, ?_⟩
    · intro c hc
      rw [hspec.2 c hc hc]
      split_ifs
      · omega
      · exact intensity_to_shades_lt _ _
    · intro hs
      obtain ⟨t0, tn⟩ := resolve_transparent_range opts (load_palette lv pp n) n hs hn1
      rw [hspec.2 _ (by omega) (by omega), if_pos ⟨hs, by omega⟩]
  · have hn4 : n ≤ 4 := by
      rcases hacc with h | h
      · exact h
      · exact absurd h hg
    have hstart := recon_inv_start lv opts pp n hn1 hn4
    rw [if_neg hg]
    by_cases hsort : opts.sort_palette = true
    · rw [if_pos hsort]
      by_cases hlt : n < 4
      · rw [if_pos hlt]
        refine ⟨_, rfl, rfl, by simp [hsort], ?_⟩
        dsimp only
        unfold place_by_shade
        dsimp only
        refine loop_inv (fun _ (st : List RGB_PALETTE_ENTRY × List Nat) =>
          recon_inv opts n 4 (resolve_transparent opts (load_palette lv pp n) n) st.1 st.2)
          _ _ _ ?_ ?_
        · obtain ⟨h1, h2, h3, h4⟩ := hstart
          refine ⟨?_, h2, h3, h4⟩
          simp only [List.length_append, List.length_take, List.length_replicate, h1]
          omega
        · intro k st hk hst
          have hnew := intensity_to_shades_lt opts
            (prd st.1 ((if opts.type = TARGET_SPRITE then 1 else 0) + k)).L
          refine recon_inv_swap opts n 4 _ st.1 st.2 _ _ _ _ _ hst (by omega) (by omega) ?_
          intro hs
          have hpos := intensity_to_shades_sprite_pos opts hs
            (prd st.1 ((if opts.type = TARGET_SPRITE then 1 else 0) + k)).L
          rw [if_pos hs] at hpos hnew ⊢
          constructor
          · omega
          · omega
      · rw [if_neg hlt]
        have hn : n = 4 := by omega
        subst hn
        obtain ⟨r, hr, hP⟩ := sort_palette_rule
          (fun pal m => recon_inv opts 4 4
            (resolve_transparent opts (load_palette lv pp 4) 4) pal m)
          (4 % 256) (if opts.type = TARGET_SPRITE then 1 else 0)
          (by
            intro pal m i hP h1 h2
            refine recon_inv_swap opts 4 4 _ pal m _ _ _ _ _ hP (by omega) (by omega) ?_
            intro hs
            rw [if_pos hs] at h1
            constructor <;> omega)
          _ _ hstart
        rw [hr]
        exact ⟨_, rfl, rfl, by simp [hsort], hP⟩
    · rw [if_neg hsort]
      refine ⟨_, rfl, rfl, by simp [hg, hsort], hstart⟩

/-- C8. Palette-map range: for every source palette of length `n >= 1` that the pipeline
accepts (`n <= 4`, or the grayscale flag set), every target, every sort and grayscale
flag and every transparency value, the reconciliation ends normally and
`palette_map[c] < 4` for every source index `c < n`. -/
theorem palette_map_range (lv : Nat → Nat → Nat → Nat) (opts : OPTIONS) (pp : List Nat)
    (n : Nat) (hn1 : 1 ≤ n) (hacc : n ≤ 4 ∨ opts.grayscale = true) :
    ∃ st, process_image_palette lv opts LCT_PALETTE pp n = Outcome.ok st ∧
      st.palette_map.length = n ∧ ∀ c, c < n → rd st.palette_map c < 4 := by
  obtain ⟨st, hst, -, -, hinv⟩ := process_image_palette_ok lv opts pp n hn1 hacc
  exact ⟨st, hst, hinv.2.1, hinv.2.2.1⟩

theorem palette_map_range_witness :
    1 ≤ 3 ∧ (3 ≤ 4 ∨ { reset_opts with sort_palette := true }.grayscale = true) ∧
    ∃ st, process_image_palette light_exact { reset_opts with sort_palette := true }
        LCT_PALETTE [10, 10, 10, 255, 250, 250, 250, 255, 130, 130, 130, 255] 3 =
          Outcome.ok st ∧
      st.palette_map.length = 3 ∧ ∀ c, c < 3 → rd st.palette_map c < 4 :=
  ⟨by decide, by decide,
    palette_map_range light_exact { reset_opts with sort_palette := true }
      [10, 10, 10, 255, 250, 250, 250, 255, 130, 130, 130, 255] 3 (by decide) (by decide)⟩

/-- C9. Transparency invariant: in sprite mode (8x8 or 8x16), for every accepted source
palette of length `n >= 1`, every grayscale and sort flag and every transparency value,
the reconciliation ends normally, the resolved transparency `t` is an index of the source
palette, and `palette_map[t] = 0`. -/
theorem transparency_invariant (lv : Nat → Nat → Nat → Nat) (opts : OPTIONS) (pp : List Nat)
    (n : Nat) (hs : opts.type = TARGET_SPRITE) (hn1 : 1 ≤ n)
    (hacc : n ≤ 4 ∨ opts.grayscale = true) :
    ∃ st, process_image_palette lv opts LCT_PALETTE pp n = Outcome.ok st ∧
      st.transparent = resolve_transparent opts (load_palette lv pp n) n ∧
      0 ≤ st.transparent ∧ st.transparent < (n : Int) ∧
      rd st.palette_map st.transparent.toNat = 0 := by
  obtain ⟨st, hst, ht, -, hinv⟩ := process_image_palette_ok lv opts pp n hn1 hacc
  obtain ⟨t0, tn⟩ := resolve_transparent_range opts (load_palette lv pp n) n hs hn1
  rw [← ht] at t0 tn
  exact ⟨st, hst, ht, t0, tn, hinv.2.2.2 hs⟩

theorem transparency_invariant_witness :
    { reset_opts with type := TARGET_SPRITE, transparent := 1, sort_palette := true }.type =
      TARGET_SPRITE ∧
    1 ≤ 3 ∧
    (3 ≤ 4 ∨
      { reset_opts with type := TARGET_SPRITE, transparent := 1,
                        sort_palette := true }.grayscale = true) ∧
    ∃ st, process_image_palette light_exact
        { reset_opts with type := TARGET_SPRITE, transparent := 1, sort_palette := true }
        LCT_PALETTE [10, 10, 10, 255, 250, 250, 250, 255, 130, 130, 130, 255] 3 =
          Outcome.ok st ∧
      st.transparent = resolve_transparent
        { reset_opts with type := TARGET_SPRITE, transparent := 1, sort_palette := true }
        (load_palette light_exact [10, 10, 10, 255, 250, 250, 250, 255, 130, 130, 130, 255] 3)
        3 ∧
      0 ≤ st.transparent ∧ st.transparent < (3 : Int) ∧
      rd st.palette_map st.transparent.toNat = 0 :=
  ⟨by decide, by decide, by decide,
    transparency_invariant light_exact
      { reset_opts with type := TARGET_SPRITE, transparent := 1, sort_palette := true }
      [10, 10, 10, 255, 250, 250, 250, 255, 130, 130, 130, 255] 3 (by decide) (by decide)
      (by decide)⟩

/-- C10, counterexample. Scenario S1 of the spec: the one-colour palette `[(0,0,0)]`, target
BKG, no flag. The reconciliation leaves `tColors = 1` and a palette of one entry, not 4. -/
theorem target_palette_size_counterexample :
    process_image_palette light_exact reset_opts LCT_PALETTE [0, 0, 0, 255] 1 =
      Outcome.ok { palette := [⟨0, 0, 0, 0⟩], palette_map := [0], tColors := 1,
                   transparent := 0, baseColor := 0 } ∧
    ¬ ∃ st, process_image_palette light_exact reset_opts LCT_PALETTE [0, 0, 0, 255] 1 =
        Outcome.ok st ∧ st.tColors = 4 ∧ st.palette.length = 4 := by
  have e : process_image_palette light_exact reset_opts LCT_PALETTE [0, 0, 0, 255] 1 =
      Outcome.ok { palette := [⟨0, 0, 0, 0⟩], palette_map := [0], tColors := 1,
                   transparent := 0, baseColor := 0 } := by decide
  refine ⟨e, ?_⟩
  rintro ⟨st, hst, h4, -⟩
  rw [e] at hst
  injection hst with hst
  rw [← hst] at h4
  exact absurd h4 (by decide)

/-- C10, amended. For every accepted source palette of length `n >= 1` the reconciliation
ends normally with a target palette of exactly `tColors` entries, where `tColors` is 4
when the grayscale flag or the sort flag is set and `n` otherwise; so the target palette
has at most 4 entries, and exactly 4 when a flag is set or `n = 4`. -/
theorem target_palette_size (lv : Nat → Nat → Nat → Nat) (opts : OPTIONS) (pp : List Nat)
    (n : Nat) (hn1 : 1 ≤ n) (hacc : n ≤ 4 ∨ opts.grayscale = true) :
    ∃ st, process_image_palette lv opts LCT_PALETTE pp n = Outcome.ok st ∧
      st.tColors = (if opts.grayscale = true ∨ opts.sort_palette = true then 4 else n) ∧
      st.palette.length = st.tColors ∧ st.tColors ≤ 4 := by
  obtain ⟨st, hst, -, hc, hinv⟩ := process_image_palette_ok lv opts pp n hn1 hacc
  refine ⟨st, hst, hc, hinv.1, ?_⟩
  rw [hc]
  split_ifs with h
  · exact le_refl 4
  · rcases hacc with h4 | hg
    · exact h4
    · exact absurd (Or.inl hg) h

theorem target_palette_size_witness :
    1 ≤ 2 ∧ (2 ≤ 4 ∨ reset_opts.grayscale = true) ∧
    ∃ st, process_image_palette light_exact reset_opts LCT_PALETTE
        [255, 255, 255, 255, 0, 0, 0, 255] 2 = Outcome.ok st ∧
      st.tColors =
        (if reset_opts.grayscale = true ∨ reset_opts.sort_palette = true then 4 else 2) ∧
      st.palette.length = st.tColors ∧ st.tColors ≤ 4 :=
  ⟨by decide, by decide,
    target_palette_size light_exact reset_opts [255, 255, 255, 255, 0, 0, 0, 255] 2
      (by decide) (by decide)⟩

/-! ## The pixel loop: the pixels of the full bytes are drawn -/

theorem unpack_pixel (v d pix : Nat) (hv : v < 256) (hd : d = 1 ∨ d = 2 ∨ d = 4 ∨ d = 8)
    (hp : pix < 8 / d) :
    ((v <<< (d * pix)) % 256) >>> (8 - d) = (v >>> (8 - d * (pix + 1))) % 2 ^ d := by
  rcases hd with rfl | rfl | rfl | rfl
  · have hp' : pix < 8 := hp
    interval_cases pix <;> simp only [Nat.shiftLeft_eq, Nat.shiftRight_eq_div_pow] <;>
      norm_num <;> omega
  · have hp' : pix < 4 := hp
    interval_cases pix <;> simp only [Nat.shiftLeft_eq, Nat.shiftRight_eq_div_pow] <;>
      norm_num <;> omega
  · have hp' : pix < 2 := hp
    interval_cases pix <;> simp only [Nat.shiftLeft_eq, Nat.shiftRight_eq_div_pow] <;>
      norm_num <;> omega
  · have hp' : pix < 1 := hp
    interval_cases pix
    simp only [Nat.shiftLeft_eq, Nat.shiftRight_eq_div_pow]
    norm_num

theorem shift_pdata (v d pix : Nat) :
    (((v <<< (d * pix)) % 256) <<< d) % 256 = (v <<< (d * (pix + 1))) % 256 := by
  simp only [Nat.shiftLeft_eq]
  rw [Nat.mul_add, Nat.mul_one, Nat.pow_add, ← Nat.mul_assoc, Nat.mod_mul_mod]

/-- Two pixel indices of the image with the same tile and in-tile position are equal. -/
theorem pixel_pos_inj (w h th cols k k' : Nat) (hcols : w ≤ 8 * cols) (hk : k < w * h)
    (e1 : k / w / th * cols + k % w / 8 = k' / w / th * cols + k' % w / 8)
    (e2 : k % w % 8 = k' % w % 8) (e3 : k / w % th = k' / w % th) : k = k' := by
  have hwpos : 0 < w := by
    rcases Nat.eq_zero_or_pos w with h0 | h0
    · rw [h0] at hk; simp at hk
    · exact h0
  have hx : k % w < w := Nat.mod_lt _ hwpos
  have hx' : k' % w < w := Nat.mod_lt _ hwpos
  obtain ⟨e4, e5⟩ := tile_row_inj cols _ _ _ _ (by omega : k % w / 8 < cols)
    (by omega : k' % w / 8 < cols) e1
  have hm1 := Nat.div_add_mod (k % w) 8
  have hm1' := Nat.div_add_mod (k' % w) 8
  have hm2 := Nat.div_add_mod (k / w) th
  have hm2' := Nat.div_add_mod (k' / w) th
  have ex : k % w = k' % w := by omega
  have ey : k / w = k' / w := by
    rw [← hm2, ← hm2', e4, e3]
  have hm3 := Nat.div_add_mod k w
  have hm3' := Nat.div_add_mod k' w
  rw [← hm3, ← hm3', ex, ey]

/-- One `set_tile_pixel` call of the pixel loop draws the next pixel and keeps the
pixels drawn before. -/
theorem drawn_upto_step (image : List Nat) (w h d : Nat) (palette_map : List Nat)
    (pic0 : PICDATA) (hmap : ∀ i, rd palette_map i < 4) (hth : 0 < pic0.tileh)
    (hcols : w ≤ 8 * pic0.cols) (hrows : h ≤ pic0.tileh * pic0.rows)
    (K : Nat) (hK : K < w * h) (res : PICDATA)
    (hres : drawn_upto image w d palette_map pic0 K res) :
    drawn_upto image w d palette_map pic0 (K + 1)
      (set_tile_pixel res (K / w / res.tileh * res.cols + K % w / 8) (K % w % 8)
        (K / w % res.tileh) (rd palette_map (source_index image w d (K % w) (K / w)))) := by
  obtain ⟨hw, hc, hr, hh, hd⟩ := hres
  have f := set_tile_pixel_fields res (K / w / res.tileh * res.cols + K % w / 8) (K % w % 8)
    (K / w % res.tileh) (rd palette_map (source_index image w d (K % w) (K / w)))
  refine ⟨set_tile_pixel_wf res hw _ _ _ _, f.1.trans hc, f.2.1.trans hr, f.2.2.1.trans hh, ?_⟩
  have hwpos : 0 < w := by
    rcases Nat.eq_zero_or_pos w with h0 | h0
    · rw [h0] at hK; simp at hK
    · exact h0
  have hx : K % w < w := Nat.mod_lt _ hwpos
  have hy : K / w < h := by
    rw [Nat.div_lt_iff_lt_mul hwpos, Nat.mul_comm]
    exact hK
  have hty : K / w / pic0.tileh < pic0.rows := by
    rw [Nat.div_lt_iff_lt_mul hth, Nat.mul_comm]
    omega
  have htile : K / w / pic0.tileh * pic0.cols + K % w / 8 < pic0.cols * pic0.rows := by
    have h1 : (K / w / pic0.tileh + 1) * pic0.cols ≤ pic0.rows * pic0.cols :=
      Nat.mul_le_mul_right _ hty
    have h2 : (K / w / pic0.tileh + 1) * pic0.cols =
        K / w / pic0.tileh * pic0.cols + pic0.cols := by ring
    have h3 : pic0.rows * pic0.cols = pic0.cols * pic0.rows := Nat.mul_comm _ _
    omega
  have hym : K / w % pic0.tileh < pic0.tileh := Nat.mod_lt _ hth
  intro k hk
  have hdec := decode_set_tile_pixel res (K / w / res.tileh * res.cols + K % w / 8) (K % w % 8)
    (K / w % res.tileh) (rd palette_map (source_index image w d (K % w) (K / w))) hw
    (by rw [hh, hc, hr]; exact htile) (by omega) (by rw [hh]; exact hym) (hmap _)
    (k / w / pic0.tileh * pic0.cols + k % w / 8) (k % w % 8) (k / w % pic0.tileh)
    (by omega) (by rw [hh]; exact Nat.mod_lt _ hth)
  rw [hh, hc] at hdec ⊢
  rw [hdec]
  by_cases e : k = K
  · subst e
    rw [if_pos ⟨rfl, rfl, rfl⟩]
  · rw [if_neg, hd k (by omega)]
    rintro ⟨e1, e2, e3⟩
    exact e (pixel_pos_inj w h pic0.tileh pic0.cols k K hcols (by omega) e1 e2 e3)

/-- The pixel loop draws every pixel that lies in one of the `tBytes = w*h/(8/d)` bytes
it reads: pixel `k < tBytes * (8/d)`, at `(x, y) = (k mod w, k / w)`, decodes from tile
`(y / tileh)*cols + x / 8` at `(x mod 8, y mod tileh)` to `palette_map[source_index]`. -/
theorem pixel_loop_written (image : List Nat) (w h d : Nat) (palette_map : List Nat)
    (pic0 : PICDATA) (hd : d = 1 ∨ d = 2 ∨ d = 4 ∨ d = 8) (himg : ∀ b, rd image b < 256)
    (hmap : ∀ i, rd palette_map i < 4) (hwf : pic0.wf) (hth : 0 < pic0.tileh)
    (hcols : w ≤ 8 * pic0.cols) (hrows : h ≤ pic0.tileh * pic0.rows) :
    drawn_upto image w d palette_map pic0 (w * h / (8 / d) * (8 / d))
      (pixel_loop image w h d palette_map pic0) := by
  have hppb : 0 < 8 / d := by
    rcases hd with rfl | rfl | rfl | rfl <;> decide
  simp only [pixel_loop]
  refine loop_inv (fun b res => drawn_upto image w d palette_map pic0 (b * (8 / d)) res)
    _ _ _ ?_ ?_
  · exact ⟨hwf, rfl, rfl, rfl, fun k hk => by omega⟩
  · intro b res hb hres
    have hbound : (b + 1) * (8 / d) ≤ w * h := by
      have h1 : (b + 1) * (8 / d) ≤ w * h / (8 / d) * (8 / d) := Nat.mul_le_mul_right _ hb
      have h2 : w * h / (8 / d) * (8 / d) ≤ w * h := Nat.div_mul_le_self _ _
      omega
    have h3 : (b + 1) * (8 / d) = b * (8 / d) + 8 / d := by ring
    have inner := loop_inv (fun pix (st : Nat × PICDATA) =>
        st.1 = (rd image b <<< (d * pix)) % 256 ∧
        drawn_upto image w d palette_map pic0 (b * (8 / d) + pix) st.2) (8 / d)
      (fun pix (st : Nat × PICDATA) =>
        ((st.1 <<< d) % 256,
          set_tile_pixel st.2
            ((b * (8 / d) + pix) / w / st.2.tileh * st.2.cols + (b * (8 / d) + pix) % w / 8)
            ((b * (8 / d) + pix) % w % 8) ((b * (8 / d) + pix) / w % st.2.tileh)
            (rd palette_map (st.1 >>> (8 - d)))))
      (rd image b, res)
      ⟨by
        rw [Nat.mul_zero, Nat.shiftLeft_zero, Nat.mod_eq_of_lt (himg b)], hres⟩
      (by
        rintro pix st hpix ⟨hp, hdr⟩
        dsimp only
        refine ⟨by rw [hp, shift_pdata], ?_⟩
        have hsrc : st.1 >>> (8 - d) =
            source_index image w d ((b * (8 / d) + pix) % w) ((b * (8 / d) + pix) / w) := by
          unfold source_index
          dsimp only
          have e0 : (b * (8 / d) + pix) / w * w + (b * (8 / d) + pix) % w =
              b * (8 / d) + pix := by
            rw [Nat.mul_comm]; exact Nat.div_add_mod _ _
          have e1 : (b * (8 / d) + pix) / (8 / d) = b := by
            rw [Nat.add_comm, Nat.add_mul_div_right _ _ hppb, Nat.div_eq_of_lt hpix,
              Nat.zero_add]
          have e2 : (b * (8 / d) + pix) % (8 / d) = pix := by
            rw [Nat.add_comm, Nat.add_mul_mod_self_right, Nat.mod_eq_of_lt hpix]
          rw [e0, e1, e2, hp]
          exact unpack_pixel (rd image b) d pix (himg b) hd hpix
        rw [hsrc]
        exact drawn_upto_step image w h d palette_map pic0 hmap hth hcols hrows
          (b * (8 / d) + pix) (by omega) st.2 hdr)
    rw [h3]
    exact inner.2

/-! ## Output palette words (C20) -/

theorem pack15_eq (x y z : Nat) (hx : x < 32) (hy : y < 32) :
    x ||| (y <<< 5) ||| (z <<< 10) = x + 32 * y + 1024 * z := by
  have h1 : x ||| (y <<< 5) = x + 32 * y := by
    rw [Nat.shiftLeft_eq, Nat.or_comm, Nat.mul_comm y,
      ← Nat.mul_add_lt_is_or (by norm_num; exact hx) y]
    norm_num
    omega
  rw [h1, Nat.shiftLeft_eq, Nat.or_comm, Nat.mul_comm z,
    ← Nat.mul_add_lt_is_or (by norm_num; omega) z]
  norm_num
  omega

/-- C20. 15-bit packing: for `index < 4` and bytes `r`, `g`, `b`, `set_gb_pal_entry` stores
`pal[index] = (r>>3) | ((g>>3)<<5) | ((b>>3)<<10)`, a value below `2^15` whose three 5-bit
fields are `r>>3`, `g>>3`, `b>>3`, and leaves the other palette words unchanged; for
`index >= 4` the picture is unchanged. -/
theorem set_gb_pal_entry_packing (data : PICDATA) (index r g b : Nat) :
    (index < 4 → data.pal.length = 4 → r < 256 → g < 256 → b < 256 →
      rd (set_gb_pal_entry data index r g b).pal index =
        ((r >>> 3) ||| ((g >>> 3) <<< 5) ||| ((b >>> 3) <<< 10)) ∧
      ((r >>> 3) ||| ((g >>> 3) <<< 5) ||| ((b >>> 3) <<< 10)) < 2 ^ 15 ∧
      ((r >>> 3) ||| ((g >>> 3) <<< 5) ||| ((b >>> 3) <<< 10)) &&& 0x1f = r >>> 3 ∧
      (((r >>> 3) ||| ((g >>> 3) <<< 5) ||| ((b >>> 3) <<< 10)) >>> 5) &&& 0x1f = g >>> 3 ∧
      (((r >>> 3) ||| ((g >>> 3) <<< 5) ||| ((b >>> 3) <<< 10)) >>> 10) &&& 0x1f = b >>> 3 ∧
      (set_gb_pal_entry data index r g b).pal.length = 4 ∧
      ∀ j, j ≠ index → rd (set_gb_pal_entry data index r g b).pal j = rd data.pal j) ∧
    (index ≥ 4 → set_gb_pal_entry data index r g b = data) := by
  constructor
  · intro hi hlen hr hg hb
    have hx : r >>> 3 < 32 := by rw [Nat.shiftRight_eq_div_pow]; norm_num; omega
    have hy : g >>> 3 < 32 := by rw [Nat.shiftRight_eq_div_pow]; norm_num; omega
    have hz : b >>> 3 < 32 := by rw [Nat.shiftRight_eq_div_pow]; norm_num; omega
    have hv := pack15_eq (r >>> 3) (g >>> 3) (b >>> 3) hx hy
    have h31 : ∀ n : Nat, n &&& 0x1f = n % 32 := fun n =>
      Nat.and_pow_two_sub_one_eq_mod n 5
    simp only [set_gb_pal_entry, if_neg (by omega : ¬ index ≥ 4)]
    rw [hv]
    refine ⟨?_, by norm_num; omega, ?_, ?_, ?_, ?_, ?_⟩
    · rw [rd_wr_same _ _ _ (by omega)]
      exact Nat.mod_eq_of_lt (by omega)
    · rw [h31]; omega
    · rw [h31, Nat.shiftRight_eq_div_pow]; norm_num; omega
    · rw [h31, Nat.shiftRight_eq_div_pow]; norm_num; omega
    · rw [length_wr]; exact hlen
    · intro j hj
      exact rd_wr_ne _ _ _ _ hj
  · intro hi
    simp only [set_gb_pal_entry, if_pos hi]

theorem set_gb_pal_entry_packing_witness :
    (2 < 4 ∧ full_tile_pic.pal.length = 4 ∧ 200 < 256 ∧ 100 < 256 ∧ 255 < 256 ∧
      rd (set_gb_pal_entry full_tile_pic 2 200 100 255).pal 2 =
        ((200 >>> 3) ||| ((100 >>> 3) <<< 5) ||| ((255 >>> 3) <<< 10))) ∧
    (4 ≥ 4 ∧ set_gb_pal_entry full_tile_pic 4 200 100 255 = full_tile_pic) :=
  ⟨⟨by decide, by decide, by decide, by decide, by decide,
      ((set_gb_pal_entry_packing full_tile_pic 2 200 100 255).1 (by decide) (by decide)
        (by decide) (by decide) (by decide)).1⟩,
    ⟨by decide, (set_gb_pal_entry_packing full_tile_pic 4 200 100 255).2 (by decide)⟩⟩

/-! ## Transparency resolution (C16, C17, C18, C19) -/

/-- C18. Index transparency fallback and range: in sprite mode, with a source palette of
`n >= 1` colours, a non-negative stored transparency `v` resolves to `v` when `v < n` and
to 0 when `v >= n`; and for every stored value, index or RGB, the resolved index `t`
satisfies `0 <= t < n`. -/
theorem transparency_fallback_range (opts : OPTIONS) (pal : List RGB_PALETTE_ENTRY) (n : Nat)
    (hs : opts.type = TARGET_SPRITE) (hn : 1 ≤ n) :
    (0 ≤ opts.transparent →
      (opts.transparent < (n : Int) → resolve_transparent opts pal n = opts.transparent) ∧
      (opts.transparent ≥ (n : Int) → resolve_transparent opts pal n = 0)) ∧
    0 ≤ resolve_transparent opts pal n ∧ resolve_transparent opts pal n < (n : Int) := by
  refine ⟨?_, resolve_transparent_range opts pal n hs hn⟩
  intro h0
  unfold resolve_transparent
  rw [if_pos hs, if_neg (by omega)]
  constructor
  · intro h
    rw [if_neg (by omega)]
  · intro h
    rw [if_pos h]

theorem transparency_fallback_range_witness :
    { reset_opts with type := TARGET_SPRITE, transparent := 5 }.type = TARGET_SPRITE ∧ 1 ≤ 3 ∧
    ((0 ≤ { reset_opts with type := TARGET_SPRITE, transparent := 5 }.transparent →
      ({ reset_opts with type := TARGET_SPRITE, transparent := 5 }.transparent < ((3 : Nat) : Int) →
        resolve_transparent { reset_opts with type := TARGET_SPRITE, transparent := 5 }
          (load_palette light_exact [] 3) 3 =
          { reset_opts with type := TARGET_SPRITE, transparent := 5 }.transparent) ∧
      ({ reset_opts with type := TARGET_SPRITE, transparent := 5 }.transparent ≥ ((3 : Nat) : Int) →
        resolve_transparent { reset_opts with type := TARGET_SPRITE, transparent := 5 }
          (load_palette light_exact [] 3) 3 = 0)) ∧
    0 ≤ resolve_transparent { reset_opts with type := TARGET_SPRITE, transparent := 5 }
      (load_palette light_exact [] 3) 3 ∧
    resolve_transparent { reset_opts with type := TARGET_SPRITE, transparent := 5 }
      (load_palette light_exact [] 3) 3 < ((3 : Nat) : Int)) :=
  ⟨by decide, by decide,
    transparency_fallback_range { reset_opts with type := TARGET_SPRITE, transparent := 5 }
      (load_palette light_exact [] 3) 3 (by decide) (by decide)⟩

/-! ## Nearest shade (C14) and the grayscale path (C15) -/

set_option maxRecDepth 100000 in
theorem match_lightness_four (L : Nat) (hL : L < 256) :
    match_lightness L [WHITE_VAL, LIGHTGRAY_VAL, DARKGRAY_VAL, BLACK_VAL] 4 < 4 ∧
    ∀ i, i < 4 →
      shade_dist (match_lightness L [WHITE_VAL, LIGHTGRAY_VAL, DARKGRAY_VAL, BLACK_VAL] 4) L ≤
        shade_dist i L ∧
      (i < match_lightness L [WHITE_VAL, LIGHTGRAY_VAL, DARKGRAY_VAL, BLACK_VAL] 4 →
        shade_dist (match_lightness L [WHITE_VAL, LIGHTGRAY_VAL, DARKGRAY_VAL, BLACK_VAL] 4) L <
          shade_dist i L) := by
  revert L
  decide

set_option maxRecDepth 100000 in
theorem match_lightness_three (L : Nat) (hL : L < 256) :
    match_lightness L ([WHITE_VAL, LIGHTGRAY_VAL, DARKGRAY_VAL, BLACK_VAL].drop 1) 3 + 1 ≤ 3 ∧
    ∀ i, 1 ≤ i → i ≤ 3 →
      shade_dist
          (match_lightness L ([WHITE_VAL, LIGHTGRAY_VAL, DARKGRAY_VAL, BLACK_VAL].drop 1) 3 + 1)
          L ≤ shade_dist i L ∧
      (i < match_lightness L ([WHITE_VAL, LIGHTGRAY_VAL, DARKGRAY_VAL, BLACK_VAL].drop 1) 3 + 1 →
        shade_dist
            (match_lightness L ([WHITE_VAL, LIGHTGRAY_VAL, DARKGRAY_VAL, BLACK_VAL].drop 1) 3 + 1)
            L < shade_dist i L) := by
  have key : ∀ L, L < 256 →
      match_lightness L ([WHITE_VAL, LIGHTGRAY_VAL, DARKGRAY_VAL, BLACK_VAL].drop 1) 3 + 1 ≤ 3 ∧
      ∀ i, i < 4 → 1 ≤ i →
        shade_dist
            (match_lightness L ([WHITE_VAL, LIGHTGRAY_VAL, DARKGRAY_VAL, BLACK_VAL].drop 1) 3 + 1)
            L ≤ shade_dist i L ∧
        (i < match_lightness L ([WHITE_VAL, LIGHTGRAY_VAL, DARKGRAY_VAL, BLACK_VAL].drop 1) 3 + 1 →
          shade_dist
              (match_lightness L ([WHITE_VAL, LIGHTGRAY_VAL, DARKGRAY_VAL, BLACK_VAL].drop 1) 3
                + 1)
              L < shade_dist i L) := by
    decide
  exact ⟨(key L hL).1, fun i h1 h3 => (key L hL).2 i (by omega) h1⟩

/-- C14. Nearest shade: for every lightness `L` in 0..255, `intensity_to_shades` outside
sprite mode returns the least index `i` in 0..3 that minimises `|shade[i] - L|` over
`shade = [255, 172, 82, 0]`; in sprite mode it returns the least index in 1..3 that
minimises `|shade[i] - L|`, so the result is in 1..3. -/
theorem nearest_shade (opts : OPTIONS) (L : Nat) (hL : L < 256) :
    (opts.type ≠ TARGET_SPRITE →
      intensity_to_shades opts L < 4 ∧
      ∀ i, i < 4 →
        shade_dist (intensity_to_shades opts L) L ≤ shade_dist i L ∧
        (i < intensity_to_shades opts L →
          shade_dist (intensity_to_shades opts L) L < shade_dist i L)) ∧
    (opts.type = TARGET_SPRITE →
      1 ≤ intensity_to_shades opts L ∧ intensity_to_shades opts L ≤ 3 ∧
      ∀ i, 1 ≤ i → i ≤ 3 →
        shade_dist (intensity_to_shades opts L) L ≤ shade_dist i L ∧
        (i < intensity_to_shades opts L →
          shade_dist (intensity_to_shades opts L) L < shade_dist i L)) := by
  constructor
  · intro hs
    have e : intensity_to_shades opts L =
        match_lightness L [WHITE_VAL, LIGHTGRAY_VAL, DARKGRAY_VAL, BLACK_VAL] 4 := by
      unfold intensity_to_shades
      dsimp only
      rw [if_neg hs]
    rw [e]
    exact match_lightness_four L hL
  · intro hs
    have e : intensity_to_shades opts L =
        match_lightness L ([WHITE_VAL, LIGHTGRAY_VAL, DARKGRAY_VAL, BLACK_VAL].drop 1) 3 + 1 := by
      unfold intensity_to_shades
      dsimp only
      rw [if_pos hs]
    rw [e]
    exact ⟨by omega, (match_lightness_three L hL).1, (match_lightness_three L hL).2⟩

theorem nearest_shade_witness :
    200 < 256 ∧
    (reset_opts.type ≠ TARGET_SPRITE →
      intensity_to_shades reset_opts 200 < 4 ∧
      ∀ i, i < 4 →
        shade_dist (intensity_to_shades reset_opts 200) 200 ≤ shade_dist i 200 ∧
        (i < intensity_to_shades reset_opts 200 →
          shade_dist (intensity_to_shades reset_opts 200) 200 < shade_dist i 200)) :=
  ⟨by decide, (nearest_shade reset_opts 200 (by decide)).1⟩

/-- C15. Grayscale path: with the grayscale flag set, for every source palette (any length
`n`, 1..256 included) the reconciliation ends normally, the target palette is
`[(255,255,255), (172,172,172), (82,82,82), (0,0,0)]`, and `palette_map[c]`, for every
source index `c < n`, is 0 if the target is sprite and `c` is the resolved transparency
index and `intensity_to_shades` of the lightness of source colour `c` otherwise. -/
theorem grayscale_path (lv : Nat → Nat → Nat → Nat) (opts : OPTIONS) (pp : List Nat) (n : Nat)
    (hg : opts.grayscale = true) :
    ∃ st, process_image_palette lv opts LCT_PALETTE pp n = Outcome.ok st ∧
      st.palette.map (fun e => (e.r, e.g, e.b)) =
        [(255, 255, 255), (172, 172, 172), (82, 82, 82), (0, 0, 0)] ∧
      st.tColors = 4 ∧ st.palette_map.length = n ∧
      ∀ c, c < n → rd st.palette_map c =
        if opts.type = TARGET_SPRITE ∧
            (c : Int) = resolve_transparent opts (load_palette lv pp n) n then 0
        else intensity_to_shades opts (prd (load_palette lv pp n) c).L := by
  unfold process_image_palette
  dsimp only
  rw [if_neg (by simp), if_neg (by rintro ⟨_, h2⟩; rw [hg] at h2; exact absurd h2 (by decide)),
    if_pos hg]
  have hspec := grayscale_map_spec opts (load_palette lv pp n)
    (resolve_transparent opts (load_palette lv pp n) n) n (identity_map n)
  rw [length_identity_map] at hspec
  exact ⟨_, rfl, rfl, rfl, hspec.1, fun c hc => hspec.2 c hc hc⟩

theorem grayscale_path_witness :
    { reset_opts with grayscale := true }.grayscale = true ∧
    ∃ st, process_image_palette light_exact { reset_opts with grayscale := true } LCT_PALETTE
        [10, 10, 10, 255, 250, 250, 250, 255, 130, 130, 130, 255, 60, 60, 60, 255,
          200, 200, 200, 255, 90, 90, 90, 255] 6 = Outcome.ok st ∧
      st.palette.map (fun e => (e.r, e.g, e.b)) =
        [(255, 255, 255), (172, 172, 172), (82, 82, 82), (0, 0, 0)] ∧
      st.tColors = 4 ∧ st.palette_map.length = 6 ∧
      ∀ c, c < 6 → rd st.palette_map c =
        if { reset_opts with grayscale := true }.type = TARGET_SPRITE ∧
            (c : Int) = resolve_transparent { reset_opts with grayscale := true }
              (load_palette light_exact
                [10, 10, 10, 255, 250, 250, 250, 255, 130, 130, 130, 255, 60, 60, 60, 255,
                  200, 200, 200, 255, 90, 90, 90, 255] 6) 6 then 0
        else intensity_to_shades { reset_opts with grayscale := true }
          (prd (load_palette light_exact
            [10, 10, 10, 255, 250, 250, 250, 255, 130, 130, 130, 255, 60, 60, 60, 255,
              200, 200, 200, 255, 90, 90, 90, 255] 6) c).L :=
  ⟨by decide,
    grayscale_path light_exact { reset_opts with grayscale := true }
      [10, 10, 10, 255, 250, 250, 250, 255, 130, 130, 130, 255, 60, 60, 60, 255,
        200, 200, 200, 255, 90, 90, 90, 255] 6 (by decide)⟩

theorem hex_digit_facts (c : Nat) (h : is_hex_digit c = true) :
    digit_val c = some (hex_val c) ∧ hex_val c < 16 ∧ isspace c = false ∧ c ≠ 45 ∧ c ≠ 43 ∧
      c ≠ 120 ∧ c ≠ 88 := by
  unfold is_hex_digit at h
  unfold hex_val
  unfold digit_val at h ⊢
  unfold isspace
  split_ifs at h ⊢ with h1 h2 h3
  · simp only [decide_eq_true_eq] at h
    simp only [Option.getD_some]
    refine ⟨trivial, h, ?_, ?_, ?_, ?_, ?_⟩
    · simp; omega
    all_goals omega
  · simp only [decide_eq_true_eq] at h
    simp only [Option.getD_some]
    refine ⟨trivial, h, ?_, ?_, ?_, ?_, ?_⟩
    · simp; omega
    all_goals omega
  · simp only [decide_eq_true_eq] at h
    simp only [Option.getD_some]
    refine ⟨trivial, h, ?_, ?_, ?_, ?_, ?_⟩
    · simp; omega
    all_goals omega

/-- C19. RGB transparency encoding round trip: for six hexadecimal digits `RRGGBB` (either
case) of value `v`, `transp_color_from_str` of `#RRGGBB` returns `-(v + 1)`, which is
negative, and the decoding of `process_image`, `rgb = -(x + 1)` then `(rgb>>16)&0xff`,
`(rgb>>8)&0xff`, `rgb&0xff`, gives back `(RR, GG, BB)`. -/
theorem rgb_transparency_roundtrip (c1 c2 c3 c4 c5 c6 : Nat)
    (h1 : is_hex_digit c1 = true) (h2 : is_hex_digit c2 = true) (h3 : is_hex_digit c3 = true)
    (h4 : is_hex_digit c4 = true) (h5 : is_hex_digit c5 = true) (h6 : is_hex_digit c6 = true) :
    ∃ x : Int, transp_color_from_str [35, c1, c2, c3, c4, c5, c6] = some x ∧
      x = -(((((((hex_val c1 * 16 + hex_val c2) * 16 + hex_val c3) * 16 + hex_val c4) * 16 +
        hex_val c5) * 16 + hex_val c6 : Nat) : Int) + 1) ∧
      x < 0 ∧
      (((-(x + 1)).toNat >>> 16) &&& 0xff) = hex_val c1 * 16 + hex_val c2 ∧
      (((-(x + 1)).toNat >>> 8) &&& 0xff) = hex_val c3 * 16 + hex_val c4 ∧
      ((-(x + 1)).toNat &&& 0xff) = hex_val c5 * 16 + hex_val c6 := by
  obtain ⟨e1, d1, s1, m1, p1, x1, y1⟩ := hex_digit_facts c1 h1
  obtain ⟨e2, d2, -, -, -, x2, y2⟩ := hex_digit_facts c2 h2
  obtain ⟨e3, d3, -⟩ := hex_digit_facts c3 h3
  obtain ⟨e4, d4, -⟩ := hex_digit_facts c4 h4
  obtain ⟨e5, d5, -⟩ := hex_digit_facts c5 h5
  obtain ⟨e6, d6, -⟩ := hex_digit_facts c6 h6
  generalize hex_val c1 = v1 at *
  generalize hex_val c2 = v2 at *
  generalize hex_val c3 = v3 at *
  generalize hex_val c4 = v4 at *
  generalize hex_val c5 = v5 at *
  generalize hex_val c6 = v6 at *
  have hdig : strtol_digits 16 [c1, c2, c3, c4, c5, c6] 0 0 =
      (((((v1 * 16 + v2) * 16 + v3) * 16 + v4) * 16 + v5) * 16 + v6, 6) := by
    simp [strtol_digits, e1, e2, e3, e4, e5, e6, d1, d2, d3, d4, d5, d6]
  have hpre : has_hex_prefix [c1, c2, c3, c4, c5, c6] = false := by
    unfold has_hex_prefix
    split
    · rename_i heq
      simp only [List.cons.injEq] at heq
      obtain ⟨-, hx, -⟩ := heq
      subst hx
      simp [x2, y2]
    · rfl
  have hval : (((((v1 * 16 + v2) * 16 + v3) * 16 + v4) * 16 + v5) * 16 + v6) < 16777216 := by
    omega
  have hstr : strtol [c1, c2, c3, c4, c5, c6] 16 =
      (((((((v1 * 16 + v2) * 16 + v3) * 16 + v4) * 16 + v5) * 16 + v6 : Nat) : Int), 6) := by
    unfold strtol
    simp only [skip_space, s1, Bool.false_eq_true, if_false, List.head?_cons, Option.some.injEq,
      m1, p1, or_self, hpre, and_false, hdig, decide_False]
    simp
    unfold LONG_MAX LONG_MIN
    split_ifs <;> omega
  refine ⟨_, ?_, rfl, by omega, ?_, ?_, ?_⟩
  · simp [transp_color_from_str, parse_as_number, hstr]
  all_goals
    have e : (-(-(((((((v1 * 16 + v2) * 16 + v3) * 16 + v4) * 16 + v5) * 16 + v6 : Nat) : Int)
        + 1) + 1)).toNat = (((((v1 * 16 + v2) * 16 + v3) * 16 + v4) * 16 + v5) * 16 + v6) := by
      omega
    have hff : ∀ n : Nat, n &&& 0xff = n % 256 := fun n => Nat.and_pow_two_sub_one_eq_mod n 8
    rw [e, hff]
    try rw [Nat.shiftRight_eq_div_pow]
    norm_num
    omega

theorem rgb_transparency_roundtrip_witness :
    is_hex_digit 70 = true ∧ is_hex_digit 102 = true ∧ is_hex_digit 56 = true ∧
    is_hex_digit 48 = true ∧ is_hex_digit 49 = true ∧ is_hex_digit 65 = true ∧
    ∃ x : Int, transp_color_from_str [35, 70, 102, 56, 48, 49, 65] = some x ∧
      x = -(((((((hex_val 70 * 16 + hex_val 102) * 16 + hex_val 56) * 16 + hex_val 48) * 16 +
        hex_val 49) * 16 + hex_val 65 : Nat) : Int) + 1) ∧
      x < 0 ∧
      (((-(x + 1)).toNat >>> 16) &&& 0xff) = hex_val 70 * 16 + hex_val 102 ∧
      (((-(x + 1)).toNat >>> 8) &&& 0xff) = hex_val 56 * 16 + hex_val 48 ∧
      ((-(x + 1)).toNat &&& 0xff) = hex_val 49 * 16 + hex_val 65 :=
  ⟨by decide, by decide, by decide, by decide, by decide, by decide,
    rgb_transparency_roundtrip 70 102 56 48 49 65 (by decide) (by decide) (by decide)
      (by decide) (by decide) (by decide)⟩

/-- C17, at the failing input. Palette `[red, blue]` with `-S -tr 1`: `transp_color_from_str`
returns `1 + 1 = 2`, which is not below the colour count 2, so the transparency falls back
to index 0: the target palette stays `[red, blue]` and `palette_map` is `[0, 1]`, not
`target[0] = blue` and `[1, 0]`. -/
theorem decimal_transparency_off_by_one :
    transp_color_from_str [49] = some 2 ∧
    sprite_tr1_opts.transparent = 2 ∧
    resolve_transparent sprite_tr1_opts (load_palette light_exact red_blue_palette 2) 2 = 0 ∧
    process_image_palette light_exact sprite_tr1_opts LCT_PALETTE red_blue_palette 2 =
      Outcome.ok
        { palette := [⟨255, 0, 0, 76⟩, ⟨0, 0, 255, 29⟩], palette_map := [0, 1], tColors := 2,
          transparent := 0, baseColor := 1 } := by
  decide

/-- C16, at the failing input. A palette of 256 colours whose colour 1 is `(1, 2, 3)`, with
`-S -g -tr #010203`: `find_palette_color` takes the colour count as a `BYTE`, receives
`256 mod 256 = 0` and searches nothing, so the transparency resolves to index 0, whose
colour is `(9, 9, 9)`; a search over all 256 entries finds index 1. -/
theorem rgb_transparency_lost_at_256 :
    sprite_gray_rgb_opts.transparent = -(0x010203 + 1) ∧
    (prd (load_palette light_exact palette_256 256) 0).r = 9 ∧
    (prd (load_palette light_exact palette_256 256) 1).r = 1 ∧
    (prd (load_palette light_exact palette_256 256) 1).g = 2 ∧
    (prd (load_palette light_exact palette_256 256) 1).b = 3 ∧
    find_palette_color 1 2 3 (load_palette light_exact palette_256 256) 256 = 1 ∧
    find_palette_color 1 2 3 (load_palette light_exact palette_256 256) (256 % 256) = -1 ∧
    resolve_transparent sprite_gray_rgb_opts (load_palette light_exact palette_256 256) 256 = 0
    := by
  decide

/-- The search of `find_palette_color`: the first index below `k` with the colour, or `-1`
when there is none. -/
theorem find_palette_color_spec (r g b : Nat) (pal : List RGB_PALETTE_ENTRY) (k : Nat) :
    ((∃ i, i < k ∧ has_rgb pal r g b i) →
      ∃ t : Nat, find_palette_color r g b pal k = (t : Int) ∧ t < k ∧ has_rgb pal r g b t ∧
        ∀ j, j < t → ¬ has_rgb pal r g b j) ∧
    ((∀ i, i < k → ¬ has_rgb pal r g b i) → find_palette_color r g b pal k = -1) := by
  unfold find_palette_color
  constructor
  · rintro ⟨i, hi, hm⟩
    cases hf : (List.range k).find?
        (fun i => decide ((prd pal i).r = r ∧ (prd pal i).g = g ∧ (prd pal i).b = b)) with
    | none =>
      rw [List.find?_range_eq_none] at hf
      have := hf i hi
      simp only [has_rgb] at hm
      simp [hm] at this
    | some t =>
      rw [List.find?_range_eq_some] at hf
      obtain ⟨h1, h2, h3⟩ := hf
      refine ⟨t, rfl, List.mem_range.1 h2, by simpa [has_rgb] using h1, ?_⟩
      intro j hj hm'
      have := h3 j hj
      simp only [has_rgb] at hm'
      simp [hm'] at this
  · intro hnone
    cases hf : (List.range k).find?
        (fun i => decide ((prd pal i).r = r ∧ (prd pal i).g = g ∧ (prd pal i).b = b)) with
    | none => rfl
    | some t =>
      rw [List.find?_range_eq_some] at hf
      obtain ⟨h1, h2, -⟩ := hf
      exact absurd (by simpa [has_rgb] using h1) (hnone t (List.mem_range.1 h2))

/-- RGB transparency resolution for palettes of fewer than 256 colours: the resolved
index is the first entry with the colour when there is one, and 0 otherwise. -/
theorem resolve_transparent_rgb (opts : OPTIONS) (pal : List RGB_PALETTE_ENTRY) (n : Nat)
    (hs : opts.type = TARGET_SPRITE) (hneg : opts.transparent < 0) (hn : n < 256) :
    ((∃ i, i < n ∧ has_rgb pal (((-(opts.transparent + 1)).toNat >>> 16) &&& 0xff)
        (((-(opts.transparent + 1)).toNat >>> 8) &&& 0xff)
        ((-(opts.transparent + 1)).toNat &&& 0xff) i) →
      ∃ t : Nat, resolve_transparent opts pal n = (t : Int) ∧ t < n ∧
        has_rgb pal (((-(opts.transparent + 1)).toNat >>> 16) &&& 0xff)
          (((-(opts.transparent + 1)).toNat >>> 8) &&& 0xff)
          ((-(opts.transparent + 1)).toNat &&& 0xff) t ∧
        ∀ j, j < t → ¬ has_rgb pal (((-(opts.transparent + 1)).toNat >>> 16) &&& 0xff)
          (((-(opts.transparent + 1)).toNat >>> 8) &&& 0xff)
          ((-(opts.transparent + 1)).toNat &&& 0xff) j) ∧
    ((∀ i, i < n → ¬ has_rgb pal (((-(opts.transparent + 1)).toNat >>> 16) &&& 0xff)
        (((-(opts.transparent + 1)).toNat >>> 8) &&& 0xff)
        ((-(opts.transparent + 1)).toNat &&& 0xff) i) →
      resolve_transparent opts pal n = 0) := by
  have hspec := find_palette_color_spec (((-(opts.transparent + 1)).toNat >>> 16) &&& 0xff)
    (((-(opts.transparent + 1)).toNat >>> 8) &&& 0xff)
    ((-(opts.transparent + 1)).toNat &&& 0xff) pal n
  have hmod : n % 256 = n := Nat.mod_eq_of_lt hn
  unfold resolve_transparent
  rw [if_pos hs, if_pos hneg]
  dsimp only
  rw [hmod]
  constructor
  · intro hex
    obtain ⟨t, ht, htn, hm, hfirst⟩ := hspec.1 hex
    refine ⟨t, ?_, htn, hm, hfirst⟩
    rw [ht, if_neg (by omega)]
  · intro hnone
    rw [hspec.2 hnone, if_pos (by decide)]

/-! ## Palette reconciliation: paired swaps (C11) and sorting (C12, C13) -/

theorem prd_set (pal : List RGB_PALETTE_ENTRY) (i j : Nat) (e : RGB_PALETTE_ENTRY) :
    prd (pal.set i e) j = if j = i ∧ i < pal.length then e else prd pal j := by
  simp only [prd, List.getD_eq_getElem?_getD, List.getElem?_set]
  split_ifs with h1 h2 h3 h4 h5 <;> simp_all
  · subst h1; simp [List.getElem?_eq_none h2]

theorem swap_palette_entries_spec (pal : List RGB_PALETTE_ENTRY) (a b v : Nat)
    (ha : a < pal.length) (hb : b < pal.length) :
    prd (swap_palette_entries pal a b) v =
      if v = a then prd pal b else if v = b then prd pal a else prd pal v := by
  unfold swap_palette_entries
  by_cases hab : a = b
  · subst hab
    rw [if_pos rfl]
    split_ifs with h <;> simp [h]
  · rw [if_neg hab]
    dsimp only
    rw [prd_set, prd_set, List.length_set]
    by_cases h1 : v = a
    · rw [if_pos ⟨h1, ha⟩, if_pos h1]
    · rw [if_neg (fun h => h1 h.1), if_neg h1]
      by_cases h2 : v = b
      · rw [if_pos ⟨h2, hb⟩, if_pos h2]
      · rw [if_neg (fun h => h2 h.1), if_neg h2]

/-- A paired swap keeps the palette map consistent with the palette. -/
theorem map_consistent_swap (src pal : List RGB_PALETTE_ENTRY) (m : List Nat) (a b k n : Nat)
    (ha : a < pal.length) (hb : b < pal.length) (hlen : m.length = n) (hk : n ≤ k)
    (h : map_consistent src pal m n) :
    map_consistent src (swap_palette_entries pal a b) (swap_palette_indexes m a b k) n := by
  intro c hc
  rw [(swap_palette_indexes_spec m a b k).2 c, if_pos ⟨by omega, by omega⟩,
    swap_palette_entries_spec pal a b _ ha hb, ← h c hc]
  by_cases h1 : rd m c = a
  · rw [if_pos h1, h1]
    by_cases h2 : b = a
    · rw [if_pos h2, h2]
    · rw [if_neg h2, if_pos rfl]
  · rw [if_neg h1]
    by_cases h2 : rd m c = b
    · rw [if_pos h2, if_pos rfl, h2]
    · rw [if_neg h2, if_neg h1, if_neg h2]

theorem prd_load_palette_pad (pal : List RGB_PALETTE_ENTRY) (n k i : Nat)
    (hlen : pal.length = n) :
    prd (pal.take n ++ List.replicate k ⟨0, 0, 0, 0⟩) i = prd pal i := by
  have ht : pal.take n = pal := by rw [← hlen]; exact List.take_length pal
  rw [ht]
  unfold prd
  rw [List.getD_eq_getElem?_getD, List.getD_eq_getElem?_getD]
  by_cases h : i < pal.length
  · rw [List.getElem?_append_left h]
  · rw [List.getElem?_append_right (by omega), List.getElem?_eq_none (by omega : pal.length ≤ i)]
    simp only [List.getElem?_replicate]
    split_ifs <;> rfl

/-- The palette map stays consistent with the palette through the non-grayscale branch of
the reconciliation: the outcome is normal and position `palette_map[c]` of the target
palette holds source colour `c`. -/
theorem reconcile_consistent (lv : Nat → Nat → Nat → Nat) (opts : OPTIONS) (pp : List Nat)
    (n : Nat) (hn1 : 1 ≤ n) (hn4 : n ≤ 4) (hg : opts.grayscale = false) :
    ∃ st, process_image_palette lv opts LCT_PALETTE pp n = Outcome.ok st ∧
      st.transparent = resolve_transparent opts (load_palette lv pp n) n ∧
      recon_inv opts n st.tColors st.transparent st.palette st.palette_map ∧
      map_consistent (load_palette lv pp n) st.palette st.palette_map n := by
  have hstart := recon_inv_start lv opts pp n hn1 hn4
  have hid : map_consistent (load_palette lv pp n) (load_palette lv pp n) (identity_map n) n := by
    intro c hc
    rw [rd_identity_map n c hc, Nat.mod_eq_of_lt (by omega)]
  have hcons : map_consistent (load_palette lv pp n)
      (if opts.type = TARGET_SPRITE then
        swap_palette_entries (load_palette lv pp n) 0
          (resolve_transparent opts (load_palette lv pp n) n).toNat
       else load_palette lv pp n)
      (if opts.type = TARGET_SPRITE then
        swap_palette_indexes (identity_map n) 0
          ((resolve_transparent opts (load_palette lv pp n) n).toNat % 256) (n % 256)
       else identity_map n) n := by
    by_cases hs : opts.type = TARGET_SPRITE
    · obtain ⟨t0, tn⟩ := resolve_transparent_range opts (load_palette lv pp n) n hs hn1
      rw [if_pos hs, if_pos hs, Nat.mod_eq_of_lt (by omega : _ < 256),
        Nat.mod_eq_of_lt (by omega : n < 256)]
      exact map_consistent_swap _ _ _ _ _ _ _ (by rw [length_load_palette]; omega)
        (by rw [length_load_palette]; omega) (length_identity_map n) (le_refl n) hid
    · rw [if_neg hs, if_neg hs]
      exact hid
  unfold process_image_palette
  dsimp only
  rw [if_neg (by simp), if_neg (by rintro ⟨h1, -⟩; omega), hg]
  simp only [Bool.false_eq_true, if_false]
  by_cases hsort : opts.sort_palette = true
  · rw [if_pos hsort]
    by_cases hlt : n < 4
    · rw [if_pos hlt]
      refine ⟨_, rfl, rfl, ?_⟩
      dsimp only
      unfold place_by_shade
      dsimp only
      refine loop_inv (fun _ (st : List RGB_PALETTE_ENTRY × List Nat) =>
        recon_inv opts n 4 (resolve_transparent opts (load_palette lv pp n) n) st.1 st.2 ∧
        map_consistent (load_palette lv pp n) st.1 st.2 n) _ _ _ ?_ ?_
      · obtain ⟨h1, h2, h3, h4⟩ := hstart
        refine ⟨⟨?_, h2, h3, h4⟩, ?_⟩
        · simp only [List.length_append, List.length_take, List.length_replicate, h1]
          omega
        · intro c hc
          rw [prd_load_palette_pad _ _ _ _ h1]
          exact hcons c hc
      · rintro k st hk ⟨hst, hco⟩
        have hnew := intensity_to_shades_lt opts
          (prd st.1 ((if opts.type = TARGET_SPRITE then 1 else 0) + k)).L
        have hc4 : (if opts.type = TARGET_SPRITE then 1 else 0) + k < 4 := by
          split_ifs at hk ⊢ <;> omega
        dsimp only
        rw [Nat.mod_eq_of_lt (by omega : (if opts.type = TARGET_SPRITE then 1 else 0) + k < 256),
          Nat.mod_eq_of_lt (by omega : intensity_to_shades opts
            (prd st.1 ((if opts.type = TARGET_SPRITE then 1 else 0) + k)).L < 256),
          Nat.mod_eq_of_lt (by omega : n < 256)]
        constructor
        · refine recon_inv_swap opts n 4 _ st.1 st.2 _ _ _ _ _ hst hc4 hnew ?_
          intro hs
          have hpos := intensity_to_shades_sprite_pos opts hs
            (prd st.1 ((if opts.type = TARGET_SPRITE then 1 else 0) + k)).L
          rw [if_pos hs] at hpos ⊢
          exact ⟨by omega, hpos⟩
        · exact map_consistent_swap _ _ _ _ _ _ _ (by rw [hst.1]; exact hc4)
            (by rw [hst.1]; exact hnew) hst.2.1 (le_refl n) hco
    · rw [if_neg hlt]
      have hn : n = 4 := by omega
      subst hn
      obtain ⟨r, hr, hP⟩ := sort_palette_rule
        (fun pal m => recon_inv opts 4 4
          (resolve_transparent opts (load_palette lv pp 4) 4) pal m ∧
          map_consistent (load_palette lv pp 4) pal m 4)
        (4 % 256) (if opts.type = TARGET_SPRITE then 1 else 0)
        (by
          rintro pal m i ⟨hP, hco⟩ h1 h2
          have h2' : i < 4 := h2
          constructor
          · refine recon_inv_swap opts 4 4 _ pal m _ _ _ _ _ hP (by omega) (by omega) ?_
            intro hs
            rw [if_pos hs] at h1
            constructor <;> omega
          · exact map_consistent_swap _ _ _ _ _ _ _ (by rw [hP.1]; omega) (by rw [hP.1]; omega)
              hP.2.1 (by decide) hco)
        _ _ ⟨hstart, hcons⟩
      rw [hr]
      exact ⟨_, rfl, rfl, hP⟩
  · rw [if_neg hsort]
    exact ⟨_, rfl, rfl, hstart, hcons⟩

/-- C11. Palette/map consistency: on the non-grayscale path (`1 <= n <= 4`), for every
target, every `sort_palette` setting and every transparency value, the reconciliation ends
normally and the target palette entry at position `palette_map[c]` is source palette entry
`c` (same `r`, `g`, `b` and `L`), for every source index `c < n`. -/
theorem palette_map_consistency (lv : Nat → Nat → Nat → Nat) (opts : OPTIONS) (pp : List Nat)
    (n : Nat) (hn1 : 1 ≤ n) (hn4 : n ≤ 4) (hg : opts.grayscale = false) :
    ∃ st, process_image_palette lv opts LCT_PALETTE pp n = Outcome.ok st ∧
      ∀ c, c < n →
        (prd st.palette (rd st.palette_map c)).r = (prd (load_palette lv pp n) c).r ∧
        (prd st.palette (rd st.palette_map c)).g = (prd (load_palette lv pp n) c).g ∧
        (prd st.palette (rd st.palette_map c)).b = (prd (load_palette lv pp n) c).b ∧
        (prd st.palette (rd st.palette_map c)).L = (prd (load_palette lv pp n) c).L := by
  obtain ⟨st, hst, -, -, hco⟩ := reconcile_consistent lv opts pp n hn1 hn4 hg
  refine ⟨st, hst, fun c hc => ?_⟩
  rw [hco c hc]
  exact ⟨rfl, rfl, rfl, rfl⟩

theorem palette_map_consistency_witness :
    1 ≤ 3 ∧ 3 ≤ 4 ∧
    { reset_opts with type := TARGET_SPRITE, transparent := 1,
                      sort_palette := true }.grayscale = false ∧
    ∃ st, process_image_palette light_exact
        { reset_opts with type := TARGET_SPRITE, transparent := 1, sort_palette := true }
        LCT_PALETTE [10, 10, 10, 255, 250, 250, 250, 255, 130, 130, 130, 255] 3 =
          Outcome.ok st ∧
      ∀ c, c < 3 →
        (prd st.palette (rd st.palette_map c)).r =
          (prd (load_palette light_exact
            [10, 10, 10, 255, 250, 250, 250, 255, 130, 130, 130, 255] 3) c).r ∧
        (prd st.palette (rd st.palette_map c)).g =
          (prd (load_palette light_exact
            [10, 10, 10, 255, 250, 250, 250, 255, 130, 130, 130, 255] 3) c).g ∧
        (prd st.palette (rd st.palette_map c)).b =
          (prd (load_palette light_exact
            [10, 10, 10, 255, 250, 250, 250, 255, 130, 130, 130, 255] 3) c).b ∧
        (prd st.palette (rd st.palette_map c)).L =
          (prd (load_palette light_exact
            [10, 10, 10, 255, 250, 250, 250, 255, 130, 130, 130, 255] 3) c).L :=
  ⟨by decide, by decide, by decide,
    palette_map_consistency light_exact
      { reset_opts with type := TARGET_SPRITE, transparent := 1, sort_palette := true }
      [10, 10, 10, 255, 250, 250, 250, 255, 130, 130, 130, 255] 3 (by decide) (by decide)
      (by decide)⟩

/-- One pass of the bubble sort of `sort_palette`, started with `newn = startAt`. -/
theorem sort_palette_pass_spec (tC s n : Nat) (pal : List RGB_PALETTE_ENTRY) (m : List Nat)
    (hn : n ≤ pal.length) :
    (sort_palette_pass tC s n (pal, m, s)).1.length = pal.length ∧
    (∀ p, p < s ∨ n ≤ p → prd (sort_palette_pass tC s n (pal, m, s)).1 p = prd pal p) ∧
    ((sort_palette_pass tC s n (pal, m, s)).2.2 = s ∨
      (s < (sort_palette_pass tC s n (pal, m, s)).2.2 ∧
        (sort_palette_pass tC s n (pal, m, s)).2.2 < n)) ∧
    (∀ i, (sort_palette_pass tC s n (pal, m, s)).2.2 < i → i < n →
      (prd (sort_palette_pass tC s n (pal, m, s)).1 i).L ≤
        (prd (sort_palette_pass tC s n (pal, m, s)).1 (i - 1)).L) ∧
    (s < (sort_palette_pass tC s n (pal, m, s)).2.2 → ∀ p, s ≤ p →
      p < (sort_palette_pass tC s n (pal, m, s)).2.2 →
      (prd (sort_palette_pass tC s n (pal, m, s)).1
          (sort_palette_pass tC s n (pal, m, s)).2.2).L ≤
        (prd (sort_palette_pass tC s n (pal, m, s)).1 p).L) ∧
    (∀ B, (∀ p, s ≤ p → p < n → B ≤ (prd pal p).L) →
      ∀ p, s ≤ p → p < n → B ≤ (prd (sort_palette_pass tC s n (pal, m, s)).1 p).L) := by
  have key := loop_inv (fun k (st : List RGB_PALETTE_ENTRY × List Nat × Nat) =>
      st.1.length = pal.length ∧
      (∀ p, p < s ∨ n ≤ p → prd st.1 p = prd pal p) ∧
      (st.2.2 = s ∨ (s < st.2.2 ∧ st.2.2 ≤ s + k)) ∧
      (∀ i, st.2.2 < i → i ≤ s + k → (prd st.1 i).L ≤ (prd st.1 (i - 1)).L) ∧
      (s < st.2.2 → ∀ p, s ≤ p → p < st.2.2 → (prd st.1 st.2.2).L ≤ (prd st.1 p).L) ∧
      (∀ p, s ≤ p → p < s + k → (prd st.1 (s + k)).L ≤ (prd st.1 p).L) ∧
      (∀ B, (∀ p, s ≤ p → p < n → B ≤ (prd pal p).L) →
        ∀ p, s ≤ p → p < n → B ≤ (prd st.1 p).L))
    (n - (s + 1))
    (fun k (st : List RGB_PALETTE_ENTRY × List Nat × Nat) =>
      if (prd st.1 (s + 1 + k - 1)).L < (prd st.1 (s + 1 + k)).L then
        (swap_palette_entries st.1 (s + 1 + k - 1) (s + 1 + k),
          swap_palette_indexes st.2.1 (s + 1 + k - 1) (s + 1 + k) tC, s + 1 + k)
      else st)
    (pal, m, s)
    ⟨rfl, fun _ _ => rfl, Or.inl rfl, fun i h1 h2 => by dsimp only at h1; omega,
      fun h => by dsimp only at h; omega, fun p h1 h2 => by omega, fun B hB => hB⟩
    (by
      rintro k st hk ⟨hlen, hfr, hnew, hsorted, hmin, hlast, hbag⟩
      have e1 : s + 1 + k - 1 = s + k := by omega
      have e2 : s + 1 + k = s + k + 1 := by omega
      have hi : s + k + 1 < st.1.length := by omega
      have hj : s + k < st.1.length := by omega
      have e3 : s + (k + 1) = s + k + 1 := rfl
      dsimp only
      rw [e1, e2, e3]
      by_cases hswap : (prd st.1 (s + k)).L < (prd st.1 (s + k + 1)).L
      · rw [if_pos hswap]
        dsimp only
        have hsp := fun v => swap_palette_entries_spec st.1 (s + k) (s + k + 1) v hj hi
        refine ⟨by rw [swap_palette_entries_length, hlen], ?_, Or.inr ⟨by omega, by omega⟩,
          fun i h1 h2 => by omega, ?_, ?_, ?_⟩
        · intro p hp
          rw [hsp p, if_neg (by omega), if_neg (by omega)]
          exact hfr p hp
        · intro _ p hp1 hp2
          rw [hsp (s + k + 1), if_neg (by omega), if_pos rfl, hsp p]
          by_cases hpj : p = s + k
          · rw [if_pos hpj]; omega
          · rw [if_neg hpj, if_neg (by omega)]
            exact hlast p hp1 (by omega)
        · intro p hp1 hp2
          rw [hsp (s + k + 1), if_neg (by omega), if_pos rfl, hsp p]
          by_cases hpj : p = s + k
          · rw [if_pos hpj]; omega
          · rw [if_neg hpj, if_neg (by omega)]
            exact hlast p hp1 (by omega)
        · intro B hB p hp1 hp2
          rw [hsp p]
          by_cases hpj : p = s + k
          · rw [if_pos hpj]
            exact hbag B hB (s + k + 1) (by omega) (by omega)
          · rw [if_neg hpj]
            by_cases hpi : p = s + k + 1
            · rw [if_pos hpi]
              exact hbag B hB (s + k) (by omega) (by omega)
            · rw [if_neg hpi]
              exact hbag B hB p hp1 hp2
      · rw [if_neg hswap]
        refine ⟨hlen, hfr, ?_, ?_, hmin, ?_, hbag⟩
        · rcases hnew with h | h
          · exact Or.inl h
          · exact Or.inr ⟨h.1, by omega⟩
        · intro i h1 h2
          by_cases hik : i = s + k + 1
          · subst hik
            have : s + k + 1 - 1 = s + k := by omega
            rw [this]; omega
          · exact hsorted i h1 (by omega)
        · intro p hp1 hp2
          by_cases hpj : p = s + k
          · rw [hpj]; omega
          · have := hlast p hp1 (by omega)
            omega)
  have hpass : sort_palette_pass tC s n (pal, m, s) =
      loop (n - (s + 1))
        (fun k (st : List RGB_PALETTE_ENTRY × List Nat × Nat) =>
          if (prd st.1 (s + 1 + k - 1)).L < (prd st.1 (s + 1 + k)).L then
            (swap_palette_entries st.1 (s + 1 + k - 1) (s + 1 + k),
              swap_palette_indexes st.2.1 (s + 1 + k - 1) (s + 1 + k) tC, s + 1 + k)
          else st)
        (pal, m, s) := rfl
  obtain ⟨r, hr⟩ : ∃ r, sort_palette_pass tC s n (pal, m, s) = r := ⟨_, rfl⟩
  have hr' := hr
  rw [hpass] at hr'
  rw [hr]
  rw [hr'] at key
  obtain ⟨hlen, hfr, hnew, hsorted, hmin, -, hbag⟩ := key
  refine ⟨hlen, hfr, ?_, ?_, hmin, hbag⟩
  · rcases hnew with h | ⟨h1, h2⟩
    · exact Or.inl h
    · exact Or.inr ⟨h1, by omega⟩
  · intro i h1 h2
    refine hsorted i h1 ?_
    rcases hnew with h | ⟨h3, h4⟩ <;> omega

theorem desc_chain (f : Nat → Nat) (lo hi : Nat)
    (h : ∀ i, lo < i → i < hi → f i ≤ f (i - 1)) : ∀ q, lo ≤ q → q < hi → f q ≤ f lo := by
  intro q
  induction q with
  | zero =>
    intro h1 _
    have : lo = 0 := by omega
    rw [this]
  | succ k ih =>
    intro h1 h2
    by_cases e : lo = k + 1
    · rw [e]
    · have h3 := h (k + 1) (by omega) h2
      have h4 := ih (by omega) (by omega)
      have e' : k + 1 - 1 = k := by omega
      rw [e'] at h3
      omega

/-- The bubble sort of `sort_palette` returns, with the lightness non-increasing from
`startAt` to `tColors`. -/
theorem sort_palette_sorted (tC s : Nat) (pal : List RGB_PALETTE_ENTRY) (m : List Nat)
    (hs : s ≤ tC) (hlen : tC ≤ pal.length) :
    ∃ r, sort_palette pal m tC s = some r ∧
      ∀ i, s < i → i < tC → (prd r.1 i).L ≤ (prd r.1 (i - 1)).L := by
  have run : ∀ fuel n (pal : List RGB_PALETTE_ENTRY) (m : List Nat), tC ≤ pal.length → s ≤ n →
      n ≤ tC → n - s < fuel →
      (∀ i, n < i → i < tC → (prd pal i).L ≤ (prd pal (i - 1)).L) →
      (∀ p q, s ≤ p → p < n → n ≤ q → q < tC → (prd pal q).L ≤ (prd pal p).L) →
      ∃ r, sort_palette_loop fuel pal m tC s n = some r ∧
        ∀ i, s < i → i < tC → (prd r.1 i).L ≤ (prd r.1 (i - 1)).L := by
    intro fuel
    induction fuel with
    | zero => intro n pal m _ _ _ hf; omega
    | succ k ih =>
      intro n pal m hlen hsn hn hf hO2 hO3
      obtain ⟨plen, pfr, pnew, psorted, pmin, pbag⟩ :=
        sort_palette_pass_spec tC s n pal m (by omega)
      unfold sort_palette_loop
      dsimp only
      generalize sort_palette_pass tC s n (pal, m, s) = r at plen pfr pnew psorted pmin pbag ⊢
      have hstep : ∀ i, r.2.2 < i → i < tC → (prd r.1 i).L ≤ (prd r.1 (i - 1)).L := by
        intro i h1 h2
        have hge : s ≤ r.2.2 := by rcases pnew with h | ⟨h3, h4⟩ <;> omega
        by_cases hin : i < n
        · exact psorted i h1 hin
        · by_cases hieq : i = n
          · subst hieq
            rw [pfr i (Or.inr (le_refl i))]
            exact pbag (prd pal i).L (fun p hp1 hp2 => hO3 p i hp1 hp2 (le_refl i) h2)
              (i - 1) (by omega) (by omega)
          · rw [pfr i (Or.inr (by omega)), pfr (i - 1) (Or.inr (by omega))]
            exact hO2 i (by omega) h2
      by_cases hc : r.2.2 > s
      · rw [if_pos hc]
        have hlt : r.2.2 < n := by rcases pnew with h | ⟨h3, h4⟩ <;> omega
        refine ih r.2.2 r.1 r.2.1 (by omega) (by omega) (by omega) (by omega) hstep ?_
        intro p q hp1 hp2 hq1 hq2
        have h1 := desc_chain (fun i => (prd r.1 i).L) r.2.2 tC hstep q hq1 hq2
        have h2 := pmin hc p hp1 hp2
        exact le_trans h1 h2
      · rw [if_neg hc]
        refine ⟨_, rfl, ?_⟩
        intro i h1 h2
        exact hstep i (by omega) h2
  exact run (tC + 1) tC pal m hlen hs (le_refl _) (by omega) (fun i h1 h2 => by omega)
    (fun p q h1 h2 h3 h4 => by omega)

theorem adjacent_split : ∀ (pal : List RGB_PALETTE_ENTRY) (j : Nat), j + 1 < pal.length →
    pal = pal.take j ++ (prd pal j :: prd pal (j + 1) :: pal.drop (j + 2)) ∧
    swap_palette_entries pal j (j + 1) =
      pal.take j ++ (prd pal (j + 1) :: prd pal j :: pal.drop (j + 2)) := by
  intro pal
  induction pal with
  | nil => intro j h; simp at h
  | cons x xs ih =>
    intro j h
    cases j with
    | zero =>
      cases xs with
      | nil => simp at h
      | cons y rest => simp [swap_palette_entries, prd]
    | succ j =>
      have h' : j + 1 < xs.length := by simpa using h
      obtain ⟨h1, h2⟩ := ih j h'
      have e1 : prd (x :: xs) (j + 1) = prd xs j := by simp [prd]
      have e2 : prd (x :: xs) (j + 1 + 1) = prd xs (j + 1) := by simp [prd]
      constructor
      · rw [e1, e2, List.take_succ_cons, List.cons_append]
        congr 1
      · have hs : swap_palette_entries (x :: xs) (j + 1) (j + 1 + 1) =
            x :: swap_palette_entries xs j (j + 1) := by
          simp [swap_palette_entries, prd]
        rw [hs, h2, e1, e2, List.take_succ_cons, List.cons_append]
        rfl

/-- An adjacent swap permutes the palette and keeps the entries below the swapped pair. -/
theorem swap_adjacent_perm (pal : List RGB_PALETTE_ENTRY) (s j : Nat) (hs : s ≤ j)
    (hj : j + 1 < pal.length) :
    (swap_palette_entries pal j (j + 1)).Perm pal ∧
    (swap_palette_entries pal j (j + 1)).take s = pal.take s := by
  obtain ⟨h1, h2⟩ := adjacent_split pal j hj
  have hlen : (pal.take j).length = j := by rw [List.length_take]; omega
  constructor
  · rw [h2]
    conv_rhs => rw [h1]
    exact List.Perm.append_left _ (List.Perm.swap _ _ _)
  · rw [h2, List.take_append_of_le_length (by omega), List.take_take, Nat.min_eq_left hs]

theorem light_exact_spec : light_spec light_exact :=
  fun _ _ _ _ _ _ => ⟨le_refl _, Nat.le_succ _, fun _ => rfl⟩

/-- The lightness values of the fixed grayscale palette. -/
theorem gray_pal_lightness (lv : Nat → Nat → Nat → Nat) (h : light_spec lv) :
    (create_gb_gray_pal lv).map (fun e => e.L) = [254, 171, 81, 0] := by
  have h255 := (h 255 255 255 (by decide) (by decide) (by decide)).2.2 (by decide)
  have h172 := (h 172 172 172 (by decide) (by decide) (by decide)).2.2 (by decide)
  have h82 := (h 82 82 82 (by decide) (by decide) (by decide)).2.2 (by decide)
  have h0 := (h 0 0 0 (by decide) (by decide) (by decide)).1
  have h0' : lv 0 0 0 = 0 := by
    have : (2989 * 0 + 5870 * 0 + 1140 * 0) / 10000 = 0 := by decide
    omega
  simp only [create_gb_gray_pal, set_palette_color, WHITE_VAL, LIGHTGRAY_VAL, DARKGRAY_VAL,
    BLACK_VAL, List.map_cons, List.map_nil, h255, h172, h82, h0']

/-- C12. Sort monotonicity: for every 4-entry palette and `startAt` 0 or 1,
`sort_palette(palette, palette_map, 4, startAt)` returns with `palette[i-1].L >=
palette[i].L` for every `i` with `startAt < i < 4`, the entries from `startAt` on a
permutation of the original ones and the entries below `startAt` unchanged; and the fixed
grayscale palette has the lightness values 254, 171, 81, 0, non-increasing. -/
theorem sort_monotonicity :
    (∀ (pal : List RGB_PALETTE_ENTRY) (m : List Nat) (s : Nat), pal.length = 4 →
      (s = 0 ∨ s = 1) →
      ∃ r, sort_palette pal m 4 s = some r ∧
        (∀ i, s < i → i < 4 → (prd r.1 i).L ≤ (prd r.1 (i - 1)).L) ∧
        (r.1.drop s).Perm (pal.drop s) ∧ r.1.take s = pal.take s) ∧
    (∀ lv : Nat → Nat → Nat → Nat, light_spec lv →
      (create_gb_gray_pal lv).map (fun e => e.L) = [254, 171, 81, 0] ∧
      ∀ i, 0 < i → i < 4 →
        (prd (create_gb_gray_pal lv) i).L ≤ (prd (create_gb_gray_pal lv) (i - 1)).L) := by
  constructor
  · intro pal m s hlen hs
    obtain ⟨r, hr, hsorted⟩ := sort_palette_sorted 4 s pal m (by omega) (by omega)
    obtain ⟨r', hr', hl, hperm, htake⟩ := sort_palette_rule
      (fun p _ => p.length = 4 ∧ p.Perm pal ∧ p.take s = pal.take s) 4 s
      (by
        rintro p m' i ⟨h1, h2, h3⟩ hi1 hi2
        have e : i - 1 + 1 = i := by omega
        have hsw := swap_adjacent_perm p s (i - 1) (by omega) (by omega)
        rw [e] at hsw
        exact ⟨by rw [swap_palette_entries_length, h1], hsw.1.trans h2, hsw.2.trans h3⟩)
      pal m ⟨hlen, List.Perm.refl _, rfl⟩
    rw [hr] at hr'
    injection hr' with hr'
    subst hr'
    refine ⟨r, hr, hsorted, ?_, htake⟩
    have h1 : (r.1.take s ++ r.1.drop s).Perm (pal.take s ++ pal.drop s) := by
      rw [List.take_append_drop, List.take_append_drop]
      exact hperm
    rw [htake] at h1
    exact (List.perm_append_left_iff _).1 h1
  · intro lv h
    have hL := gray_pal_lightness lv h
    refine ⟨hL, ?_⟩
    have hget : ∀ i, i < 4 → (prd (create_gb_gray_pal lv) i).L =
        ([254, 171, 81, 0] : List Nat).getD i 0 := by
      intro i hi
      rw [← hL]
      interval_cases i <;> rfl
    intro i h0 h4
    rw [hget i h4, hget (i - 1) (by omega)]
    interval_cases i <;> decide

theorem sort_monotonicity_witness :
    ([⟨1, 1, 1, 10⟩, ⟨2, 2, 2, 250⟩, ⟨3, 3, 3, 130⟩, ⟨4, 4, 4, 60⟩] :
      List RGB_PALETTE_ENTRY).length = 4 ∧ ((1 : Nat) = 0 ∨ (1 : Nat) = 1) ∧
    (∃ r, sort_palette [⟨1, 1, 1, 10⟩, ⟨2, 2, 2, 250⟩, ⟨3, 3, 3, 130⟩, ⟨4, 4, 4, 60⟩]
        [0, 1, 2, 3] 4 1 = some r ∧
      (∀ i, 1 < i → i < 4 → (prd r.1 i).L ≤ (prd r.1 (i - 1)).L) ∧
      (r.1.drop 1).Perm
        (([⟨1, 1, 1, 10⟩, ⟨2, 2, 2, 250⟩, ⟨3, 3, 3, 130⟩, ⟨4, 4, 4, 60⟩] :
          List RGB_PALETTE_ENTRY).drop 1) ∧
      r.1.take 1 =
        ([⟨1, 1, 1, 10⟩, ⟨2, 2, 2, 250⟩, ⟨3, 3, 3, 130⟩, ⟨4, 4, 4, 60⟩] :
          List RGB_PALETTE_ENTRY).take 1) ∧
    light_spec light_exact ∧
    (create_gb_gray_pal light_exact).map (fun e => e.L) = [254, 171, 81, 0] :=
  ⟨by decide, by decide,
    sort_monotonicity.1 [⟨1, 1, 1, 10⟩, ⟨2, 2, 2, 250⟩, ⟨3, 3, 3, 130⟩, ⟨4, 4, 4, 60⟩]
      [0, 1, 2, 3] 1 (by decide) (by decide),
    light_exact_spec, (sort_monotonicity.2 light_exact light_exact_spec).1⟩

/-- C13, at the failing input. With `-Ks` and the two grays `[(200,200,200), (180,180,180)]`
(lightness 199 and 179) the `tColors < 4` branch moves colour 0 to the slot of its nearest
shade, LIGHTGRAY at index 1, by a swap that sends colour 1 to index 0; at `c = 1` the entry
at index 1 is colour 0 again and stays. So source colour 0, the lighter, ends at target
index 1 and source colour 1 at target index 0. With the three grays of lightness 99, 249 and 0, whose nearest shades
differ, source colour 0 (lightness 99) ends at index 2 and source colour 2 (lightness 0)
at index 1. -/
theorem sort_flag_misplaces_short_palette :
    (prd (load_palette light_exact two_grays_palette 2) 0).L = 199 ∧
    (prd (load_palette light_exact two_grays_palette 2) 1).L = 179 ∧
    process_image_palette light_exact sort_opts LCT_PALETTE two_grays_palette 2 =
      Outcome.ok
        { palette := [⟨180, 180, 180, 179⟩, ⟨200, 200, 200, 199⟩, ⟨0, 0, 0, 0⟩, ⟨0, 0, 0, 0⟩],
          palette_map := [1, 0], tColors := 4, transparent := 0, baseColor := 0 } ∧
    process_image_palette light_exact sort_opts LCT_PALETTE three_grays_palette 3 =
      Outcome.ok
        { palette := [⟨250, 250, 250, 249⟩, ⟨0, 0, 0, 0⟩, ⟨100, 100, 100, 99⟩, ⟨0, 0, 0, 0⟩],
          palette_map := [2, 0, 1], tColors := 4, transparent := 0, baseColor := 0 } := by
  decide

/-! ## Identifier sanitization (C21) -/

/-- The loop of `sanitize_var_name` after `n` rounds: the characters 1 to `n` are
sanitized, the others are as before. -/
theorem sanitize_loop_spec (v0 : List Nat) (n : Nat) :
    (loop n (fun k v => if isalnum (rd v (k + 1)) = false then wr v (k + 1) 95 else v)
      v0).length = v0.length ∧
    ∀ i, rd (loop n (fun k v => if isalnum (rd v (k + 1)) = false then wr v (k + 1) 95 else v)
        v0) i =
      if 1 ≤ i ∧ i ≤ n ∧ i < v0.length ∧ isalnum (rd v0 i) = false then 95 else rd v0 i := by
  refine loop_inv (fun k v => v.length = v0.length ∧ ∀ i, rd v i =
      if 1 ≤ i ∧ i ≤ k ∧ i < v0.length ∧ isalnum (rd v0 i) = false then 95 else rd v0 i)
    n _ v0 ⟨rfl, fun i => by rw [if_neg (by omega)]⟩ ?_
  rintro k v - ⟨hl, hv⟩
  dsimp only
  have hk : rd v (k + 1) = rd v0 (k + 1) := by rw [hv, if_neg (by omega)]
  rw [hk]
  by_cases ha : isalnum (rd v0 (k + 1)) = false
  · rw [if_pos ha]
    refine ⟨by rw [length_wr, hl], fun i => ?_⟩
    rw [rd_wr, hv, hl]
    by_cases hi : i = k + 1
    · subst hi
      by_cases hlt : k + 1 < v0.length
      · rw [if_pos ⟨rfl, hlt⟩, if_pos ⟨by omega, by omega, hlt, ha⟩]
      · rw [if_neg (by tauto), if_neg (by omega), if_neg (by tauto)]
    · rw [if_neg (by tauto)]
      by_cases hc : 1 ≤ i ∧ i ≤ k ∧ i < v0.length ∧ isalnum (rd v0 i) = false
      · rw [if_pos hc, if_pos ⟨hc.1, by omega, hc.2.2⟩]
      · rw [if_neg hc, if_neg (by
          rintro ⟨h1, h2, h3⟩
          exact hc ⟨h1, by omega, h3⟩)]
  · rw [if_neg ha]
    refine ⟨hl, fun i => ?_⟩
    rw [hv]
    by_cases hi : i = k + 1
    · subst hi
      rw [if_neg (by omega), if_neg (by tauto)]
    · by_cases hc : 1 ≤ i ∧ i ≤ k ∧ i < v0.length ∧ isalnum (rd v0 i) = false
      · rw [if_pos hc, if_pos ⟨hc.1, by omega, hc.2.2⟩]
      · rw [if_neg hc, if_neg (by
          rintro ⟨h1, h2, h3⟩
          exact hc ⟨h1, by omega, h3⟩)]

/-- A string is an identifier when its first character is a letter or `_` and the later
ones are letters, digits or `_`. -/
theorem is_identifier_of_chars (s : List Nat) (h0 : 1 ≤ s.length)
    (h1 : isalpha (rd s 0) = true ∨ rd s 0 = 95)
    (h2 : ∀ i, 1 ≤ i → i < s.length → isalnum (rd s i) = true ∨ rd s i = 95) :
    is_identifier s = true := by
  cases s with
  | nil => simp at h0
  | cons c rest =>
    have hc : rd (c :: rest) 0 = c := rfl
    rw [hc] at h1
    simp only [is_identifier, Bool.and_eq_true, Bool.or_eq_true, decide_eq_true_eq,
      List.all_eq_true]
    refine ⟨h1, fun d hd => ?_⟩
    obtain ⟨j, hj, rfl⟩ := List.getElem_of_mem hd
    have := h2 (j + 1) (by omega) (by simpa using hj)
    have e : rd (c :: rest) (j + 1) = rest[j] := by
      simp [rd, List.getD_eq_getElem?_getD, List.getElem?_eq_getElem hj]
    rwa [e] at this

/-- C21. Identifier sanitization: for every name of length `len >= 1` (characters
classified as in the C locale), `sanitize_var_name` keeps the length, replaces the first
character by `_` unless it is a letter, replaces every later character that is not a letter
or digit by `_`, leaves all other characters unchanged, and the result matches
`[A-Za-z_][A-Za-z0-9_]*`. -/
theorem sanitize_var_name_identifier (var : List Nat) (hlen : 1 ≤ var.length) :
    (sanitize_var_name var var.length).length = var.length ∧
    rd (sanitize_var_name var var.length) 0 =
      (if isalpha (rd var 0) = true then rd var 0 else 95) ∧
    (∀ i, 1 ≤ i → i < var.length →
      rd (sanitize_var_name var var.length) i =
        if isalnum (rd var i) = true then rd var i else 95) ∧
    is_identifier (sanitize_var_name var var.length) = true := by
  have hspec := sanitize_loop_spec (if isalpha (rd var 0) = false then wr var 0 95 else var)
    (var.length - 1)
  have hl1 : (if isalpha (rd var 0) = false then wr var 0 95 else var).length = var.length := by
    split_ifs
    · rw [length_wr]
    · rfl
  have h1 : ∀ i, 1 ≤ i →
      rd (if isalpha (rd var 0) = false then wr var 0 95 else var) i = rd var i := by
    intro i hi
    split_ifs
    · exact rd_wr_ne _ _ _ _ (by omega)
    · rfl
  have h0 : rd (if isalpha (rd var 0) = false then wr var 0 95 else var) 0 =
      if isalpha (rd var 0) = true then rd var 0 else 95 := by
    by_cases ha : isalpha (rd var 0) = true
    · rw [if_neg (by simp [ha]), if_pos ha]
    · rw [if_pos (by simpa using ha), if_neg ha, rd_wr_same _ _ _ (by omega)]
  rw [hl1] at hspec
  have e : sanitize_var_name var var.length =
      loop (var.length - 1)
        (fun k v => if isalnum (rd v (k + 1)) = false then wr v (k + 1) 95 else v)
        (if isalpha (rd var 0) = false then wr var 0 95 else var) := rfl
  rw [e]
  generalize (if isalpha (rd var 0) = false then wr var 0 95 else var) = v1 at hspec h1 h0 ⊢
  have r0 := hspec.2 0
  rw [if_neg (by rintro ⟨h, -⟩; omega), h0] at r0
  have ri : ∀ i, 1 ≤ i → i < var.length →
      rd (loop (var.length - 1)
        (fun k v => if isalnum (rd v (k + 1)) = false then wr v (k + 1) 95 else v) v1) i =
        if isalnum (rd var i) = true then rd var i else 95 := by
    intro i hi1 hi2
    rw [hspec.2 i, h1 i hi1]
    by_cases ha : isalnum (rd var i) = true
    · rw [if_neg (by simp [ha]), if_pos ha]
    · rw [if_pos ⟨hi1, by omega, hi2, by simpa using ha⟩, if_neg ha]
  refine ⟨hspec.1, r0, ri, ?_⟩
  apply is_identifier_of_chars _ (by rw [hspec.1]; exact hlen)
  · rw [r0]
    by_cases ha : isalpha (rd var 0) = true
    · rw [if_pos ha]; exact Or.inl ha
    · rw [if_neg ha]; exact Or.inr rfl
  · intro i hi1 hi2
    rw [hspec.1] at hi2
    rw [ri i hi1 hi2]
    by_cases ha : isalnum (rd var i) = true
    · rw [if_pos ha]; exact Or.inl ha
    · rw [if_neg ha]; exact Or.inr rfl

theorem sanitize_var_name_identifier_witness :
    1 ≤ [49, 97, 45, 66, 95, 200, 48].length ∧
    sanitize_var_name [49, 97, 45, 66, 95, 200, 48] 7 = [95, 97, 95, 66, 95, 95, 48] ∧
    is_identifier (sanitize_var_name [49, 97, 45, 66, 95, 200, 48]
      [49, 97, 45, 66, 95, 200, 48].length) = true :=
  ⟨by decide, by decide,
    (sanitize_var_name_identifier [49, 97, 45, 66, 95, 200, 48] (by decide)).2.2.2⟩

/-! ## Grid geometry (C22) and input rejection (C24) -/

/-- C22. Grid geometry: for every `w >= 1`, `h >= 1`, `allocate_gb_pict(w, h, mode16)` gives
`tileh = 16` if `mode16` else 8, `cols = ceil(w/8)`, `rows = ceil(h/tileh)`,
`total_tiles = cols*rows`, a tile store of `total_tiles*tileh*2` bytes all equal to 0, and
the identity tilemap `tilemap[i] = i` for every `i < cols*rows`. The ceilings are stated
both as `(w + 7) / 8` and by their defining inequalities. -/
theorem grid_geometry (w h : Nat) (mode16 : Bool) (pal0 : List Nat) (hw : 1 ≤ w) (hh : 1 ≤ h) :
    (allocate_gb_pict w h mode16 pal0).tileh = (if mode16 then 16 else 8) ∧
    (allocate_gb_pict w h mode16 pal0).cols = (w + 7) / 8 ∧
    8 * ((allocate_gb_pict w h mode16 pal0).cols - 1) < w ∧
    w ≤ 8 * (allocate_gb_pict w h mode16 pal0).cols ∧
    (allocate_gb_pict w h mode16 pal0).rows =
      (h + (allocate_gb_pict w h mode16 pal0).tileh - 1) /
        (allocate_gb_pict w h mode16 pal0).tileh ∧
    (allocate_gb_pict w h mode16 pal0).tileh * ((allocate_gb_pict w h mode16 pal0).rows - 1) < h ∧
    h ≤ (allocate_gb_pict w h mode16 pal0).tileh * (allocate_gb_pict w h mode16 pal0).rows ∧
    (allocate_gb_pict w h mode16 pal0).total_tiles =
      (allocate_gb_pict w h mode16 pal0).cols * (allocate_gb_pict w h mode16 pal0).rows ∧
    (allocate_gb_pict w h mode16 pal0).tiles.length =
      (allocate_gb_pict w h mode16 pal0).total_tiles *
        (allocate_gb_pict w h mode16 pal0).tileh * 2 ∧
    (∀ i, rd (allocate_gb_pict w h mode16 pal0).tiles i = 0) ∧
    (allocate_gb_pict w h mode16 pal0).tilemap.length =
      (allocate_gb_pict w h mode16 pal0).cols * (allocate_gb_pict w h mode16 pal0).rows ∧
    ∀ i, i < (allocate_gb_pict w h mode16 pal0).cols * (allocate_gb_pict w h mode16 pal0).rows →
      rd (allocate_gb_pict w h mode16 pal0).tilemap i = i := by
  have hcols : (allocate_gb_pict w h mode16 pal0).cols =
      if w % 8 = 0 then w / 8 else w / 8 + 1 := rfl
  have hth : (allocate_gb_pict w h mode16 pal0).tileh = if mode16 then 16 else 8 := rfl
  have hrows : (allocate_gb_pict w h mode16 pal0).rows =
      if h % (if mode16 then 16 else 8) = 0 then h / (if mode16 then 16 else 8)
      else h / (if mode16 then 16 else 8) + 1 := rfl
  have htm : (allocate_gb_pict w h mode16 pal0).tilemap =
      loop ((allocate_gb_pict w h mode16 pal0).cols * (allocate_gb_pict w h mode16 pal0).rows)
        (fun t m => wr m t t)
        (List.replicate
          ((allocate_gb_pict w h mode16 pal0).cols * (allocate_gb_pict w h mode16 pal0).rows)
          0) := rfl
  have htl : (allocate_gb_pict w h mode16 pal0).tiles =
      List.replicate ((allocate_gb_pict w h mode16 pal0).cols *
        (allocate_gb_pict w h mode16 pal0).rows * (allocate_gb_pict w h mode16 pal0).tileh * 2)
        0 := rfl
  have htt : (allocate_gb_pict w h mode16 pal0).total_tiles =
      (allocate_gb_pict w h mode16 pal0).cols * (allocate_gb_pict w h mode16 pal0).rows := rfl
  have hid := identity_tilemap
    ((allocate_gb_pict w h mode16 pal0).cols * (allocate_gb_pict w h mode16 pal0).rows)
  rw [← htm] at hid
  refine ⟨hth, ?_, ?_, ?_, ?_, ?_, ?_, htt, ?_, ?_, hid.1, hid.2⟩
  · rw [hcols]; split_ifs <;> omega
  · rw [hcols]; split_ifs <;> omega
  · rw [hcols]; split_ifs <;> omega
  · rw [hrows, hth]; cases mode16 <;> simp <;> split_ifs <;> omega
  · rw [hrows, hth]; cases mode16 <;> simp <;> split_ifs <;> omega
  · rw [hrows, hth]; cases mode16 <;> simp <;> split_ifs <;> omega
  · rw [htl, htt, List.length_replicate]
  · intro i
    rw [htl]
    exact rd_replicate_zero _ i

theorem grid_geometry_witness :
    1 ≤ 17 ∧ 1 ≤ 9 ∧
    (allocate_gb_pict 17 9 true []).tileh = (if true then 16 else 8) ∧
    (allocate_gb_pict 17 9 true []).cols = (17 + 7) / 8 :=
  ⟨by decide, by decide, (grid_geometry 17 9 true [] (by decide) (by decide)).1,
    (grid_geometry 17 9 true [] (by decide) (by decide)).2.1⟩

/-- An indexed picture whose palette is not rejected for its size passes STEPs 1 to 3, for
every palette size, 0 included. -/
theorem process_image_palette_accepts (lv : Nat → Nat → Nat → Nat) (opts : OPTIONS)
    (pp : List Nat) (n : Nat) (hacc : ¬ (n > 4 ∧ opts.grayscale = false)) :
    ∃ st, process_image_palette lv opts LCT_PALETTE pp n = Outcome.ok st := by
  by_cases hn : n = 0
  · subst hn
    unfold process_image_palette
    dsimp only
    rw [if_neg (by simp), if_neg (by omega)]
    by_cases hg : opts.grayscale = true
    · rw [if_pos hg]
      exact ⟨_, rfl⟩
    · rw [if_neg hg]
      by_cases hs : opts.sort_palette = true
      · rw [if_pos hs, if_pos (by decide)]
        exact ⟨_, rfl⟩
      · rw [if_neg hs]
        exact ⟨_, rfl⟩
  · have hacc' : n ≤ 4 ∨ opts.grayscale = true := by
      by_cases h4 : n ≤ 4
      · exact Or.inl h4
      · right
        cases hg : opts.grayscale
        · exact absurd ⟨by omega, hg⟩ hacc
        · rfl
    obtain ⟨st, hst, -⟩ := process_image_palette_ok lv opts pp n (by omega) hacc'
    exact ⟨st, hst⟩

/-- C24. Input rejection: for a decoded PNG, whatever its palette size (0 for a PNG without
palette), `process_image` stops with the colour type error exactly when the colour type is
not 3 (indexed), with the colour count error exactly when the type is 3, the palette has more
than 4 entries and the grayscale flag is unset, and otherwise the reconciliation ends
normally; in particular with the grayscale flag every palette size is accepted. -/
theorem input_rejection (lv : Nat → Nat → Nat → Nat) (opts : OPTIONS) (colortype : Nat)
    (pp : List Nat) (n : Nat) :
    (process_image_palette lv opts colortype pp n = Outcome.fatal_colortype ↔
      colortype ≠ LCT_PALETTE) ∧
    (process_image_palette lv opts colortype pp n = Outcome.fatal_colors ↔
      colortype = LCT_PALETTE ∧ n > 4 ∧ opts.grayscale = false) ∧
    ((∃ st, process_image_palette lv opts colortype pp n = Outcome.ok st) ↔
      ¬ (colortype ≠ LCT_PALETTE ∨ (n > 4 ∧ opts.grayscale = false))) ∧
    (colortype = LCT_PALETTE → opts.grayscale = true →
      ∃ st, process_image_palette lv opts colortype pp n = Outcome.ok st) := by
  by_cases hc : colortype = LCT_PALETTE
  · subst hc
    by_cases hbig : n > 4 ∧ opts.grayscale = false
    · have e : process_image_palette lv opts LCT_PALETTE pp n = Outcome.fatal_colors := by
        unfold process_image_palette
        dsimp only
        rw [if_neg (by simp), if_pos hbig]
      rw [e]
      refine ⟨by simp, by simp [hbig], by simp [hbig], ?_⟩
      intro _ hg
      rw [hbig.2] at hg
      exact absurd hg (by decide)
    · obtain ⟨st, hst⟩ := process_image_palette_accepts lv opts pp n hbig
      rw [hst]
      refine ⟨by simp, ?_, ?_, fun _ _ => ⟨st, rfl⟩⟩
      · simp only [false_iff, reduceCtorEq]
        rintro ⟨-, h⟩
        exact hbig h
      · simp only [Outcome.ok.injEq, exists_eq', true_iff]
        rintro (h | h)
        · exact h rfl
        · exact hbig h
  · have e : process_image_palette lv opts colortype pp n = Outcome.fatal_colortype := by
      unfold process_image_palette
      dsimp only
      rw [if_pos hc]
    rw [e]
    refine ⟨by simp [hc], by simp [hc], by simp [hc], fun h => absurd h hc⟩

theorem input_rejection_witness :
    (process_image_palette color_light_val reset_opts 2 [] 0 = Outcome.fatal_colortype ↔
      2 ≠ LCT_PALETTE) ∧
    (process_image_palette color_light_val reset_opts LCT_PALETTE [] 200 = Outcome.fatal_colors ↔
      LCT_PALETTE = LCT_PALETTE ∧ 200 > 4 ∧ reset_opts.grayscale = false) ∧
    (LCT_PALETTE = LCT_PALETTE → { reset_opts with grayscale := true }.grayscale = true →
      ∃ st, process_image_palette color_light_val { reset_opts with grayscale := true }
        LCT_PALETTE [] 0 = Outcome.ok st) :=
  ⟨(input_rejection color_light_val reset_opts 2 [] 0).1,
    (input_rejection color_light_val reset_opts LCT_PALETTE [] 200).2.1,
    (input_rejection color_light_val { reset_opts with grayscale := true }
      LCT_PALETTE [] 0).2.2.2⟩

/-! ## Validation of the options (C25 to C29) -/

theorem check_palnumber_fields (s : OPTIONS × List WARNING) :
    (check_palnumber s).1 =
      { s.1 with palnumber := if s.1.palnumber > 7 then 7 else s.1.palnumber } := by
  unfold check_palnumber
  split_ifs <;> rfl

theorem check_baseindex_fields (s : OPTIONS × List WARNING) :
    (check_baseindex s).1 =
      { s.1 with baseindex :=
          if s.1.big_sprite = true ∧ s.1.baseindex &&& 1 ≠ 0 then s.1.baseindex &&& 0xfe
          else s.1.baseindex } := by
  unfold check_baseindex
  split_ifs <;> rfl

theorem check_test_map_fields (s : OPTIONS × List WARNING) :
    (check_test_map s).1 = { s.1 with create_map := s.1.create_map || s.1.test_code } := by
  rcases s with ⟨⟨ty, tr, g, cp, sp, cm, pn, bs, tc, trd, bi, vb, nm⟩, ms⟩
  cases tc <;> cases cm <;> simp [check_test_map]

theorem check_sort_palette_fields (s : OPTIONS × List WARNING) :
    (check_sort_palette s).1 =
      { s.1 with create_map := s.1.create_map || (s.1.sort_palette && !s.1.create_palette) } := by
  rcases s with ⟨⟨ty, tr, g, cp, sp, cm, pn, bs, tc, trd, bi, vb, nm⟩, ms⟩
  cases sp <;> cases cp <;> cases cm <;> simp [check_sort_palette]

theorem check_sizes_fields (gbpic : PICDATA) (s : OPTIONS × List WARNING) :
    (check_sizes gbpic s).1 = s.1 := by
  unfold check_sizes
  split_ifs <;> rfl

/-- The options after `gb_check_warnings`. -/
theorem gb_check_warnings_fields (opts : OPTIONS) (gbpic : PICDATA) :
    (gb_check_warnings opts gbpic).1 =
      { opts with
        palnumber := if opts.palnumber > 7 then 7 else opts.palnumber
        baseindex :=
          if opts.big_sprite = true ∧ opts.baseindex &&& 1 ≠ 0 then opts.baseindex &&& 0xfe
          else opts.baseindex
        create_map :=
          opts.create_map || opts.test_code || (opts.sort_palette && !opts.create_palette) } := by
  unfold gb_check_warnings
  rw [check_sizes_fields, check_sort_palette_fields, check_test_map_fields,
    check_baseindex_fields, check_palnumber_fields]

theorem mem_if_single (c : Prop) [Decidable c] (x y : WARNING) :
    x ∈ (if c then [y] else []) ↔ (c ∧ x = y) := by
  split_ifs with h <;> simp [h]

/-- The messages printed before the size checks are of the first four kinds. -/
theorem early_messages (opts : OPTIONS) :
    ∀ m, m ∈ (check_sort_palette (check_test_map (check_baseindex
        (check_palnumber (opts, []))))).2 →
      m = WARNING.palette_number ∨ m = WARNING.base_rounded ∨ m = WARNING.map_activated ∨
        m = WARNING.palette_sorting := by
  intro m
  unfold check_sort_palette check_test_map check_baseindex check_palnumber
  split_ifs <;> simp <;> tauto

/-- C25. Palette-number clamp in the validator: for every option record, after
`gb_check_warnings` the palette number is 7 if it was above 7 and unchanged otherwise, so it
is at most 7. -/
theorem palette_number_clamp (opts : OPTIONS) (gbpic : PICDATA) :
    (gb_check_warnings opts gbpic).1.palnumber =
      (if opts.palnumber > 7 then 7 else opts.palnumber) ∧
    (gb_check_warnings opts gbpic).1.palnumber ≤ 7 := by
  rw [gb_check_warnings_fields]
  dsimp only
  split_ifs <;> simp
  omega

/-- C26, at the failing input. The command line `-pal 256 i o`: `parse_as_number` returns
256, the assignment to the `BYTE` field `palnumber` keeps `256 mod 256 = 0`, and
`gb_check_warnings` finds nothing to clamp, so the palette number used is 0, not
`min(256, 7) = 7`. With `-pal 9` the number is clamped to 7. -/
theorem pal_option_wraps_at_256 :
    parse_as_number [50, 53, 54] 10 = some 256 ∧
    main_options [[45, 112, 97, 108], [50, 53, 54], [105], [111]] =
      some { reset_opts with palnumber := 0 } ∧
    gb_check_warnings { reset_opts with palnumber := 0 } (allocate_gb_pict 8 8 false [0, 0, 0, 0]) =
      ({ reset_opts with palnumber := 0 }, []) ∧
    min 256 7 = 7 ∧
    main_options [[45, 112, 97, 108], [57], [105], [111]] =
      some { reset_opts with palnumber := 9 } ∧
    (gb_check_warnings { reset_opts with palnumber := 9 }
      (allocate_gb_pict 8 8 false [0, 0, 0, 0])).1.palnumber = 7 := by
  decide

/-- C27, at the failing input. The command line `-BK i o`: option `B` sets `big_sprite`,
option `K` then sets the target to BKG and leaves `big_sprite` set, so the target is not
8x16 sprite mode (`is8x16Mode` is false), yet `gb_check_warnings`, which tests `big_sprite`
alone, rounds the default base index 1 down to 0 and prints its notice. -/
theorem base_index_rounded_for_background :
    main_options [[45, 66, 75], [105], [111]] = some { reset_opts with big_sprite := true } ∧
    { reset_opts with big_sprite := true }.type = TARGET_BKG ∧
    is8x16Mode { reset_opts with big_sprite := true } = false ∧
    { reset_opts with big_sprite := true }.baseindex = 1 ∧
    gb_check_warnings { reset_opts with big_sprite := true }
        (allocate_gb_pict 8 8 false [0, 0, 0, 0]) =
      ({ reset_opts with big_sprite := true, baseindex := 0 }, [WARNING.base_rounded]) := by
  decide

/-- C28, at the failing input. The command line `-s i o` (sorting on, palette output off):
`gb_check_warnings` prints the notice that palette output will be enabled, then sets
`create_map`; `create_palette` stays unset. -/
theorem sorting_enables_map_not_palette :
    main_options [[45, 115], [105], [111]] = some { reset_opts with sort_palette := true } ∧
    { reset_opts with sort_palette := true }.create_palette = false ∧
    { reset_opts with sort_palette := true }.create_map = false ∧
    gb_check_warnings { reset_opts with sort_palette := true }
        (allocate_gb_pict 8 8 false [0, 0, 0, 0]) =
      ({ reset_opts with sort_palette := true, create_map := true },
        [WARNING.palette_sorting]) ∧
    (gb_check_warnings { reset_opts with sort_palette := true }
        (allocate_gb_pict 8 8 false [0, 0, 0, 0])).1.create_palette = false := by
  decide

/-- C29, counterexample. With the default options (target BKG, no demo code) and a picture
of 264x8 pixels, 33 tiles wide, `gb_check_warnings` prints nothing: the advisory for
`cols > 32` is not emitted. -/
theorem size_advisories_counterexample :
    reset_opts.type = TARGET_BKG ∧ reset_opts.test_code = false ∧
    (allocate_gb_pict 264 8 false [0, 0, 0, 0]).cols = 33 ∧
    gb_check_warnings reset_opts (allocate_gb_pict 264 8 false [0, 0, 0, 0]) =
      (reset_opts, []) := by
  decide

/-- C29, as amended. Size advisories: `gb_check_warnings` emits them only when demo code
(`test_code`) is requested. Then, for BKG/WINDOW targets, the first advisory is printed
exactly when `cols > 32` or `rows > 32` and the second exactly when
`total_tiles + base_index > 256`; for SPRITE targets the first exactly when
`total_tiles + base_index > 40` and the second exactly when `cols*rows > 40` or `cols > 10`;
`base_index` is the base index as `gb_check_warnings` leaves it. -/
theorem size_advisories (opts : OPTIONS) (gbpic : PICDATA) :
    (WARNING.map_over_32 ∈ (gb_check_warnings opts gbpic).2 ↔
      opts.test_code = true ∧ (opts.type = TARGET_BKG ∨ opts.type = TARGET_WINDOW) ∧
        (gbpic.cols > 32 ∨ gbpic.rows > 32)) ∧
    (WARNING.over_256_tiles ∈ (gb_check_warnings opts gbpic).2 ↔
      opts.test_code = true ∧ (opts.type = TARGET_BKG ∨ opts.type = TARGET_WINDOW) ∧
        gbpic.total_tiles + (gb_check_warnings opts gbpic).1.baseindex > 256) ∧
    (WARNING.over_40_frames ∈ (gb_check_warnings opts gbpic).2 ↔
      opts.test_code = true ∧ opts.type = TARGET_SPRITE ∧
        gbpic.total_tiles + (gb_check_warnings opts gbpic).1.baseindex > 40) ∧
    (WARNING.over_40_sprites ∈ (gb_check_warnings opts gbpic).2 ↔
      opts.test_code = true ∧ opts.type = TARGET_SPRITE ∧
        (gbpic.cols * gbpic.rows > 40 ∨ gbpic.cols > 10)) := by
  have hf : (check_sizes gbpic (check_sort_palette (check_test_map (check_baseindex
      (check_palnumber (opts, [])))))).1 =
      (check_sort_palette (check_test_map (check_baseindex (check_palnumber (opts, []))))).1 :=
    check_sizes_fields _ _
  have hfields : (check_sort_palette (check_test_map (check_baseindex
      (check_palnumber (opts, []))))).1.test_code = opts.test_code ∧
      (check_sort_palette (check_test_map (check_baseindex
        (check_palnumber (opts, []))))).1.type = opts.type := by
    rw [check_sort_palette_fields, check_test_map_fields, check_baseindex_fields,
      check_palnumber_fields]
    exact ⟨rfl, rfl⟩
  have hearly := early_messages opts
  unfold gb_check_warnings
  rw [hf]
  generalize check_sort_palette (check_test_map (check_baseindex
    (check_palnumber (opts, [])))) = s4 at hfields hearly ⊢
  obtain ⟨ht, hty⟩ := hfields
  have n1 : WARNING.map_over_32 ∉ s4.2 := fun h => by
    rcases hearly _ h with h | h | h | h <;> cases h
  have n2 : WARNING.over_256_tiles ∉ s4.2 := fun h => by
    rcases hearly _ h with h | h | h | h <;> cases h
  have n3 : WARNING.over_40_frames ∉ s4.2 := fun h => by
    rcases hearly _ h with h | h | h | h <;> cases h
  have n4 : WARNING.over_40_sprites ∉ s4.2 := fun h => by
    rcases hearly _ h with h | h | h | h <;> cases h
  rw [← ht, ← hty]
  have hsp : s4.1.type = TARGET_SPRITE ↔ ¬ (s4.1.type = TARGET_BKG ∨ s4.1.type = TARGET_WINDOW) := by
    cases s4.1.type <;> simp
  unfold check_sizes
  by_cases htc : s4.1.test_code = true
  · rw [if_pos htc]
    by_cases hbk : s4.1.type = TARGET_BKG ∨ s4.1.type = TARGET_WINDOW
    · rw [if_pos hbk]
      simp [List.mem_append, mem_if_single, n1, n2, n3, n4, htc, hbk, hsp]
    · rw [if_neg hbk]
      simp [List.mem_append, mem_if_single, n1, n2, n3, n4, htc, hbk, hsp]
  · rw [if_neg htc]
    simp [n1, n2, n3, n4, htc]

/-! ## Lightness (C23) -/

theorem excess_bits_le (fuel : Nat) : ∀ N k, N < 2 ^ (53 + k) → excess_bits fuel N ≤ k := by
  induction fuel with
  | zero => intro N k _; simp [excess_bits]
  | succ f ih =>
    intro N k h
    unfold excess_bits
    split_ifs with h53
    · omega
    · cases k with
      | zero => exact absurd h h53
      | succ k =>
        have : N / 2 < 2 ^ (53 + k) := by
          rw [Nat.div_lt_iff_lt_mul (by decide)]
          have e : 2 ^ (53 + (k + 1)) = 2 ^ (53 + k) * 2 := by
            rw [← Nat.add_assoc, Nat.pow_succ]
          omega
        have := ih (N / 2) k this
        omega

/-- What `excess_bits` computes: a value of more than 53 bits, shifted right by it, has exactly
53 bits. -/
theorem excess_bits_spec (fuel : Nat) : ∀ N, N ≤ fuel →
    (N < 2 ^ 53 ∧ excess_bits fuel N = 0) ∨
    (2 ^ 53 ≤ N ∧ 2 ^ 52 ≤ N / 2 ^ excess_bits fuel N ∧ N / 2 ^ excess_bits fuel N < 2 ^ 53) := by
  induction fuel with
  | zero =>
    intro N h
    left
    exact ⟨by norm_num; omega, rfl⟩
  | succ f ih =>
    intro N h
    unfold excess_bits
    split_ifs with h53
    · exact Or.inl ⟨h53, rfl⟩
    · right
      have h53' : 2 ^ 53 ≤ N := by omega
      refine ⟨h53', ?_⟩
      have e : N / 2 ^ (excess_bits f (N / 2) + 1) = N / 2 / 2 ^ excess_bits f (N / 2) := by
        rw [Nat.pow_succ, Nat.mul_comm, Nat.div_div_eq_div_mul]
      rw [e]
      have hle : N / 2 ≤ f := by
        norm_num at h53'
        omega
      rcases ih (N / 2) hle with ⟨h1, h2⟩ | ⟨-, h2⟩
      · rw [h2]
        norm_num at h1 h53' ⊢
        omega
      · exact h2

/-- The three constants are the binary64 numbers nearest to 0.2989, 0.5870 and 0.1140: each
is a 53-bit significand times its unit in the last place (4, 8 and 1 units of `2^-56`), at
most half such a unit away from the decimal value. -/
theorem double_constants :
    (D_2989 % 4 = 0 ∧ 2 ^ 52 ≤ D_2989 / 4 ∧ D_2989 / 4 < 2 ^ 53 ∧
      2989 * 2 ^ 56 ≤ D_2989 * 10000 + 2 * 10000 ∧ D_2989 * 10000 ≤ 2989 * 2 ^ 56 + 2 * 10000) ∧
    (D_5870 % 8 = 0 ∧ 2 ^ 52 ≤ D_5870 / 8 ∧ D_5870 / 8 < 2 ^ 53 ∧
      5870 * 2 ^ 56 ≤ D_5870 * 10000 + 4 * 10000 ∧ D_5870 * 10000 ≤ 5870 * 2 ^ 56 + 4 * 10000) ∧
    (2 ^ 52 ≤ D_1140 ∧ D_1140 < 2 ^ 53 ∧
      2 * 1140 * 2 ^ 56 ≤ 2 * D_1140 * 10000 + 10000 ∧
      2 * D_1140 * 10000 ≤ 2 * 1140 * 2 ^ 56 + 10000) := by
  decide

/-- One rounding moves a value below `2^8` by at most `2^-46`. -/
theorem round53_near (N : Nat) (h : N < 2 ^ 64) :
    round53 N ≤ N + 1024 ∧ N ≤ round53 N + 1024 := by
  have hsh := excess_bits_le N N 11 (by norm_num at h ⊢; omega)
  unfold round53
  generalize excess_bits N N = sh at hsh
  interval_cases sh <;> simp only [Nat.shiftRight_eq_div_pow, Nat.shiftLeft_eq] <;> norm_num <;>
    split_ifs <;> omega

/-- The lightness computed in double precision is the integer part of the exact weighted
sum, or one less where the exact sum is an integer. -/
theorem color_light_val_spec : light_spec color_light_val := by
  intro r g b hr hg hb
  unfold color_light_val
  have a1 := round53_near (D_2989 * r) (by unfold D_2989; norm_num; omega)
  have a2 := round53_near (D_5870 * g) (by unfold D_5870; norm_num; omega)
  have a3 := round53_near (D_1140 * b) (by unfold D_1140; norm_num; omega)
  unfold D_2989 at a1 ⊢
  unfold D_5870 at a2 ⊢
  unfold D_1140 at a3 ⊢
  generalize round53 (21538014857936660 * r) = A at a1 ⊢
  generalize round53 (42297807700263696 * g) = B at a2 ⊢
  generalize round53 (8214565720323785 * b) = C at a3 ⊢
  have a4 := round53_near (A + B) (by norm_num; omega)
  generalize round53 (A + B) = AB at a4 ⊢
  have a5 := round53_near (AB + C) (by norm_num; omega)
  generalize round53 (AB + C) = F at a5 ⊢
  rw [Nat.shiftRight_eq_div_pow]
  norm_num
  have hF : F / 72057594037927936 < 256 := by omega
  rw [Nat.mod_eq_of_lt hF]
  omega

/-- C23, counterexample. White `(255, 255, 255)`: the weighted sum is 254.9745, the stored
lightness is 254, the nearest integer is 255. -/
theorem lightness_rounded_counterexample :
    (set_palette_color color_light_val 255 255 255).L = 254 ∧
    (2989 * 255 + 5870 * 255 + 1140 * 255 : Nat) = 2549745 ∧
    lightness_rounded 255 255 255 = 255 := by
  decide

/-- C23, as amended. Lightness: for every `(r, g, b)` in 0..255 the lightness `L` stored by
`set_palette_color` is the result of `color_light_val`, the weighted sum
`0.2989 r + 0.5870 g + 0.1140 b` computed in double precision with its fraction dropped
(not rounded to nearest): `L` is the integer part of the exact sum whenever the exact sum is
not an integer, and that integer or one less when it is; it is an 8-bit value, at most 254,
that depends on `(r, g, b)` only. -/
theorem lightness_truncated (r g b : Nat) (hr : r < 256) (hg : g < 256) (hb : b < 256) :
    (set_palette_color color_light_val r g b).L = color_light_val r g b ∧
    color_light_val r g b ≤ 254 ∧
    color_light_val r g b ≤ (2989 * r + 5870 * g + 1140 * b) / 10000 ∧
    (2989 * r + 5870 * g + 1140 * b) / 10000 ≤ color_light_val r g b + 1 ∧
    ((2989 * r + 5870 * g + 1140 * b) % 10000 ≠ 0 →
      color_light_val r g b = (2989 * r + 5870 * g + 1140 * b) / 10000) := by
  obtain ⟨h1, h2, h3⟩ := color_light_val_spec r g b hr hg hb
  have h254 : color_light_val r g b ≤ 254 := by omega
  refine ⟨?_, h254, h1, h2, h3⟩
  show color_light_val r g b % 256 = color_light_val r g b
  exact Nat.mod_eq_of_lt (by omega)

theorem lightness_truncated_witness :
    0 < 256 ∧ 72 < 256 ∧ 24 < 256 ∧
    (set_palette_color color_light_val 0 72 24).L = color_light_val 0 72 24 ∧
    color_light_val 0 72 24 = 44 ∧
    (2989 * 0 + 5870 * 72 + 1140 * 24) / 10000 = 45 ∧
    (2989 * 0 + 5870 * 72 + 1140 * 24) / 10000 ≤ color_light_val 0 72 24 + 1 :=
  ⟨by decide, by decide, by decide,
    (lightness_truncated 0 72 24 (by decide) (by decide) (by decide)).1, by decide, by decide,
    (lightness_truncated 0 72 24 (by decide) (by decide) (by decide)).2.2.2.1⟩

/-! ## Plain conversion: the bytes of a uniform tile (C30) -/

theorem rd_wr_lt (m : List Nat) (i v : Nat) (hv : v < 256) (hm : ∀ p, rd m p < 256) :
    ∀ p, rd (wr m i v) p < 256 := by
  intro p
  rw [rd_wr]
  split_ifs
  · exact hv
  · exact hm p

/-- A call of `set_tile_pixel` keeps every tile byte below 256. -/
theorem set_tile_pixel_byte_lt (data : PICDATA) (tile x y c : Nat)
    (hm : ∀ p, rd data.tiles p < 256) :
    ∀ p, rd (set_tile_pixel data tile x y c).tiles p < 256 := by
  by_cases hguard : tile ≥ data.cols * data.rows ∨ x ≥ 8 ∨ y ≥ data.tileh ∨ c ≥ 4
  · simp only [set_tile_pixel, if_pos hguard]
    exact hm
  · simp only [set_tile_pixel, if_neg hguard]
    have hx : x < 8 := by omega
    have hmask : 0x80 >>> x < 256 := by
      rw [Nat.shiftRight_eq_div_pow]
      exact lt_of_le_of_lt (Nat.div_le_self _ _) (by decide)
    have hnot : 0xFF ^^^ (0x80 >>> x) < 256 := Nat.xor_lt_two_pow (n := 8) (by decide) hmask
    have hand : ∀ v : Nat, v &&& (0xFF ^^^ (0x80 >>> x)) < 256 := fun v =>
      lt_of_le_of_lt Nat.and_le_right hnot
    have hor : ∀ v : Nat, v < 256 → v ||| (0x80 >>> x) < 256 := fun v hv =>
      Nat.or_lt_two_pow (n := 8) hv hmask
    generalize tile * data.tileh * 2 + y * 2 = base
    have h1 := rd_wr_lt data.tiles base (rd data.tiles base &&& (0xFF ^^^ (0x80 >>> x)))
      (hand _) hm
    generalize wr data.tiles base (rd data.tiles base &&& (0xFF ^^^ (0x80 >>> x))) = t1 at h1 ⊢
    have h2 := rd_wr_lt t1 (base + 1) (rd t1 (base + 1) &&& (0xFF ^^^ (0x80 >>> x)))
      (hand _) h1
    generalize wr t1 (base + 1) (rd t1 (base + 1) &&& (0xFF ^^^ (0x80 >>> x))) = t2 at h2 ⊢
    have h3 : ∀ p, rd (if c &&& 1 ≠ 0 then wr t2 base (rd t2 base ||| 0x80 >>> x) else t2) p
        < 256 := by
      split_ifs
      · exact rd_wr_lt _ _ _ (hor _ (h2 _)) h2
      · exact h2
    generalize (if c &&& 1 ≠ 0 then wr t2 base (rd t2 base ||| 0x80 >>> x) else t2) = t3
      at h3 ⊢
    split_ifs
    · exact rd_wr_lt _ _ _ (hor _ (h3 _)) h3
    · exact h3

set_option maxRecDepth 100000 in
/-- A byte whose eight bits are all equal to `q` is `0xFF` or `0x00`. -/
theorem uniform_byte : ∀ v, v < 256 → ∀ q, q < 2 →
    (∀ x, x < 8 → (v >>> (7 - x)) &&& 1 = q) → v = 255 * q := by
  decide

/-- The grid of `allocate_gb_pict` covers the image. -/
theorem allocate_gb_pict_covers (w h : Nat) (m16 : Bool) (pal0 : List Nat) :
    (allocate_gb_pict w h m16 pal0).tileh = (if m16 then 16 else 8) ∧
    w ≤ 8 * (allocate_gb_pict w h m16 pal0).cols ∧
    h ≤ (allocate_gb_pict w h m16 pal0).tileh * (allocate_gb_pict w h m16 pal0).rows := by
  have hcols : (allocate_gb_pict w h m16 pal0).cols =
      if w % 8 = 0 then w / 8 else w / 8 + 1 := rfl
  have hth : (allocate_gb_pict w h m16 pal0).tileh = if m16 then 16 else 8 := rfl
  have hrows : (allocate_gb_pict w h m16 pal0).rows =
      if h % (if m16 then 16 else 8) = 0 then h / (if m16 then 16 else 8)
      else h / (if m16 then 16 else 8) + 1 := rfl
  refine ⟨hth, ?_, ?_⟩
  · rw [hcols]; split_ifs <;> omega
  · rw [hrows, hth]; cases m16 <;> simp <;> split_ifs <;> omega

/-- The pixels of a tile that lies entirely inside the image are among those the pixel loop
draws: none of them is in the part of the stream the truncated byte count leaves out. -/
theorem full_tile_pixel_drawn (w h d th tx ty x y : Nat)
    (hd : d = 1 ∨ d = 2 ∨ d = 4 ∨ d = 8) (hth : th = 8 ∨ th = 16)
    (htx : 8 * tx + 8 ≤ w) (hty : th * ty + th ≤ h) (hx : x < 8) (hy : y < th) :
    (th * ty + y) * w + (8 * tx + x) < w * h / (8 / d) * (8 / d) := by
  have hppb : 0 < 8 / d ∧ 8 / d ≤ 8 ∧ 8 / d ∣ 8 := by
    rcases hd with rfl | rfl | rfl | rfl <;> decide
  obtain ⟨hp0, hp8, hpd⟩ := hppb
  generalize 8 / d = ppb at hp0 hp8 hpd ⊢
  have hdm := Nat.div_add_mod (w * h) ppb
  have hml := Nat.mod_lt (w * h) hp0
  have e : w * h / ppb * ppb = ppb * (w * h / ppb) := Nat.mul_comm _ _
  rw [e]
  by_cases hlast : th * ty + th = h
  · have h8 : 8 ∣ h := by
      rw [← hlast]
      rcases hth with rfl | rfl
      · exact ⟨ty + 1, by ring⟩
      · exact ⟨2 * ty + 2, by ring⟩
    have hdv : ppb ∣ w * h := Dvd.dvd.mul_left (hpd.trans h8) w
    have hz : w * h % ppb = 0 := Nat.mod_eq_zero_of_dvd hdv
    have h1 : (th * ty + y + 1) * w ≤ h * w := Nat.mul_le_mul_right _ (by omega)
    have h2 : (th * ty + y + 1) * w = (th * ty + y) * w + w := by ring
    have h3 : h * w = w * h := Nat.mul_comm _ _
    omega
  · have h1 : (th * ty + y + 2) * w ≤ h * w := Nat.mul_le_mul_right _ (by omega)
    have h2 : (th * ty + y + 2) * w = (th * ty + y) * w + 2 * w := by ring
    have h3 : h * w = w * h := Nat.mul_comm _ _
    omega

/-- The bytes of a uniform tile: when every pixel of a tile that lies inside the image maps
to colour `c`, the pixel loop leaves `0xFF` or `0x00` in every byte of the low plane
according to bit 0 of `c`, and in every byte of the high plane according to bit 1. -/
theorem uniform_tile_bytes (image : List Nat) (w h d : Nat) (pm : List Nat) (m16 : Bool)
    (pal0 : List Nat) (tx ty c : Nat)
    (hd : d = 1 ∨ d = 2 ∨ d = 4 ∨ d = 8) (himg : ∀ b, rd image b < 256)
    (hmap : ∀ i, rd pm i < 4)
    (htx : 8 * tx + 8 ≤ w)
    (hty : (allocate_gb_pict w h m16 pal0).tileh * ty + (allocate_gb_pict w h m16 pal0).tileh ≤ h)
    (hsrc : ∀ x y, x < 8 → y < (allocate_gb_pict w h m16 pal0).tileh →
      rd pm (source_index image w d (8 * tx + x)
        ((allocate_gb_pict w h m16 pal0).tileh * ty + y)) = c) :
    ∀ j, j < (allocate_gb_pict w h m16 pal0).tileh →
      rd (pixel_loop image w h d pm (allocate_gb_pict w h m16 pal0)).tiles
          ((ty * (allocate_gb_pict w h m16 pal0).cols + tx) *
            (allocate_gb_pict w h m16 pal0).tileh * 2 + j * 2) =
        (if c &&& 1 ≠ 0 then 0xFF else 0x00) ∧
      rd (pixel_loop image w h d pm (allocate_gb_pict w h m16 pal0)).tiles
          ((ty * (allocate_gb_pict w h m16 pal0).cols + tx) *
            (allocate_gb_pict w h m16 pal0).tileh * 2 + j * 2 + 1) =
        (if c &&& 2 ≠ 0 then 0xFF else 0x00) := by
  obtain ⟨hth, hcols, hrows⟩ := allocate_gb_pict_covers w h m16 pal0
  have hwf := allocate_gb_pict_wf w h m16 pal0
  have hzero : ∀ p, rd (allocate_gb_pict w h m16 pal0).tiles p < 256 := by
    intro p
    have e : (allocate_gb_pict w h m16 pal0).tiles =
        List.replicate ((allocate_gb_pict w h m16 pal0).cols *
          (allocate_gb_pict w h m16 pal0).rows * (allocate_gb_pict w h m16 pal0).tileh * 2)
          0 := rfl
    rw [e, rd_replicate_zero]
    decide
  generalize allocate_gb_pict w h m16 pal0 = pic0 at *
  have hth' : pic0.tileh = 8 ∨ pic0.tileh = 16 := by
    rw [hth]; cases m16 <;> simp
  have hth0 : 0 < pic0.tileh := by omega
  have hlt := pixel_loop_inv (fun res => ∀ p, rd res.tiles p < 256) image w h d pm pic0
    (fun res k c hres _ => set_tile_pixel_byte_lt res _ _ _ c hres) hzero
  obtain ⟨-, -, -, -, hdrawn⟩ :=
    pixel_loop_written image w h d pm pic0 hd himg hmap hwf hth0 hcols hrows
  generalize pixel_loop image w h d pm pic0 = res at hlt hdrawn ⊢
  have hw0 : 0 < w := by omega
  have hpix : ∀ x y, x < 8 → y < pic0.tileh →
      decode_pixel res.tiles pic0.tileh (ty * pic0.cols + tx) x y = c := by
    intro x y hx hy
    have hk := full_tile_pixel_drawn w h d pic0.tileh tx ty x y hd hth' htx hty hx hy
    have hX : 8 * tx + x < w := by omega
    have e1 : ((pic0.tileh * ty + y) * w + (8 * tx + x)) % w = 8 * tx + x := by
      rw [Nat.add_comm, Nat.add_mul_mod_self_right, Nat.mod_eq_of_lt hX]
    have e2 : ((pic0.tileh * ty + y) * w + (8 * tx + x)) / w = pic0.tileh * ty + y := by
      rw [Nat.add_comm, Nat.add_mul_div_right _ _ hw0, Nat.div_eq_of_lt hX, Nat.zero_add]
    have e3 : (pic0.tileh * ty + y) / pic0.tileh = ty := by
      rw [Nat.add_comm, Nat.add_mul_div_left _ _ hth0, Nat.div_eq_of_lt hy, Nat.zero_add]
    have e4 : (pic0.tileh * ty + y) % pic0.tileh = y := by
      rw [Nat.add_comm, Nat.add_mul_mod_self_left, Nat.mod_eq_of_lt hy]
    have e5 : (8 * tx + x) / 8 = tx := by omega
    have e6 : (8 * tx + x) % 8 = x := by omega
    have := hdrawn _ hk
    rw [e1, e2, e3, e4, e5, e6] at this
    rw [this]
    exact hsrc x y hx hy
  have hc4 : c < 4 := by
    rw [← hsrc 0 0 (by decide) hth0]
    exact hmap _
  intro j hj
  have hbits : ∀ x, x < 8 →
      (rd res.tiles ((ty * pic0.cols + tx) * pic0.tileh * 2 + j * 2) >>> (7 - x)) &&& 1 = c % 2 ∧
      (rd res.tiles ((ty * pic0.cols + tx) * pic0.tileh * 2 + j * 2 + 1) >>> (7 - x)) &&& 1 =
        c / 2 := by
    intro x hx
    have := hpix x j hx hj
    unfold decode_pixel at this
    dsimp only at this
    have b1 := Nat.and_one_is_mod
      (rd res.tiles ((ty * pic0.cols + tx) * pic0.tileh * 2 + j * 2) >>> (7 - x))
    have b2 := Nat.and_one_is_mod
      (rd res.tiles ((ty * pic0.cols + tx) * pic0.tileh * 2 + j * 2 + 1) >>> (7 - x))
    omega
  have lo := uniform_byte _ (hlt _) (c % 2) (by omega) (fun x hx => (hbits x hx).1)
  have hi := uniform_byte _ (hlt _) (c / 2) (by omega) (fun x hx => (hbits x hx).2)
  rw [lo, hi]
  have : c = 0 ∨ c = 1 ∨ c = 2 ∨ c = 3 := by omega
  rcases this with rfl | rfl | rfl | rfl <;> decide

theorem rd_lt_of_forall_mem (l : List Nat) (k : Nat) (h : ∀ v ∈ l, v < k) (hk : 0 < k) :
    ∀ b, rd l b < k := by
  intro b
  unfold rd
  rw [List.getD_eq_getElem?_getD]
  by_cases hb : b < l.length
  · rw [List.getElem?_eq_getElem hb]
    exact h _ (List.getElem_mem hb)
  · rw [List.getElem?_eq_none (by omega)]
    exact hk

/-- C30. Plain non-grayscale BKG/WINDOW conversion keeps indices: with grayscale and
`sort_palette` unset, a target other than sprite and a source palette of `n <= 4` colours,
the reconciliation ends with the source palette as target palette (`target[i] = source[i]`)
and the identity as `palette_map`; consequently, for a tile `(tx, ty)` that lies inside the
image and whose `8 x tileh` pixels all have source index `c < n`, the pixel loop leaves every
even byte of the tile equal to `0xFF` if `c & 1` else `0x00` and every odd byte equal to
`0xFF` if `c & 2` else `0x00`. -/
theorem plain_conversion_keeps_indices (lv : Nat → Nat → Nat → Nat) (opts : OPTIONS)
    (pp : List Nat) (n : Nat) (hn1 : 1 ≤ n) (hn4 : n ≤ 4) (hg : opts.grayscale = false)
    (hs : opts.sort_palette = false) (hty : opts.type ≠ TARGET_SPRITE) :
    process_image_palette lv opts LCT_PALETTE pp n =
      Outcome.ok { palette := load_palette lv pp n, palette_map := identity_map n,
                   tColors := n, transparent := opts.transparent, baseColor := 0 } ∧
    (identity_map n).length = n ∧
    (∀ c, c < n → rd (identity_map n) c = c) ∧
    ∀ (image : List Nat) (w h d : Nat) (pal0 : List Nat) (tx ty c : Nat),
      (d = 1 ∨ d = 2 ∨ d = 4 ∨ d = 8) → (∀ b, rd image b < 256) →
      8 * tx + 8 ≤ w →
      (allocate_gb_pict w h (is8x16Mode opts) pal0).tileh * ty +
        (allocate_gb_pict w h (is8x16Mode opts) pal0).tileh ≤ h →
      c < n →
      (∀ x, x < 8 → ∀ y, y < (allocate_gb_pict w h (is8x16Mode opts) pal0).tileh →
        source_index image w d (8 * tx + x)
          ((allocate_gb_pict w h (is8x16Mode opts) pal0).tileh * ty + y) = c) →
      ∀ j, j < (allocate_gb_pict w h (is8x16Mode opts) pal0).tileh →
        rd (pixel_loop image w h d (identity_map n)
            (allocate_gb_pict w h (is8x16Mode opts) pal0)).tiles
          ((ty * (allocate_gb_pict w h (is8x16Mode opts) pal0).cols + tx) *
            (allocate_gb_pict w h (is8x16Mode opts) pal0).tileh * 2 + j * 2) =
          (if c &&& 1 ≠ 0 then 0xFF else 0x00) ∧
        rd (pixel_loop image w h d (identity_map n)
            (allocate_gb_pict w h (is8x16Mode opts) pal0)).tiles
          ((ty * (allocate_gb_pict w h (is8x16Mode opts) pal0).cols + tx) *
            (allocate_gb_pict w h (is8x16Mode opts) pal0).tileh * 2 + j * 2 + 1) =
          (if c &&& 2 ≠ 0 then 0xFF else 0x00) := by
  have hid : ∀ c, c < n → rd (identity_map n) c = c := by
    intro c hc
    rw [rd_identity_map n c hc]
    omega
  have hmap : ∀ i, rd (identity_map n) i < 4 := by
    intro i
    by_cases hi : i < n
    · rw [hid i hi]; omega
    · rw [rd_of_le _ _ (by rw [length_identity_map]; omega)]
      decide
  refine ⟨?_, length_identity_map n, hid, ?_⟩
  · unfold process_image_palette
    dsimp only
    rw [if_neg (by simp), if_neg (by omega), if_neg (by simp [hg]), if_neg hty, if_neg hty,
      if_neg hty, if_neg (by simp [hs])]
    unfold resolve_transparent
    rw [if_neg hty]
  · intro image w h d pal0 tx ty c hd himg htx hty' hc hsrc
    exact uniform_tile_bytes image w h d (identity_map n) (is8x16Mode opts) pal0 tx ty c hd himg
      hmap htx hty' (fun x y hx hy => by rw [hsrc x hx y hy, hid c hc])

theorem plain_conversion_keeps_indices_witness :
    1 ≤ 2 ∧ 2 ≤ 4 ∧ reset_opts.grayscale = false ∧ reset_opts.sort_palette = false ∧
    reset_opts.type ≠ TARGET_SPRITE ∧
    process_image_palette color_light_val reset_opts LCT_PALETTE
        [255, 255, 255, 255, 0, 0, 0, 255] 2 =
      Outcome.ok { palette := load_palette color_light_val [255, 255, 255, 255, 0, 0, 0, 255] 2,
                   palette_map := identity_map 2, tColors := 2,
                   transparent := reset_opts.transparent, baseColor := 0 } ∧
    ∀ j, j < (allocate_gb_pict 16 8 (is8x16Mode reset_opts) [0, 0, 0, 0]).tileh →
      rd (pixel_loop [0, 255, 0, 255, 0, 255, 0, 255, 0, 255, 0, 255, 0, 255, 0, 255] 16 8 1
          (identity_map 2) (allocate_gb_pict 16 8 (is8x16Mode reset_opts) [0, 0, 0, 0])).tiles
        ((0 * (allocate_gb_pict 16 8 (is8x16Mode reset_opts) [0, 0, 0, 0]).cols + 1) *
          (allocate_gb_pict 16 8 (is8x16Mode reset_opts) [0, 0, 0, 0]).tileh * 2 + j * 2) =
        (if 1 &&& 1 ≠ 0 then 0xFF else 0x00) ∧
      rd (pixel_loop [0, 255, 0, 255, 0, 255, 0, 255, 0, 255, 0, 255, 0, 255, 0, 255] 16 8 1
          (identity_map 2) (allocate_gb_pict 16 8 (is8x16Mode reset_opts) [0, 0, 0, 0])).tiles
        ((0 * (allocate_gb_pict 16 8 (is8x16Mode reset_opts) [0, 0, 0, 0]).cols + 1) *
          (allocate_gb_pict 16 8 (is8x16Mode reset_opts) [0, 0, 0, 0]).tileh * 2 + j * 2 + 1) =
        (if 1 &&& 2 ≠ 0 then 0xFF else 0x00) :=
  ⟨by decide, by decide, by decide, by decide, by decide,
    (plain_conversion_keeps_indices color_light_val reset_opts [255, 255, 255, 255, 0, 0, 0, 255] 2
      (by decide) (by decide) (by decide) (by decide) (by decide)).1,
    (plain_conversion_keeps_indices color_light_val reset_opts [255, 255, 255, 255, 0, 0, 0, 255] 2
      (by decide) (by decide) (by decide) (by decide) (by decide)).2.2.2
      [0, 255, 0, 255, 0, 255, 0, 255, 0, 255, 0, 255, 0, 255, 0, 255] 16 8 1 [0, 0, 0, 0] 1 0 1
      (by decide) (rd_lt_of_forall_mem _ 256 (by decide) (by decide)) (by decide) (by decide)
      (by decide) (by decide)⟩

/-! ## Nearest shade is monotone (C36) -/

set_option maxRecDepth 100000 in
/-- The result of `match_lightness` on the four shades, by thresholds: the shade changes at
the lightness values 214, 127 and 41. -/
theorem match_lightness_four_thresholds (L : Nat) (hL : L < 256) :
    match_lightness L [WHITE_VAL, LIGHTGRAY_VAL, DARKGRAY_VAL, BLACK_VAL] 4 =
      if 214 ≤ L then 0 else if 127 ≤ L then 1 else if 41 ≤ L then 2 else 3 := by
  revert L
  decide

set_option maxRecDepth 100000 in
/-- The result of `match_lightness` on the three shades left without white. -/
theorem match_lightness_three_thresholds (L : Nat) (hL : L < 256) :
    match_lightness L ([WHITE_VAL, LIGHTGRAY_VAL, DARKGRAY_VAL, BLACK_VAL].drop 1) 3 =
      if 127 ≤ L then 0 else if 41 ≤ L then 1 else 2 := by
  revert L
  decide

/-- The result of `intensity_to_shades` by thresholds, in both modes. -/
theorem intensity_to_shades_thresholds (opts : OPTIONS) (L : Nat) (hL : L < 256) :
    intensity_to_shades opts L =
      if opts.type = TARGET_SPRITE then (if 127 ≤ L then 1 else if 41 ≤ L then 2 else 3)
      else (if 214 ≤ L then 0 else if 127 ≤ L then 1 else if 41 ≤ L then 2 else 3) := by
  unfold intensity_to_shades
  dsimp only
  by_cases hs : opts.type = TARGET_SPRITE
  · rw [if_pos hs, if_pos hs, match_lightness_three_thresholds L hL]
    split_ifs <;> rfl
  · rw [if_neg hs, if_neg hs, match_lightness_four_thresholds L hL]

/-- C36. Nearest-shade is monotone: for all lightness values `L1 <= L2` in 0..255 and in
either mode, `intensity_to_shades(L1) >= intensity_to_shades(L2)`; and for every `L` the
sprite-mode result is `max(1, non-sprite result)`. -/
theorem nearest_shade_monotone (opts sprite plain : OPTIONS) (L1 L2 : Nat) (h12 : L1 ≤ L2)
    (h2 : L2 < 256) (hs : sprite.type = TARGET_SPRITE) (hp : plain.type ≠ TARGET_SPRITE) :
    intensity_to_shades opts L2 ≤ intensity_to_shades opts L1 ∧
    intensity_to_shades sprite L1 = max 1 (intensity_to_shades plain L1) ∧
    intensity_to_shades sprite L2 = max 1 (intensity_to_shades plain L2) := by
  rw [intensity_to_shades_thresholds opts L1 (by omega),
    intensity_to_shades_thresholds opts L2 h2,
    intensity_to_shades_thresholds sprite L1 (by omega),
    intensity_to_shades_thresholds sprite L2 h2,
    intensity_to_shades_thresholds plain L1 (by omega),
    intensity_to_shades_thresholds plain L2 h2, if_pos hs, if_neg hp]
  refine ⟨?_, ?_, ?_⟩
  · split_ifs <;> omega
  · split_ifs <;> first | rfl | omega
  · split_ifs <;> first | rfl | omega

theorem nearest_shade_monotone_witness :
    126 ≤ 127 ∧ 127 < 256 ∧
    { reset_opts with type := TARGET_SPRITE }.type = TARGET_SPRITE ∧
    reset_opts.type ≠ TARGET_SPRITE ∧
    intensity_to_shades reset_opts 127 ≤ intensity_to_shades reset_opts 126 ∧
    intensity_to_shades { reset_opts with type := TARGET_SPRITE } 126 =
      max 1 (intensity_to_shades reset_opts 126) ∧
    intensity_to_shades { reset_opts with type := TARGET_SPRITE } 127 =
      max 1 (intensity_to_shades reset_opts 127) :=
  ⟨by decide, by decide, by decide, by decide,
    nearest_shade_monotone reset_opts { reset_opts with type := TARGET_SPRITE } reset_opts
      126 127 (by decide) (by decide) (by decide) (by decide)⟩

/-! ## No opaque colour becomes transparent (C32) -/

/-- A swap of two target indices other than 0 leaves the entries of the map that are 0
where they are. -/
theorem swap_palette_indexes_zero_iff (m : List Nat) (a b k : Nat) (ha : a ≠ 0) (hb : b ≠ 0)
    (c : Nat) : rd (swap_palette_indexes m a b k) c = 0 ↔ rd m c = 0 := by
  rw [(swap_palette_indexes_spec m a b k).2 c]
  split_ifs with h1 h2 h3
  · constructor
    · intro h; exact absurd h hb
    · intro h; exact absurd (h2.symm.trans h) ha
  · constructor
    · intro h; exact absurd h ha
    · intro h; exact absurd (h3.symm.trans h) hb
  · exact Iff.rfl
  · exact Iff.rfl

/-- In sprite mode, on the non-grayscale path, the palette map after the reconciliation is 0
at the resolved transparency index and nowhere else. -/
theorem reconcile_zero_only (lv : Nat → Nat → Nat → Nat) (opts : OPTIONS) (pp : List Nat)
    (n : Nat) (hs : opts.type = TARGET_SPRITE) (hn1 : 1 ≤ n) (hn4 : n ≤ 4)
    (hg : opts.grayscale = false) :
    ∃ st, process_image_palette lv opts LCT_PALETTE pp n = Outcome.ok st ∧
      ∀ c, c < n → (rd st.palette_map c = 0 ↔
        (c : Int) = resolve_transparent opts (load_palette lv pp n) n) := by
  obtain ⟨t0, tn⟩ := resolve_transparent_range opts (load_palette lv pp n) n hs hn1
  have hid : ∀ c, c < n → rd (identity_map n) c = c := by
    intro c hc
    rw [rd_identity_map n c hc]
    omega
  have hstart : ∀ c, c < n →
      (rd (swap_palette_indexes (identity_map n) 0
        ((resolve_transparent opts (load_palette lv pp n) n).toNat % 256) (n % 256)) c = 0 ↔
        (c : Int) = resolve_transparent opts (load_palette lv pp n) n) := by
    intro c hc
    generalize resolve_transparent opts (load_palette lv pp n) n = t at t0 tn ⊢
    have e1 : t.toNat % 256 = t.toNat := by omega
    have e2 : n % 256 = n := by omega
    rw [(swap_palette_indexes_spec _ _ _ _).2 c, length_identity_map, e1, e2,
      if_pos ⟨hc, hc⟩, hid c hc]
    split_ifs <;> omega
  unfold process_image_palette
  dsimp only
  rw [if_neg (by simp), if_neg (by omega), if_neg (by simp [hg]), if_pos hs, if_pos hs, if_pos hs]
  generalize hm1 : swap_palette_indexes (identity_map n) 0
    ((resolve_transparent opts (load_palette lv pp n) n).toNat % 256) (n % 256) = m1 at hstart ⊢
  generalize swap_palette_entries (load_palette lv pp n) 0
    (resolve_transparent opts (load_palette lv pp n) n).toNat = pal1
  generalize resolve_transparent opts (load_palette lv pp n) n = t at hstart ⊢
  by_cases hsort : opts.sort_palette = true
  · rw [if_pos hsort]
    by_cases hlt : n < 4
    · rw [if_pos hlt]
      refine ⟨_, rfl, ?_⟩
      dsimp only
      unfold place_by_shade
      dsimp only
      refine loop_inv (fun _ (st : List RGB_PALETTE_ENTRY × List Nat) =>
        ∀ c, c < n → (rd st.2 c = 0 ↔ (c : Int) = t)) _ _ _ hstart ?_
      intro k st hk hst c hc
      dsimp only
      have hnew := intensity_to_shades_lt opts (prd st.1 (1 + k)).L
      have hpos := intensity_to_shades_sprite_pos opts hs (prd st.1 (1 + k)).L
      rw [swap_palette_indexes_zero_iff _ _ _ _ (by omega) (by omega)]
      exact hst c hc
    · rw [if_neg hlt]
      obtain ⟨r, hr, hP⟩ := sort_palette_rule
        (fun _ m => ∀ c, c < n → (rd m c = 0 ↔ (c : Int) = t))
        (n % 256) 1
        (by
          intro pal m i hP h1 h2 c hc
          rw [swap_palette_indexes_zero_iff _ _ _ _ (by omega) (by omega)]
          exact hP c hc)
        pal1 m1 hstart
      rw [hr]
      exact ⟨_, rfl, hP⟩
  · rw [if_neg hsort]
    exact ⟨_, rfl, hstart⟩

/-- C32. No opaque colour becomes transparent: in sprite mode, for every accepted source
palette (`n <= 4`, or any `n >= 1` with the grayscale flag) and every flag combination, the
reconciliation ends normally and `palette_map[c] == 0` holds exactly when `c` is the
resolved transparency index; every other source index maps into 1..3. -/
theorem opaque_never_transparent (lv : Nat → Nat → Nat → Nat) (opts : OPTIONS) (pp : List Nat)
    (n : Nat) (hs : opts.type = TARGET_SPRITE) (hn1 : 1 ≤ n)
    (hacc : n ≤ 4 ∨ opts.grayscale = true) :
    ∃ st, process_image_palette lv opts LCT_PALETTE pp n = Outcome.ok st ∧
      st.transparent = resolve_transparent opts (load_palette lv pp n) n ∧
      ∀ c, c < n →
        (rd st.palette_map c = 0 ↔ (c : Int) = st.transparent) ∧
        ((c : Int) ≠ st.transparent → 1 ≤ rd st.palette_map c ∧ rd st.palette_map c ≤ 3) := by
  obtain ⟨st, hst, htr, -, -, -, hrange, -⟩ := process_image_palette_ok lv opts pp n hn1 hacc
  have hiff : ∀ c, c < n → (rd st.palette_map c = 0 ↔
      (c : Int) = resolve_transparent opts (load_palette lv pp n) n) := by
    by_cases hg : opts.grayscale = true
    · have e : process_image_palette lv opts LCT_PALETTE pp n =
          Outcome.ok
            { palette := create_gb_gray_pal lv,
              palette_map := grayscale_map opts (load_palette lv pp n)
                (resolve_transparent opts (load_palette lv pp n) n) n (identity_map n),
              tColors := 4,
              transparent := resolve_transparent opts (load_palette lv pp n) n,
              baseColor := 0 } := by
        unfold process_image_palette
        dsimp only
        rw [if_neg (by simp), if_neg (by simp [hg]), if_pos hg]
      rw [e] at hst
      injection hst with hst
      subst hst
      intro c hc
      dsimp only
      rw [(grayscale_map_spec _ _ _ _ _).2 c hc (by rw [length_identity_map]; exact hc)]
      have hpos := intensity_to_shades_sprite_pos opts hs (prd (load_palette lv pp n) c).L
      split_ifs with h
      · exact ⟨fun _ => h.2, fun _ => rfl⟩
      · exact ⟨fun h0 => absurd h0 hpos, fun h0 => absurd ⟨hs, h0⟩ h⟩
    · have hg' : opts.grayscale = false := by simpa using hg
      have hn4 : n ≤ 4 := by
        rcases hacc with h | h
        · exact h
        · exact absurd h hg
      obtain ⟨st', hst', hz⟩ := reconcile_zero_only lv opts pp n hs hn1 hn4 hg'
      rw [hst] at hst'
      injection hst' with hst'
      subst hst'
      exact hz
  refine ⟨st, hst, htr, fun c hc => ?_⟩
  rw [htr]
  refine ⟨hiff c hc, fun hne => ?_⟩
  have h4 := hrange c hc
  have h0 : rd st.palette_map c ≠ 0 := fun h => hne ((hiff c hc).1 h)
  omega

theorem opaque_never_transparent_witness :
    { reset_opts with type := TARGET_SPRITE, transparent := 1,
                      sort_palette := true }.type = TARGET_SPRITE ∧
    1 ≤ 3 ∧
    (3 ≤ 4 ∨ { reset_opts with type := TARGET_SPRITE, transparent := 1,
                               sort_palette := true }.grayscale = true) ∧
    process_image_palette color_light_val
        { reset_opts with type := TARGET_SPRITE, transparent := 1, sort_palette := true }
        LCT_PALETTE [10, 10, 10, 255, 250, 250, 250, 255, 130, 130, 130, 255] 3 =
      Outcome.ok
        { palette := [⟨250, 250, 250, 249⟩, ⟨130, 130, 130, 129⟩, ⟨0, 0, 0, 0⟩, ⟨10, 10, 10, 9⟩],
          palette_map := [3, 0, 1], tColors := 4, transparent := 1, baseColor := 1 } ∧
    ∃ st, process_image_palette color_light_val
        { reset_opts with type := TARGET_SPRITE, transparent := 1, sort_palette := true }
        LCT_PALETTE [10, 10, 10, 255, 250, 250, 250, 255, 130, 130, 130, 255] 3 =
          Outcome.ok st ∧
      st.transparent = resolve_transparent
        { reset_opts with type := TARGET_SPRITE, transparent := 1, sort_palette := true }
        (load_palette color_light_val [10, 10, 10, 255, 250, 250, 250, 255, 130, 130, 130, 255] 3)
        3 ∧
      ∀ c, c < 3 →
        (rd st.palette_map c = 0 ↔ (c : Int) = st.transparent) ∧
        ((c : Int) ≠ st.transparent → 1 ≤ rd st.palette_map c ∧ rd st.palette_map c ≤ 3) :=
  ⟨by decide, by decide, by decide, by decide,
    opaque_never_transparent color_light_val
      { reset_opts with type := TARGET_SPRITE, transparent := 1, sort_palette := true }
      [10, 10, 10, 255, 250, 250, 250, 255, 130, 130, 130, 255] 3 (by decide) (by decide)
      (by decide)⟩

/-! ## The pixel loop: no call is dropped at the guard (C33) -/

/-- Two loops whose states correspond through `f` end in corresponding states. -/
theorem loop_map {σ τ : Type} (f : σ → τ) (n : Nat) (b1 : Nat → σ → σ) (b2 : Nat → τ → τ)
    (h : ∀ i s, i < n → f (b1 i s) = b2 i (f s)) (s : σ) :
    f (loop n b1 s) = loop n b2 (f s) := by
  induction n with
  | zero => rfl
  | succ k ih =>
    rw [loop_succ, loop_succ, h k _ (Nat.lt_succ_self k),
      ih (fun i s hi => h i s (Nat.lt_succ_of_lt hi))]

/-- The picture of `pixel_loop_calls` is the picture of `pixel_loop`. -/
theorem pixel_loop_calls_picture (image : List Nat) (w h d : Nat) (pm : List Nat)
    (pic0 : PICDATA) :
    (pixel_loop_calls image w h d pm pic0).1 = pixel_loop image w h d pm pic0 := by
  unfold pixel_loop_calls pixel_loop
  dsimp only
  refine loop_map (fun out : PICDATA × List (Nat × Nat × Nat × Nat) => out.1) _ _ _ ?_ _
  intro b out _
  dsimp only
  have inner := loop_map
    (fun st : Nat × PICDATA × List (Nat × Nat × Nat × Nat) => (st.1, st.2.1)) (8 / d)
    (fun pix (st : Nat × PICDATA × List (Nat × Nat × Nat × Nat)) =>
      ((st.1 <<< d) % 256,
        set_tile_pixel st.2.1
          ((b * (8 / d) + pix) / w / st.2.1.tileh * st.2.1.cols + (b * (8 / d) + pix) % w / 8)
          ((b * (8 / d) + pix) % w % 8) ((b * (8 / d) + pix) / w % st.2.1.tileh)
          (rd pm (st.1 >>> (8 - d))),
        st.2.2 ++ [((b * (8 / d) + pix) / w / st.2.1.tileh * st.2.1.cols +
            (b * (8 / d) + pix) % w / 8,
          (b * (8 / d) + pix) % w % 8, (b * (8 / d) + pix) / w % st.2.1.tileh,
          rd pm (st.1 >>> (8 - d)))]))
    (fun pix (st : Nat × PICDATA) =>
      ((st.1 <<< d) % 256,
        set_tile_pixel st.2
          ((b * (8 / d) + pix) / w / st.2.tileh * st.2.cols + (b * (8 / d) + pix) % w / 8)
          ((b * (8 / d) + pix) % w % 8) ((b * (8 / d) + pix) / w % st.2.tileh)
          (rd pm (st.1 >>> (8 - d)))))
    (fun _ _ _ => rfl) (rd image b, out.1, out.2)
  exact congrArg Prod.snd inner

/-- The arguments the pixel loop computes for pixel `k` of the image are inside the grid. -/
theorem pixel_call_bounds (w h cols rows th k : Nat) (hth : 0 < th) (hcols : w ≤ 8 * cols)
    (hrows : h ≤ th * rows) (hk : k < w * h) :
    k / w / th * cols + k % w / 8 < cols * rows ∧ k % w % 8 < 8 ∧ k / w % th < th := by
  have hw : 0 < w := by
    rcases Nat.eq_zero_or_pos w with e | e
    · subst e; simp at hk
    · exact e
  have hx : k % w < w := Nat.mod_lt _ hw
  have hy : k / w < h := Nat.div_lt_of_lt_mul hk
  have htx : k % w / 8 < cols := Nat.div_lt_of_lt_mul (by omega)
  have hty : k / w / th < rows := Nat.div_lt_of_lt_mul (by omega)
  refine ⟨?_, Nat.mod_lt _ (by decide), Nat.mod_lt _ hth⟩
  have h1 : (k / w / th + 1) * cols ≤ rows * cols := Nat.mul_le_mul_right _ (by omega)
  have h2 : (k / w / th + 1) * cols = k / w / th * cols + cols := by ring
  have h3 : rows * cols = cols * rows := Nat.mul_comm _ _
  omega

/-- C33. The rasterizer never drops a pixel at the guard: given a palette map with all
values below 4 and pixel indices within the map, every call of `set_tile_pixel` issued by the
pixel loop of `process_image` on the picture of `allocate_gb_pict` has `tile < cols*rows`,
`x < 8`, `y < tileh` and `color < 4`, so the early return of `set_tile_pixel` is not taken.
`pixel_loop_calls` is the pixel loop with the list of its calls. -/
theorem rasterizer_guard_unreachable (image : List Nat) (w h d : Nat) (pm : List Nat)
    (m16 : Bool) (pal0 : List Nat) (hd : d = 1 ∨ d = 2 ∨ d = 4 ∨ d = 8)
    (himg : ∀ b, rd image b < 256) (hmap : ∀ i, i < pm.length → rd pm i < 4)
    (hidx : ∀ k, k < w * h / (8 / d) * (8 / d) →
      source_index image w d (k % w) (k / w) < pm.length) :
    (pixel_loop_calls image w h d pm (allocate_gb_pict w h m16 pal0)).1 =
      pixel_loop image w h d pm (allocate_gb_pict w h m16 pal0) ∧
    ∀ call, call ∈ (pixel_loop_calls image w h d pm (allocate_gb_pict w h m16 pal0)).2 →
      call.1 < (allocate_gb_pict w h m16 pal0).cols * (allocate_gb_pict w h m16 pal0).rows ∧
      call.2.1 < 8 ∧ call.2.2.1 < (allocate_gb_pict w h m16 pal0).tileh ∧ call.2.2.2 < 4 := by
  refine ⟨pixel_loop_calls_picture _ _ _ _ _ _, ?_⟩
  obtain ⟨hth, hcols, hrows⟩ := allocate_gb_pict_covers w h m16 pal0
  generalize allocate_gb_pict w h m16 pal0 = pic0 at *
  have hth0 : 0 < pic0.tileh := by
    rw [hth]; cases m16 <;> simp
  have hppb : 0 < 8 / d := by
    rcases hd with rfl | rfl | rfl | rfl <;> decide
  unfold pixel_loop_calls
  dsimp only
  have key := loop_inv (fun _ (out : PICDATA × List (Nat × Nat × Nat × Nat)) =>
      out.1.cols = pic0.cols ∧ out.1.rows = pic0.rows ∧ out.1.tileh = pic0.tileh ∧
      ∀ call, call ∈ out.2 → call.1 < pic0.cols * pic0.rows ∧ call.2.1 < 8 ∧
        call.2.2.1 < pic0.tileh ∧ call.2.2.2 < 4) (w * h / (8 / d))
    (fun b (out : PICDATA × List (Nat × Nat × Nat × Nat)) =>
      (loop (8 / d) (fun pix (st : Nat × PICDATA × List (Nat × Nat × Nat × Nat)) =>
        ((st.1 <<< d) % 256,
          set_tile_pixel st.2.1
            ((b * (8 / d) + pix) / w / st.2.1.tileh * st.2.1.cols + (b * (8 / d) + pix) % w / 8)
            ((b * (8 / d) + pix) % w % 8) ((b * (8 / d) + pix) / w % st.2.1.tileh)
            (rd pm (st.1 >>> (8 - d))),
          st.2.2 ++ [((b * (8 / d) + pix) / w / st.2.1.tileh * st.2.1.cols +
              (b * (8 / d) + pix) % w / 8,
            (b * (8 / d) + pix) % w % 8, (b * (8 / d) + pix) / w % st.2.1.tileh,
            rd pm (st.1 >>> (8 - d)))]))
        (rd image b, out.1, out.2)).2) (pic0, [])
    ⟨rfl, rfl, rfl, fun call hc => by simp at hc⟩ ?_
  · exact key.2.2.2
  · rintro b out hb ⟨hc, hr, ht, hcalls⟩
    have hbound : (b + 1) * (8 / d) ≤ w * h / (8 / d) * (8 / d) := Nat.mul_le_mul_right _ hb
    have hle : w * h / (8 / d) * (8 / d) ≤ w * h := Nat.div_mul_le_self _ _
    have h3 : (b + 1) * (8 / d) = b * (8 / d) + 8 / d := by ring
    have inner := loop_inv (fun pix (st : Nat × PICDATA × List (Nat × Nat × Nat × Nat)) =>
        st.1 = (rd image b <<< (d * pix)) % 256 ∧
        st.2.1.cols = pic0.cols ∧ st.2.1.rows = pic0.rows ∧ st.2.1.tileh = pic0.tileh ∧
        ∀ call, call ∈ st.2.2 → call.1 < pic0.cols * pic0.rows ∧ call.2.1 < 8 ∧
          call.2.2.1 < pic0.tileh ∧ call.2.2.2 < 4) (8 / d)
      (fun pix (st : Nat × PICDATA × List (Nat × Nat × Nat × Nat)) =>
        ((st.1 <<< d) % 256,
          set_tile_pixel st.2.1
            ((b * (8 / d) + pix) / w / st.2.1.tileh * st.2.1.cols + (b * (8 / d) + pix) % w / 8)
            ((b * (8 / d) + pix) % w % 8) ((b * (8 / d) + pix) / w % st.2.1.tileh)
            (rd pm (st.1 >>> (8 - d))),
          st.2.2 ++ [((b * (8 / d) + pix) / w / st.2.1.tileh * st.2.1.cols +
              (b * (8 / d) + pix) % w / 8,
            (b * (8 / d) + pix) % w % 8, (b * (8 / d) + pix) / w % st.2.1.tileh,
            rd pm (st.1 >>> (8 - d)))]))
      (rd image b, out.1, out.2)
      ⟨by rw [Nat.mul_zero, Nat.shiftLeft_zero, Nat.mod_eq_of_lt (himg b)], hc, hr, ht, hcalls⟩
      (by
        rintro pix st hpix ⟨hp, sc, sr, sth, scalls⟩
        dsimp only
        have f := set_tile_pixel_fields st.2.1
          ((b * (8 / d) + pix) / w / st.2.1.tileh * st.2.1.cols + (b * (8 / d) + pix) % w / 8)
          ((b * (8 / d) + pix) % w % 8) ((b * (8 / d) + pix) / w % st.2.1.tileh)
          (rd pm (st.1 >>> (8 - d)))
        refine ⟨by rw [hp, shift_pdata], f.1.trans sc, f.2.1.trans sr, f.2.2.1.trans sth, ?_⟩
        intro call hcall
        rw [List.mem_append] at hcall
        rcases hcall with hcall | hcall
        · exact scalls call hcall
        · rw [List.mem_singleton] at hcall
          subst hcall
          dsimp only
          have hk : b * (8 / d) + pix < w * h / (8 / d) * (8 / d) := by omega
          have hb' := pixel_call_bounds w h pic0.cols pic0.rows pic0.tileh (b * (8 / d) + pix)
            hth0 hcols hrows (by omega)
          rw [sc, sth]
          refine ⟨hb'.1, hb'.2.1, hb'.2.2, ?_⟩
          have hsrc : st.1 >>> (8 - d) =
              source_index image w d ((b * (8 / d) + pix) % w) ((b * (8 / d) + pix) / w) := by
            unfold source_index
            dsimp only
            have e0 : (b * (8 / d) + pix) / w * w + (b * (8 / d) + pix) % w =
                b * (8 / d) + pix := by
              rw [Nat.mul_comm]; exact Nat.div_add_mod _ _
            have e1 : (b * (8 / d) + pix) / (8 / d) = b := by
              rw [Nat.add_comm, Nat.add_mul_div_right _ _ hppb, Nat.div_eq_of_lt hpix,
                Nat.zero_add]
            have e2 : (b * (8 / d) + pix) % (8 / d) = pix := by
              rw [Nat.add_comm, Nat.add_mul_mod_self_right, Nat.mod_eq_of_lt hpix]
            rw [e0, e1, e2, hp]
            exact unpack_pixel (rd image b) d pix (himg b) hd hpix
          rw [hsrc]
          exact hmap _ (hidx _ hk))
    exact ⟨inner.2.1, inner.2.2.1, inner.2.2.2.1, inner.2.2.2.2⟩

theorem rasterizer_guard_unreachable_witness :
    ((2 : Nat) = 1 ∨ (2 : Nat) = 2 ∨ (2 : Nat) = 4 ∨ (2 : Nat) = 8) ∧
    (∀ i, i < [0, 1, 2, 3].length → rd [0, 1, 2, 3] i < 4) ∧
    (∀ k, k < 4 * 2 / (8 / 2) * (8 / 2) →
      source_index [0x1B, 0xE4] 4 2 (k % 4) (k / 4) < [0, 1, 2, 3].length) ∧
    (pixel_loop_calls [0x1B, 0xE4] 4 2 2 [0, 1, 2, 3]
        (allocate_gb_pict 4 2 false [0, 0, 0, 0])).2 =
      [(0, 0, 0, 0), (0, 1, 0, 1), (0, 2, 0, 2), (0, 3, 0, 3),
       (0, 0, 1, 3), (0, 1, 1, 2), (0, 2, 1, 1), (0, 3, 1, 0)] ∧
    ((pixel_loop_calls [0x1B, 0xE4] 4 2 2 [0, 1, 2, 3]
        (allocate_gb_pict 4 2 false [0, 0, 0, 0])).1 =
      pixel_loop [0x1B, 0xE4] 4 2 2 [0, 1, 2, 3] (allocate_gb_pict 4 2 false [0, 0, 0, 0]) ∧
    ∀ call, call ∈ (pixel_loop_calls [0x1B, 0xE4] 4 2 2 [0, 1, 2, 3]
        (allocate_gb_pict 4 2 false [0, 0, 0, 0])).2 →
      call.1 < (allocate_gb_pict 4 2 false [0, 0, 0, 0]).cols *
        (allocate_gb_pict 4 2 false [0, 0, 0, 0]).rows ∧
      call.2.1 < 8 ∧ call.2.2.1 < (allocate_gb_pict 4 2 false [0, 0, 0, 0]).tileh ∧
      call.2.2.2 < 4) :=
  ⟨by decide, by decide, by decide, by decide,
    rasterizer_guard_unreachable [0x1B, 0xE4] 4 2 2 [0, 1, 2, 3] false [0, 0, 0, 0] (by decide)
      (rd_lt_of_forall_mem _ 256 (by decide) (by decide)) (by decide) (by decide)⟩

/-! ## Tile reduction: termination (C34), idempotence (C35), the distinct tiles (C31) -/

/-- The function `do_tile_reduction` is total: the call returns for every picture, and
`total_tiles` does not grow. -/
theorem do_tile_reduction_total (pic : PICDATA) :
    ∃ r, do_tile_reduction pic = some r ∧ r.total_tiles ≤ pic.total_tiles := by
  obtain ⟨r, _, h, -, -, hle⟩ := reduction_rule (fun _ _ _ => True) (fun _ _ => True)
    (fun _ _ _ _ => trivial) (fun _ _ _ _ _ _ => trivial) (fun _ _ _ _ _ _ => trivial)
    (fun _ _ _ _ _ => trivial) pic trivial
  exact ⟨r, h, hle⟩

/-- The inner loop of `do_tile_reduction` never returns a picture with more tiles. -/
theorem reduction_inner_le (t1 : Nat) : ∀ (fuel : Nat) (pic : PICDATA) (t2 : Nat) (r : PICDATA),
    reduction_inner fuel pic t1 t2 = some r → r.total_tiles ≤ pic.total_tiles := by
  intro fuel
  induction fuel with
  | zero =>
    intro pic t2 r h
    simp [reduction_inner] at h
  | succ k ih =>
    intro pic t2 r h
    unfold reduction_inner at h
    split_ifs at h with hlt hcmp
    · have := ih _ _ _ h
      rw [(remove_tile_fields pic t1 t2).2.2.2.1] at this
      omega
    · exact ih _ _ _ h
    · injection h with h
      rw [h]

/-- The body of the outer loop of `do_tile_reduction` runs at most `total_tiles - t1` times
from `t1` on, whatever the fuel. -/
theorem outer_iterations_le : ∀ (fuel : Nat) (pic : PICDATA) (t1 k : Nat),
    outer_iterations fuel pic t1 = some k → k ≤ pic.total_tiles - t1 := by
  intro fuel
  induction fuel with
  | zero =>
    intro pic t1 k h
    simp [outer_iterations] at h
  | succ f ih =>
    intro pic t1 k h
    unfold outer_iterations at h
    split_ifs at h with hlt
    · cases hin : reduction_inner (pic.total_tiles + 1) pic t1 (t1 + 1) with
      | none => rw [hin] at h; simp at h
      | some pic1 =>
        rw [hin] at h
        dsimp only at h
        cases hout : outer_iterations f pic1 (t1 + 1) with
        | none => rw [hout] at h; simp at h
        | some k1 =>
          rw [hout] at h
          simp only [Option.map_some', Option.some.injEq] at h
          have h1 := ih pic1 (t1 + 1) k1 hout
          have h2 := reduction_inner_le t1 _ _ _ _ hin
          omega
    · injection h with h
      omega

/-- With the fuel of `do_tile_reduction` the count of the outer loop is returned. -/
theorem outer_iterations_total : ∀ (fuel : Nat) (pic : PICDATA) (t1 : Nat),
    pic.total_tiles - t1 < fuel → ∃ k, outer_iterations fuel pic t1 = some k := by
  intro fuel
  induction fuel with
  | zero => intro pic t1 h; omega
  | succ f ih =>
    intro pic t1 h
    unfold outer_iterations
    split_ifs with hlt
    · obtain ⟨pic1, t2, hin, -, -, hle⟩ := reduction_inner_rule (fun _ _ => True) t1
        (fun _ _ _ _ _ => trivial) (fun _ _ _ _ _ => trivial) (pic.total_tiles + 1) pic (t1 + 1)
        trivial (by omega)
      rw [hin]
      dsimp only
      obtain ⟨k, hk⟩ := ih pic1 (t1 + 1) (by omega)
      rw [hk]
      exact ⟨k + 1, rfl⟩
    · exact ⟨0, rfl⟩

/-- C34. Termination of `do_tile_reduction`, for every picture (the bound
`total_tiles <= cols*rows` is not needed): the call returns; an iteration of the inner loop
with `t2 < total_tiles` either removes a tile, which lowers `total_tiles` by one and keeps
`t2`, or increases `t2`, so the measure `total_tiles - t2` strictly decreases and the inner
loop returns within `total_tiles - t2 + 1` tests of its condition; and the body of the outer
loop runs at most the initial `total_tiles` times. -/
theorem reduction_terminates (pic : PICDATA) :
    (∃ r, do_tile_reduction pic = some r) ∧
    (∀ t1 t2, t2 < pic.total_tiles →
      (remove_tile pic t1 t2).total_tiles = pic.total_tiles - 1 ∧
      (remove_tile pic t1 t2).total_tiles - t2 < pic.total_tiles - t2 ∧
      pic.total_tiles - (t2 + 1) < pic.total_tiles - t2 ∧
      reduction_inner (pic.total_tiles - t2 + 1) pic t1 t2 =
        (if compare_gb_tiles pic t1 t2 = 0 then
          reduction_inner (pic.total_tiles - t2) (remove_tile pic t1 t2) t1 t2
         else reduction_inner (pic.total_tiles - t2) pic t1 (t2 + 1)) ∧
      ∃ r, reduction_inner (pic.total_tiles - t2 + 1) pic t1 t2 = some r) ∧
    (∃ k, outer_iterations (pic.total_tiles + 1) pic 0 = some k ∧ k ≤ pic.total_tiles) ∧
    (∀ fuel k, outer_iterations fuel pic 0 = some k → k ≤ pic.total_tiles) := by
  refine ⟨?_, ?_, ?_, fun fuel k h => outer_iterations_le fuel pic 0 k h⟩
  · obtain ⟨r, h, -⟩ := do_tile_reduction_total pic
    exact ⟨r, h⟩
  · intro t1 t2 h2
    have htot := (remove_tile_fields pic t1 t2).2.2.2.1
    refine ⟨htot, by omega, by omega, ?_, ?_⟩
    · conv_lhs => unfold reduction_inner
      rw [if_pos h2]
    · obtain ⟨r, t2', hr, -⟩ := reduction_inner_rule (fun _ _ => True) t1
        (fun _ _ _ _ _ => trivial) (fun _ _ _ _ _ => trivial) (pic.total_tiles - t2 + 1) pic t2
        trivial (by omega)
      exact ⟨r, hr⟩
  · obtain ⟨k, hk⟩ := outer_iterations_total (pic.total_tiles + 1) pic 0 (by omega)
    exact ⟨k, hk, outer_iterations_le _ pic 0 k hk⟩

theorem reduction_terminates_witness :
    (∃ r, do_tile_reduction striped_pic = some r) ∧
    outer_iterations (striped_pic.total_tiles + 1) striped_pic 0 = some 2 ∧
    (∀ fuel k, outer_iterations fuel striped_pic 0 = some k → k ≤ striped_pic.total_tiles) :=
  ⟨(reduction_terminates striped_pic).1, by decide, (reduction_terminates striped_pic).2.2.2⟩

/-- Two tiles have the same bytes when their blocks are equal lists. -/
theorem tile_block_eq_iff (ta : List Nat) (a : Nat) (tb : List Nat) (b sz : Nat) :
    tile_block ta sz a = tile_block tb sz b ↔ tile_eq ta a tb b sz := by
  unfold tile_block tile_eq
  constructor
  · intro h j hj
    have := List.map_inj_left.1 h j (List.mem_range.2 hj)
    exact this
  · intro h
    exact List.map_congr_left (fun j hj => h j (List.mem_range.1 hj))

/-- A picture whose tiles are pairwise distinct is returned unchanged by
`do_tile_reduction`. -/
theorem reduction_fixed (pic : PICDATA) (hd : tiles_distinct pic) :
    do_tile_reduction pic = some pic := by
  obtain ⟨r, t1, hrun, hJ, -, -⟩ := reduction_rule
    (fun p t1 t2 => p = pic ∧ t1 < t2) (fun p _ => p = pic)
    (fun p t1 hp _ => ⟨hp, Nat.lt_succ_self t1⟩)
    (by
      rintro p t1 t2 ⟨rfl, h12⟩ h2 hcmp
      exact absurd ((compare_gb_tiles_eq_zero p t1 t2).1 hcmp).2.2.2 (hd t2 h2 t1 h12))
    (by
      rintro p t1 t2 ⟨hp, h12⟩ _ _
      exact ⟨hp, by omega⟩)
    (fun p t1 t2 hp _ => hp.1) pic rfl
  rw [hrun, hJ]

/-- What `do_tile_reduction` does to a picture with `total_tiles <= cols*rows`: it returns a
picture with the same buffer sizes and grid, whose tiles are pairwise distinct and have the
same contents, as a set, as the tiles before the call. -/
theorem reduction_summary (pic : PICDATA) (hwf : pic.wf)
    (htot : pic.total_tiles ≤ pic.cols * pic.rows) :
    ∃ r, do_tile_reduction pic = some r ∧ r.wf ∧
      (r.cols = pic.cols ∧ r.rows = pic.rows ∧ r.tileh = pic.tileh ∧ r.w = pic.w ∧
        r.h = pic.h ∧ r.pal = pic.pal) ∧
      r.total_tiles ≤ pic.total_tiles ∧ tiles_distinct r ∧
      (∀ a, a < r.total_tiles → ∃ b, b < pic.total_tiles ∧
        tile_eq r.tiles a pic.tiles b (pic.tileh * 2)) ∧
      (∀ b, b < pic.total_tiles → ∃ a, a < r.total_tiles ∧
        tile_eq r.tiles a pic.tiles b (pic.tileh * 2)) := by
  obtain ⟨r, t1, hrun, hJ, hexit, hle⟩ := reduction_rule
    (fun p t1 t2 => p.wf ∧
      (p.cols = pic.cols ∧ p.rows = pic.rows ∧ p.tileh = pic.tileh ∧ p.w = pic.w ∧
        p.h = pic.h ∧ p.pal = pic.pal) ∧
      p.total_tiles ≤ p.cols * p.rows ∧ t1 < t2 ∧
      (∀ a b, a < t1 → a < b → b < p.total_tiles →
        ¬ tile_eq p.tiles a p.tiles b (p.tileh * 2)) ∧
      (∀ b, t1 < b → b < t2 → b < p.total_tiles →
        ¬ tile_eq p.tiles t1 p.tiles b (p.tileh * 2)) ∧
      (∀ a, a < p.total_tiles → ∃ b, b < pic.total_tiles ∧
        tile_eq p.tiles a pic.tiles b (pic.tileh * 2)) ∧
      (∀ b, b < pic.total_tiles → ∃ a, a < p.total_tiles ∧
        tile_eq p.tiles a pic.tiles b (pic.tileh * 2)))
    (fun p t1 => p.wf ∧
      (p.cols = pic.cols ∧ p.rows = pic.rows ∧ p.tileh = pic.tileh ∧ p.w = pic.w ∧
        p.h = pic.h ∧ p.pal = pic.pal) ∧
      p.total_tiles ≤ p.cols * p.rows ∧
      (∀ a b, a < t1 → a < b → b < p.total_tiles →
        ¬ tile_eq p.tiles a p.tiles b (p.tileh * 2)) ∧
      (∀ a, a < p.total_tiles → ∃ b, b < pic.total_tiles ∧
        tile_eq p.tiles a pic.tiles b (pic.tileh * 2)) ∧
      (∀ b, b < pic.total_tiles → ∃ a, a < p.total_tiles ∧
        tile_eq p.tiles a pic.tiles b (pic.tileh * 2)))
    (by
      rintro p t1 ⟨hw, hf, hn, hd, hfw, hbw⟩ _
      exact ⟨hw, hf, hn, Nat.lt_succ_self t1, hd, fun b h1 h2 _ => by omega, hfw, hbw⟩)
    (by
      rintro p t1 t2 ⟨hw, hf, hn, h12, hd, hd1, hfw, hbw⟩ h2 hcmp
      have f := remove_tile_fields p t1 t2
      have ts := (remove_tile_tiles p hw t1 t2 h2 hn).2
      have heq := ((compare_gb_tiles_eq_zero p t1 t2).1 hcmp).2.2.2
      have hth : p.tileh = pic.tileh := hf.2.2.1
      rw [hth] at ts heq
      refine ⟨remove_tile_wf p hw t1 t2 h12 h2 hn,
        ⟨f.1.trans hf.1, f.2.1.trans hf.2.1, f.2.2.1.trans hf.2.2.1,
          f.2.2.2.2.1.trans hf.2.2.2.1, f.2.2.2.2.2.1.trans hf.2.2.2.2.1,
          f.2.2.2.2.2.2.trans hf.2.2.2.2.2⟩,
        by rw [f.2.2.2.1, f.1, f.2.1]; omega, h12, ?_, ?_, ?_, ?_⟩
      · intro a b ha hab hb heq'
        rw [f.2.2.2.1] at hb
        rw [f.2.2.1, hth] at heq'
        have ea := ts a
        rw [if_neg (by omega)] at ea
        have eb := ts b
        have hcontra := tile_eq_trans (tile_eq_trans (tile_eq_symm ea) heq') eb
        rw [← hth] at hcontra
        by_cases e : b = t2
        · rw [if_pos e] at hcontra
          exact hd a (p.total_tiles - 1) ha (by omega) (by omega) hcontra
        · rw [if_neg e] at hcontra
          exact hd a b ha hab (by omega) hcontra
      · intro b hb1 hb2 hb heq'
        rw [f.2.2.2.1] at hb
        rw [f.2.2.1, hth] at heq'
        have ea := ts t1
        rw [if_neg (by omega)] at ea
        have eb := ts b
        rw [if_neg (by omega)] at eb
        have hcontra := tile_eq_trans (tile_eq_trans (tile_eq_symm ea) heq') eb
        rw [← hth] at hcontra
        exact hd1 b hb1 hb2 (by omega) hcontra
      · intro a ha
        rw [f.2.2.2.1] at ha
        obtain ⟨b, hb, hab⟩ := hfw (if a = t2 then p.total_tiles - 1 else a)
          (by split_ifs <;> omega)
        exact ⟨b, hb, tile_eq_trans (ts a) hab⟩
      · intro b hb
        obtain ⟨a, ha, hab⟩ := hbw b hb
        rw [f.2.2.2.1]
        by_cases e2 : a = t2
        · subst e2
          have e1 := ts t1
          rw [if_neg (by omega)] at e1
          exact ⟨t1, by omega, tile_eq_trans (tile_eq_trans e1 heq) hab⟩
        · by_cases el : a = p.total_tiles - 1
          · have e1 := ts t2
            rw [if_pos rfl, ← el] at e1
            exact ⟨t2, by omega, tile_eq_trans e1 hab⟩
          · have e1 := ts a
            rw [if_neg e2] at e1
            exact ⟨a, by omega, tile_eq_trans e1 hab⟩)
    (by
      rintro p t1 t2 ⟨hw, hf, hn, h12, hd, hd1, hfw, hbw⟩ h2 hcmp
      refine ⟨hw, hf, hn, by omega, hd, ?_, hfw, hbw⟩
      intro b hb1 hb2 hb heq
      by_cases e : b = t2
      · subst e
        exact hcmp ((compare_gb_tiles_eq_zero p t1 b).2 ⟨by omega, by omega, by omega, heq⟩)
      · exact hd1 b hb1 (by omega) hb heq)
    (by
      rintro p t1 t2 ⟨hw, hf, hn, h12, hd, hd1, hfw, hbw⟩ hex
      refine ⟨hw, hf, hn, ?_, hfw, hbw⟩
      intro a b ha hab hb
      by_cases e : a = t1
      · subst e
        exact hd1 b hab (by omega) hb
      · exact hd a b (by omega) hab hb)
    pic ⟨hwf, ⟨rfl, rfl, rfl, rfl, rfl, rfl⟩, htot, fun a b ha _ _ => by omega,
      fun a ha => ⟨a, ha, tile_eq_refl _ _ _⟩, fun b hb => ⟨b, hb, tile_eq_refl _ _ _⟩⟩
  obtain ⟨hw, hf, hn, hd, hfw, hbw⟩ := hJ
  exact ⟨r, hrun, hw, hf, hle, fun b hb a hab => hd a b (by omega) hab hb, hfw, hbw⟩

/-- The fields `do_tile_reduction` never writes are unchanged, for every picture. -/
theorem reduction_frame (pic : PICDATA) :
    ∃ r, do_tile_reduction pic = some r ∧ r.w = pic.w ∧ r.h = pic.h ∧ r.cols = pic.cols ∧
      r.rows = pic.rows ∧ r.tileh = pic.tileh ∧ r.pal = pic.pal := by
  obtain ⟨r, t1, hrun, hJ, -, -⟩ := reduction_rule
    (fun p _ _ => p.w = pic.w ∧ p.h = pic.h ∧ p.cols = pic.cols ∧ p.rows = pic.rows ∧
      p.tileh = pic.tileh ∧ p.pal = pic.pal)
    (fun p _ => p.w = pic.w ∧ p.h = pic.h ∧ p.cols = pic.cols ∧ p.rows = pic.rows ∧
      p.tileh = pic.tileh ∧ p.pal = pic.pal)
    (fun _ _ h _ => h)
    (by
      rintro p t1 t2 ⟨h1, h2, h3, h4, h5, h6⟩ _ _
      have f := remove_tile_fields p t1 t2
      exact ⟨f.2.2.2.2.1.trans h1, f.2.2.2.2.2.1.trans h2, f.1.trans h3, f.2.1.trans h4,
        f.2.2.1.trans h5, f.2.2.2.2.2.2.trans h6⟩)
    (fun _ _ _ h _ _ => h) (fun _ _ _ h _ => h) pic ⟨rfl, rfl, rfl, rfl, rfl, rfl⟩
  exact ⟨r, hrun, hJ⟩

/-- C35. Idempotence of `do_tile_reduction`: if the first `total_tiles` tiles are pairwise
distinct the call returns the picture unchanged (tile store, tilemap and `total_tiles`
included); hence, for a picture with `total_tiles <= cols*rows`, applying it to its own
result gives that result again; and it never changes `w`, `h`, `cols`, `rows`, `tileh` or the
palette words. -/
theorem reduction_idempotent (pic : PICDATA) :
    (tiles_distinct pic → do_tile_reduction pic = some pic) ∧
    (pic.wf → pic.total_tiles ≤ pic.cols * pic.rows →
      ∃ r, do_tile_reduction pic = some r ∧ do_tile_reduction r = some r) ∧
    (∃ r, do_tile_reduction pic = some r ∧ r.w = pic.w ∧ r.h = pic.h ∧ r.cols = pic.cols ∧
      r.rows = pic.rows ∧ r.tileh = pic.tileh ∧ r.pal = pic.pal) := by
  refine ⟨reduction_fixed pic, ?_, reduction_frame pic⟩
  intro hwf htot
  obtain ⟨r, hr, -, -, -, hd, -⟩ := reduction_summary pic hwf htot
  exact ⟨r, hr, reduction_fixed r hd⟩

theorem reduction_idempotent_witness :
    striped_pic.wf ∧ striped_pic.total_tiles ≤ striped_pic.cols * striped_pic.rows ∧
    tiles_distinct { striped_pic with total_tiles := 2 } ∧
    do_tile_reduction { striped_pic with total_tiles := 2 } =
      some { striped_pic with total_tiles := 2 } ∧
    ∃ r, do_tile_reduction striped_pic = some r ∧ do_tile_reduction r = some r :=
  ⟨by decide, by decide, by decide,
    (reduction_idempotent { striped_pic with total_tiles := 2 }).1 (by decide),
    (reduction_idempotent striped_pic).2.1 (by decide) (by decide)⟩

/-- C31. Reduction keeps exactly the distinct tiles: for every picture with
`total_tiles <= cols*rows`, `do_tile_reduction` returns a picture whose `total_tiles` is the
number of distinct `tileh*2`-byte blocks among the first `total_tiles` tiles before the call,
whose tiles are pairwise distinct, and whose set of tile contents is the set of tile contents
before; so `total_tiles` never grows, stays `>= 1` when it was `>= 1`, and is 1 when all
tiles were identical. -/
theorem reduction_keeps_distinct_tiles (pic : PICDATA) (hwf : pic.wf)
    (htot : pic.total_tiles ≤ pic.cols * pic.rows) :
    ∃ r, do_tile_reduction pic = some r ∧
      r.total_tiles = (tile_blocks pic).dedup.length ∧
      (tile_blocks r).Nodup ∧
      (∀ blk, blk ∈ tile_blocks r ↔ blk ∈ tile_blocks pic) ∧
      r.total_tiles ≤ pic.total_tiles ∧
      (1 ≤ pic.total_tiles → 1 ≤ r.total_tiles) ∧
      (1 ≤ pic.total_tiles →
        (∀ a, a < pic.total_tiles →
          tile_block pic.tiles (pic.tileh * 2) a = tile_block pic.tiles (pic.tileh * 2) 0) →
        r.total_tiles = 1) := by
  obtain ⟨r, hr, -, hf, hle, hd, hfw, hbw⟩ := reduction_summary pic hwf htot
  have hth : r.tileh = pic.tileh := hf.2.2.1
  have hmem : ∀ blk, blk ∈ tile_blocks r ↔ blk ∈ tile_blocks pic := by
    intro blk
    unfold tile_blocks
    simp only [List.mem_map, List.mem_range]
    constructor
    · rintro ⟨a, ha, rfl⟩
      obtain ⟨b, hb, hab⟩ := hfw a ha
      exact ⟨b, hb, by rw [hth]; exact ((tile_block_eq_iff _ _ _ _ _).2 hab).symm⟩
    · rintro ⟨b, hb, rfl⟩
      obtain ⟨a, ha, hab⟩ := hbw b hb
      exact ⟨a, ha, by rw [hth]; exact (tile_block_eq_iff _ _ _ _ _).2 hab⟩
  have hnodup : (tile_blocks r).Nodup := by
    unfold tile_blocks
    refine (List.nodup_map_iff_inj_on (List.nodup_range _)).2 ?_
    intro a ha b hb hab
    rw [List.mem_range] at ha hb
    rw [tile_block_eq_iff] at hab
    by_contra hne
    rcases Nat.lt_or_gt_of_ne hne with h | h
    · exact hd b hb a h hab
    · exact hd a ha b h (tile_eq_symm hab)
  have hlen : (tile_blocks r).length = r.total_tiles := by
    simp [tile_blocks]
  have hperm : (tile_blocks r).Perm (tile_blocks pic).dedup :=
    (List.perm_ext_iff_of_nodup hnodup (List.nodup_dedup _)).2
      (fun blk => by rw [List.mem_dedup]; exact hmem blk)
  have hpos : 1 ≤ pic.total_tiles → 1 ≤ r.total_tiles := by
    intro h1
    obtain ⟨a, ha, -⟩ := hbw 0 (by omega)
    omega
  refine ⟨r, hr, by rw [← hlen]; exact hperm.length_eq, hnodup, hmem, hle, hpos, ?_⟩
  intro h1 hall
  have hp := hpos h1
  by_contra hne
  have h2 : 1 < r.total_tiles := by omega
  obtain ⟨b0, hb0, e0⟩ := hfw 0 (by omega)
  obtain ⟨b1, hb1, e1⟩ := hfw 1 h2
  have a0 := (tile_block_eq_iff _ _ _ _ _).1 (hall b0 hb0)
  have a1 := (tile_block_eq_iff _ _ _ _ _).1 (hall b1 hb1)
  have := tile_eq_trans (tile_eq_trans e0 a0) (tile_eq_symm (tile_eq_trans e1 a1))
  rw [← hth] at this
  exact hd 1 h2 0 (by omega) this

theorem reduction_keeps_distinct_tiles_witness :
    uniform_pic.wf ∧ uniform_pic.total_tiles ≤ uniform_pic.cols * uniform_pic.rows ∧
    (tile_blocks striped_pic).dedup.length = 2 ∧
    (∃ r, do_tile_reduction striped_pic = some r ∧
      r.total_tiles = (tile_blocks striped_pic).dedup.length ∧
      (tile_blocks r).Nodup ∧
      (∀ blk, blk ∈ tile_blocks r ↔ blk ∈ tile_blocks striped_pic) ∧
      r.total_tiles ≤ striped_pic.total_tiles ∧
      (1 ≤ striped_pic.total_tiles → 1 ≤ r.total_tiles) ∧
      (1 ≤ striped_pic.total_tiles →
        (∀ a, a < striped_pic.total_tiles →
          tile_block striped_pic.tiles (striped_pic.tileh * 2) a =
            tile_block striped_pic.tiles (striped_pic.tileh * 2) 0) →
        r.total_tiles = 1)) ∧
    ∃ r, do_tile_reduction uniform_pic = some r ∧ r.total_tiles = 1 :=
  ⟨by decide, by decide, by decide,
    reduction_keeps_distinct_tiles striped_pic (by decide) (by decide),
    (reduction_keeps_distinct_tiles uniform_pic (by decide) (by decide)).elim
      (fun r hr => ⟨r, hr.1, hr.2.2.2.2.2.2 (by decide) (by decide)⟩)⟩

end Pngb
